import Mathlib

/-!
# Topology-aware CPU allocator of crane (`pkg/ensurance/cm`)

A shallow embedding of `cpu_assignment.go`, `topology.go` and `util.go`, of
`ParseRangeToSlice` of `pkg/utils/string.go`, and of the parts of the imported
Kubernetes packages `cpuset` and `topology` and of Go's `sort.Slice`, `strconv.Atoi`,
`strings.Split` and `strings.SplitN` that this code calls.

Conventions of the embedding.

* Go `int` is `Int`. The only arithmetic of the allocator is `NumCPUs / NumX`,
  `numCPUsNeeded -= size` and `size - numCPUsNeeded` on values bounded by the number of
  CPUs, so no 64-bit overflow is involved.
* `cpuset.CPUSet` is a finite set of integers, `ToSlice` its ascending enumeration.
* A Go `map[int]T` is a finite key set together with a total function; the function is
  read only at keys of the map, and a lookup at a missing key gives Go's zero value.
* What Go leaves open is collected in `Runtime`: the permutation computed by
  `sort.Slice` and the order in which `ToSliceNoSort` ranges over a map.
-/

/-! ## Package `cpuset` (k8s.io/kubernetes/pkg/kubelet/cm/cpuset) -/

namespace cpuset

/-- The type `cpuset.CPUSet`: an immutable finite set of Go ints. -/
abbrev CPUSet := Finset Int

/-- The method `CPUSet.Size`. -/
def CPUSet.Size (s : CPUSet) : Int := (s.card : Int)

/-- The method `CPUSet.ToSlice`: the elements in ascending order. -/
def CPUSet.ToSlice (s : CPUSet) : List Int :=
  Quot.liftOn s.val (fun l => l.insertionSort (fun x y => x ≤ y)) (fun a b h =>
    List.eq_of_perm_of_sorted
      ((List.perm_insertionSort _ a).trans (h.trans (List.perm_insertionSort _ b).symm))
      (List.sorted_insertionSort _ a) (List.sorted_insertionSort _ b))

/-- The method `CPUSet.Filter`: the elements on which the predicate returns true. -/
def CPUSet.Filter (s : CPUSet) (p : Int → Bool) : CPUSet :=
  Finset.filter (fun x => p x = true) s

/-- The constructor `cpuset.NewCPUSet(xs...)`. -/
def NewCPUSet (xs : List Int) : CPUSet := xs.toFinset

end cpuset

/-! ## Go runtime -/

/-- Step of Go's `insertionSort_func`: `x` is the element at index `j`; `rev` is the
part of the slice to its left, nearest element first. While `less(data[j], data[j-1])`
the two are swapped. -/
def goInsert (less : Int → Int → Bool) (x : Int) : List Int → List Int
  | [] => [x]
  | y :: ys => if less x y then y :: goInsert less x ys else x :: y :: ys

/-- Go's `insertionSort_func(data, 0, n)`: for `i = 1 .. n-1`, element `i` is moved left
as long as it is `less` than its left neighbour. This is all that `sort.Slice` does on
a slice of at most 12 elements since Go 1.19, and on a slice of at most 6 elements in
the earlier releases (which run a gap-6 pass first on 7 to 12 elements). -/
def goInsertionSort (less : Int → Int → Bool) (l : List Int) : List Int :=
  (l.foldl (fun rev x => goInsert less x rev) []).reverse

/-- The behaviour the Go runtime is free to choose. `sortSlice less l` is the slice
left by `sort.Slice(l, less)`, of which only that it permutes `l` is assumed (the
comparators of this package are not strict weak orders, so the outcome depends on the
algorithm). `noSort l` is the order in which `ToSliceNoSort` ranges over the set whose
ascending enumeration is `l`. -/
structure Runtime where
  sortSlice : (Int → Int → Bool) → List Int → List Int
  sortSlice_perm : ∀ less l, List.Perm (sortSlice less l) l
  noSort : List Int → List Int
  noSort_perm : ∀ l, List.Perm (noSort l) l

/-! ## Package `topology` (k8s.io/kubernetes/pkg/kubelet/cm/cpumanager/topology) -/

namespace topology

/-- The struct `topology.CPUInfo`. -/
structure CPUInfo where
  NUMANodeID : Int
  SocketID : Int
  CoreID : Int

/-- The type `topology.CPUDetails`, a `map[int]CPUInfo`. -/
structure CPUDetails where
  keys : Finset Int
  info : Int → CPUInfo

/-- The map lookup `d[cpu]`, the zero `CPUInfo` at a missing key. -/
def CPUDetails.get (d : CPUDetails) (cpu : Int) : CPUInfo :=
  if cpu ∈ d.keys then d.info cpu else ⟨0, 0, 0⟩

/-- The method `CPUDetails.KeepOnly`. -/
def CPUDetails.KeepOnly (d : CPUDetails) (cpus : cpuset.CPUSet) : CPUDetails :=
  ⟨d.keys.filter (fun cpu => cpu ∈ cpus), d.info⟩

/-- The method `CPUDetails.CPUs`. -/
def CPUDetails.CPUs (d : CPUDetails) : cpuset.CPUSet := d.keys

/-- The method `CPUDetails.Sockets`. -/
def CPUDetails.Sockets (d : CPUDetails) : cpuset.CPUSet :=
  d.keys.image (fun cpu => (d.info cpu).SocketID)

/-- The method `CPUDetails.CPUsInSockets`, called with one socket ID. -/
def CPUDetails.CPUsInSockets (d : CPUDetails) (id : Int) : cpuset.CPUSet :=
  d.keys.filter (fun cpu => (d.info cpu).SocketID = id)

/-- The method `CPUDetails.CoresInSockets`, called with one socket ID. -/
def CPUDetails.CoresInSockets (d : CPUDetails) (id : Int) : cpuset.CPUSet :=
  (d.keys.filter (fun cpu => (d.info cpu).SocketID = id)).image (fun cpu => (d.info cpu).CoreID)

/-- The method `CPUDetails.Cores`. -/
def CPUDetails.Cores (d : CPUDetails) : cpuset.CPUSet :=
  d.keys.image (fun cpu => (d.info cpu).CoreID)

/-- The method `CPUDetails.CPUsInCores`, called with one core ID. -/
def CPUDetails.CPUsInCores (d : CPUDetails) (id : Int) : cpuset.CPUSet :=
  d.keys.filter (fun cpu => (d.info cpu).CoreID = id)

/-- The struct `topology.CPUTopology`. -/
structure CPUTopology where
  NumCPUs : Int
  NumSockets : Int
  NumCores : Int
  CPUDetails : CPUDetails

/-- The method `CPUTopology.CPUsPerCore`; Go's `/` truncates. -/
def CPUTopology.CPUsPerCore (topo : CPUTopology) : Int :=
  if topo.NumCores = 0 then 0 else Int.tdiv topo.NumCPUs topo.NumCores

/-- The method `CPUTopology.CPUsPerSocket`; Go's `/` truncates. -/
def CPUTopology.CPUsPerSocket (topo : CPUTopology) : Int :=
  if topo.NumSockets = 0 then 0 else Int.tdiv topo.NumCPUs topo.NumSockets

end topology

/-! ## Package `cm`: `topology.go` -/

namespace cm

open cpuset

/-- The struct `CPUInfo` of `topology.go`. -/
structure CPUInfo where
  CCDID : Int

/-- The type `CPUDetails` of `topology.go`, a `map[int]CPUInfo`. -/
structure CPUDetails where
  keys : Finset Int
  info : Int → CPUInfo

/-- The map lookup `d[cpu]`, the zero `CPUInfo` at a missing key. -/
def CPUDetails.get (d : CPUDetails) (cpu : Int) : CPUInfo :=
  if cpu ∈ d.keys then d.info cpu else ⟨0⟩

/-- The method `CPUDetails.KeepOnly` of `topology.go`. -/
def CPUDetails.KeepOnly (d : CPUDetails) (cpus : CPUSet) : CPUDetails :=
  ⟨d.keys.filter (fun cpu => cpu ∈ cpus), d.info⟩

/-- The method `CPUDetails.CPUs` of `topology.go`. -/
def CPUDetails.CPUs (d : CPUDetails) : CPUSet := d.keys

/-- The method `CPUDetails.CPUsInCCDs` of `topology.go`, called with one CCD ID. -/
def CPUDetails.CPUsInCCDs (d : CPUDetails) (id : Int) : CPUSet :=
  d.keys.filter (fun cpu => (d.info cpu).CCDID = id)

/-- The method `CPUDetails.CCDs` of `topology.go`. -/
def CPUDetails.CCDs (d : CPUDetails) : CPUSet :=
  d.keys.image (fun cpu => (d.info cpu).CCDID)

/-- The struct `CCDTopology`. -/
structure CCDTopology where
  NumCCDs : Int
  CPUCCDDetails : CPUDetails

/-- The struct `CPUTopology` of `topology.go`, which embeds `*topology.CPUTopology` and
`*CCDTopology`; both are present. -/
structure CPUTopology extends topology.CPUTopology, CCDTopology

/-- The method `CPUTopology.CPUsPerCCD`; Go's `/` truncates. -/
def CPUTopology.CPUsPerCCD (topo : CPUTopology) : Int :=
  if topo.NumCCDs = 0 then 0 else Int.tdiv topo.NumCPUs topo.NumCCDs

/-- The promoted method `CPUsPerCore`. -/
def CPUTopology.CPUsPerCore (topo : CPUTopology) : Int := topo.toCPUTopology.CPUsPerCore

/-- The promoted method `CPUsPerSocket`. -/
def CPUTopology.CPUsPerSocket (topo : CPUTopology) : Int := topo.toCPUTopology.CPUsPerSocket

/-! ## Package `cm`: `cpu_assignment.go` -/

/-- The struct `cpuAccumulator`. -/
structure cpuAccumulator where
  topo : CPUTopology
  details : topology.CPUDetails
  ccdDetail : CPUDetails
  numCPUsNeeded : Int
  result : CPUSet

/-- The function `newCPUAccumulator`. -/
def newCPUAccumulator (topo : CPUTopology) (availableCPUs : CPUSet) (numCPUs : Int) :
    cpuAccumulator :=
  ⟨topo, topo.CPUDetails.KeepOnly availableCPUs, topo.CPUCCDDetails.KeepOnly availableCPUs,
    numCPUs, ∅⟩

namespace cpuAccumulator

/-- The method `take`. -/
def take (a : cpuAccumulator) (cpus : CPUSet) : cpuAccumulator :=
  let result := a.result ∪ cpus
  ⟨a.topo, a.details.KeepOnly (a.details.CPUs \ result),
    a.ccdDetail.KeepOnly (a.ccdDetail.CPUs \ result), a.numCPUsNeeded - cpus.Size, result⟩

/-- The method `isSocketFree`. -/
def isSocketFree (a : cpuAccumulator) (socketID : Int) : Bool :=
  decide ((a.details.CPUsInSockets socketID).Size = a.topo.CPUsPerSocket)

/-- The method `isCCDFree`. -/
def isCCDFree (a : cpuAccumulator) (ccdId : Int) : Bool :=
  decide ((a.ccdDetail.CPUsInCCDs ccdId).Size = a.topo.CPUsPerCCD)

/-- The method `isCoreFree`. -/
def isCoreFree (a : cpuAccumulator) (coreID : Int) : Bool :=
  decide ((a.details.CPUsInCores coreID).Size = a.topo.CPUsPerCore)

/-- The method `freeSockets`. -/
def freeSockets (a : cpuAccumulator) : List Int :=
  (a.details.Sockets.Filter a.isSocketFree).ToSlice

/-- The method `CCDsInSockets`, called with one socket ID: the CCD of every CPU of
`ccdDetail` that `details` has on that socket. -/
def CCDsInSockets (a : cpuAccumulator) (id : Int) : CPUSet :=
  (a.ccdDetail.keys.filter
    (fun i => i ∈ a.details.keys ∧ (a.details.info i).SocketID = id)).image
    (fun i => (a.ccdDetail.info i).CCDID)

/-- The method `CoresInCCDs`, called with one CCD ID: the core of every CPU of
`ccdDetail` on that CCD that `details` holds. -/
def CoresInCCDs (a : cpuAccumulator) (id : Int) : CPUSet :=
  (a.ccdDetail.keys.filter
    (fun i => i ∈ a.details.keys ∧ (a.ccdDetail.info i).CCDID = id)).image
    (fun i => (a.details.info i).CoreID)

/-- The comparator closure of `freeCCDs`, on the socket IDs at the two indices. -/
def freeCCDsLess (a : cpuAccumulator) (iSocket jSocket : Int) : Bool :=
  let iCCDs := (a.CCDsInSockets iSocket).Filter a.isCCDFree
  let jCCDs := (a.CCDsInSockets jSocket).Filter a.isCCDFree
  decide (iCCDs.Size < jCCDs.Size) || decide (iSocket < jSocket)

/-- The method `freeCCDs`. -/
def freeCCDs (rt : Runtime) (a : cpuAccumulator) : List Int :=
  let socketIDs := rt.sortSlice a.freeCCDsLess (rt.noSort a.details.Sockets.ToSlice)
  socketIDs.flatMap (fun s => ((a.CCDsInSockets s).Filter a.isCCDFree).ToSlice)

/-- The comparator closure of `freeCores`, on the CCD IDs at the two indices.
`iCPUs[0]` is in range whenever the CCD has a CPU in the topology, as every CCD of the
view of an accumulator made by `newCPUAccumulator` has. -/
def freeCoresLess (a : cpuAccumulator) (iCCD jCCD : Int) : Bool :=
  let iCPUs := (a.topo.CPUCCDDetails.CPUsInCCDs iCCD).ToSlice
  let jCPUs := (a.topo.CPUCCDDetails.CPUsInCCDs jCCD).ToSlice
  let iSocket := (a.topo.CPUDetails.get (iCPUs.headD 0)).SocketID
  let jSocket := (a.topo.CPUDetails.get (jCPUs.headD 0)).SocketID
  let iSocketCoresFree := (a.details.CoresInSockets iSocket).Filter a.isCoreFree
  let jSocketCoresFree := (a.details.CoresInSockets jSocket).Filter a.isCoreFree
  let iCCdColoScore := (a.topo.CPUCCDDetails.CPUsInCCDs iCCD ∩ a.result).Size
  let jCCdColoScore := (a.topo.CPUCCDDetails.CPUsInCCDs jCCD ∩ a.result).Size
  let iCCDCoresFree := (a.CoresInCCDs iCCD).Filter a.isCoreFree
  let jCCDCoresFree := (a.CoresInCCDs jCCD).Filter a.isCoreFree
  decide (iCCdColoScore > jCCdColoScore) ||
    decide (iSocketCoresFree.Size < jSocketCoresFree.Size) ||
    decide (iCCDCoresFree.Size < jCCDCoresFree.Size) ||
    decide (iSocket < jSocket) ||
    decide (iCCD < jCCD)

/-- The method `freeCores`. -/
def freeCores (rt : Runtime) (a : cpuAccumulator) : List Int :=
  let ccdIDs := rt.sortSlice a.freeCoresLess a.ccdDetail.CCDs.ToSlice
  ccdIDs.flatMap (fun s => ((a.CoresInCCDs s).Filter a.isCoreFree).ToSlice)

/-- The comparator closure of `freeCPUs`, on the core IDs at the two indices.
`iCPUs[0]` is in range whenever the core has a CPU in the topology, as every core of
the view of an accumulator made by `newCPUAccumulator` has. -/
def freeCPUsLess (a : cpuAccumulator) (iCore jCore : Int) : Bool :=
  let iCPUs := (a.topo.CPUDetails.CPUsInCores iCore).ToSlice
  let jCPUs := (a.topo.CPUDetails.CPUsInCores jCore).ToSlice
  let iSocket := (a.topo.CPUDetails.get (iCPUs.headD 0)).SocketID
  let jSocket := (a.topo.CPUDetails.get (jCPUs.headD 0)).SocketID
  let iCCD := (a.topo.CPUCCDDetails.get (iCPUs.headD 0)).CCDID
  let jCCD := (a.topo.CPUCCDDetails.get (jCPUs.headD 0)).CCDID
  let iSocketColoScore := (a.topo.CPUDetails.CPUsInSockets iSocket ∩ a.result).Size
  let jSocketColoScore := (a.topo.CPUDetails.CPUsInSockets jSocket ∩ a.result).Size
  let iCCdColoScore := (a.topo.CPUCCDDetails.CPUsInCCDs iCCD ∩ a.result).Size
  let jCCdColoScore := (a.topo.CPUCCDDetails.CPUsInCCDs jCCD ∩ a.result).Size
  let iSocketFreeScore := (a.details.CPUsInSockets iSocket).Size
  let jSocketFreeScore := (a.details.CPUsInSockets jSocket).Size
  let iCCDFreeScore := (a.ccdDetail.CPUsInCCDs iCCD).Size
  let jCCDFreeScore := (a.ccdDetail.CPUsInCCDs jCCD).Size
  let iCoreFreeScore := (a.details.CPUsInCores iCore).Size
  let jCoreFreeScore := (a.details.CPUsInCores jCore).Size
  decide (iSocketColoScore > jSocketColoScore) ||
    decide (iCCdColoScore > jCCdColoScore) ||
    decide (iSocketFreeScore < jSocketFreeScore) ||
    decide (iCCDFreeScore < jCCDFreeScore) ||
    decide (iCoreFreeScore < jCoreFreeScore) ||
    decide (iSocket < jSocket) ||
    decide (iCCD < jCCD) ||
    decide (iCore < jCore)

/-- The method `freeCPUs`. -/
def freeCPUs (rt : Runtime) (a : cpuAccumulator) : List Int :=
  let cores := rt.sortSlice a.freeCPUsLess a.details.Cores.ToSlice
  cores.flatMap (fun core => (a.details.CPUsInCores core).ToSlice)

/-- The method `needs`. -/
def needs (a : cpuAccumulator) (n : Int) : Bool := decide (a.numCPUsNeeded ≥ n)

/-- The method `isSatisfied`. -/
def isSatisfied (a : cpuAccumulator) : Bool := decide (a.numCPUsNeeded < 1)

/-- The method `isFailed`. -/
def isFailed (a : cpuAccumulator) : Bool := decide (a.numCPUsNeeded > a.details.CPUs.Size)

end cpuAccumulator

/-- The loop shared by phases 1 to 3 of `takeByTopology`:
`for _, s := range ids { acc.take(cpusOf(s)); if acc.isSatisfied() { return acc.result, nil };
if !acc.needs(unit) { break } }`. `Except.error r` is the early `return r, nil`,
`Except.ok acc` the state with which the loop is left. `unit` is the value of
`acc.topo.CPUsPerX()`, the same at every iteration since `take` leaves `topo` alone. -/
def takeLoop (unit : Int) (cpusOf : cpuAccumulator → Int → CPUSet) :
    List Int → cpuAccumulator → Except CPUSet cpuAccumulator
  | [], acc => .ok acc
  | s :: rest, acc =>
    let acc1 := acc.take (cpusOf acc s)
    if acc1.isSatisfied then .error acc1.result
    else if !acc1.needs unit then .ok acc1
    else takeLoop unit cpusOf rest acc1

/-- Phase 1 of `takeByTopology`: whole sockets. -/
def takeSockets (acc : cpuAccumulator) : Except CPUSet cpuAccumulator :=
  if acc.needs acc.topo.CPUsPerSocket then
    takeLoop acc.topo.CPUsPerSocket (fun a s => a.details.CPUsInSockets s) acc.freeSockets acc
  else .ok acc

/-- Phase 2 of `takeByTopology`: whole CCDs. -/
def takeCCDs (rt : Runtime) (acc : cpuAccumulator) : Except CPUSet cpuAccumulator :=
  if acc.needs acc.topo.CPUsPerCCD then
    takeLoop acc.topo.CPUsPerCCD (fun a c => a.ccdDetail.CPUsInCCDs c) (acc.freeCCDs rt) acc
  else .ok acc

/-- The fit score of phase 3: the free CPUs on the CCD of the core minus the remaining
demand (`iScore` in the source). `iCPUs[0]` is in range for every core of the view. -/
def fitScore (acc : cpuAccumulator) (iCore : Int) : Int :=
  let iCPUs := (acc.topo.CPUDetails.CPUsInCores iCore).ToSlice
  let iCCD := (acc.topo.CPUCCDDetails.get (iCPUs.headD 0)).CCDID
  let iCCDFreeScore := (acc.ccdDetail.CPUsInCCDs iCCD).Size
  iCCDFreeScore - acc.numCPUsNeeded

/-- The return expression of the comparator closure of phase 3, on the two scores. -/
def fitLess (iScore jScore : Int) : Bool :=
  (decide (iScore ≥ 0) && decide (jScore ≥ 0) && decide (iScore < jScore)) ||
    (decide (iScore ≤ 0) && decide (jScore < 0) && decide (iScore > jScore)) ||
    (decide (iScore > 0) && decide (jScore < 0))

/-- The comparator closure of phase 3, on the core IDs at the two indices. -/
def bestFitLess (acc : cpuAccumulator) (iCore jCore : Int) : Bool :=
  fitLess (fitScore acc iCore) (fitScore acc jCore)

/-- Phase 3 of `takeByTopology`: whole cores, after the best-fit re-sort. -/
def takeCores (rt : Runtime) (acc : cpuAccumulator) : Except CPUSet cpuAccumulator :=
  if acc.needs acc.topo.CPUsPerCore then
    let cores := rt.sortSlice (bestFitLess acc) (acc.freeCores rt)
    takeLoop acc.topo.CPUsPerCore (fun a c => a.details.CPUsInCores c) cores acc
  else .ok acc

/-- The loop of phase 4:
`for _, c := range cpus { if acc.needs(1) { acc.take({c}) }; if acc.isSatisfied() { return } }`;
`none` when the loop ends without a return. -/
def takeCPUs : List Int → cpuAccumulator → Option CPUSet
  | [], _ => none
  | c :: rest, acc =>
    let acc1 := if acc.needs 1 then acc.take (NewCPUSet [c]) else acc
    if acc1.isSatisfied then some acc1.result else takeCPUs rest acc1

/-- The first error message of `takeByTopology`. -/
def errNotEnough : String := "not enough cpus available to satisfy request"

/-- The second error message of `takeByTopology`. -/
def errFailed : String := "failed to allocate cpus"

/-- The function `takeByTopology`; the pair is Go's `(cpuset.CPUSet, error)`, the error
being `none` for `nil` and otherwise its message. -/
def takeByTopology (rt : Runtime) (topo : CPUTopology) (availableCPUs : CPUSet)
    (numCPUs : Int) : CPUSet × Option String :=
  let acc := newCPUAccumulator topo availableCPUs numCPUs
  if acc.isSatisfied then (acc.result, none)
  else if acc.isFailed then (NewCPUSet [], some errNotEnough)
  else
    match takeSockets acc with
    | .error r => (r, none)
    | .ok acc1 =>
      match takeCCDs rt acc1 with
      | .error r => (r, none)
      | .ok acc2 =>
        match takeCores rt acc2 with
        | .error r => (r, none)
        | .ok acc3 =>
          match takeCPUs (acc3.freeCPUs rt) acc3 with
          | some r => (r, none)
          | none => (NewCPUSet [], some errFailed)

/-! ## Fixtures of `cpu_assignment_test.go` and a concrete runtime -/

/-- A `map[int]topology.CPUInfo` literal, from its `(cpu, core, socket, numa)` rows. -/
def topoDetailsOf (rows : List (Int × Int × Int × Int)) : topology.CPUDetails :=
  ⟨(rows.map (fun r => r.1)).toFinset,
    fun cpu => match rows.find? (fun r => r.1 == cpu) with
      | some r => ⟨r.2.2.2, r.2.2.1, r.2.1⟩
      | none => ⟨0, 0, 0⟩⟩

/-- A `map[int]CPUInfo` literal, from its `(cpu, ccd)` rows. -/
def ccdDetailsOf (rows : List (Int × Int)) : CPUDetails :=
  ⟨(rows.map (fun r => r.1)).toFinset,
    fun cpu => match rows.find? (fun r => r.1 == cpu) with
      | some r => ⟨r.2⟩
      | none => ⟨0⟩⟩

/-- The fixture `topoSingleSocketHT`. -/
def topoSingleSocketHT : CPUTopology :=
  ⟨⟨8, 1, 4, topoDetailsOf [(0, 0, 0, 0), (1, 1, 0, 0), (2, 2, 0, 0), (3, 3, 0, 0),
      (4, 0, 0, 0), (5, 1, 0, 0), (6, 2, 0, 0), (7, 3, 0, 0)]⟩,
    ⟨2, ccdDetailsOf [(0, 0), (1, 1), (2, 0), (3, 1), (4, 0), (5, 1), (6, 0), (7, 1)]⟩⟩

/-- The fixture `topoDualSocketHT`. -/
def topoDualSocketHT : CPUTopology :=
  ⟨⟨16, 2, 8, topoDetailsOf [(0, 0, 0, 0), (1, 1, 1, 1), (2, 2, 0, 0), (3, 3, 1, 1),
      (4, 4, 0, 0), (5, 5, 1, 1), (6, 6, 0, 0), (7, 7, 1, 1), (8, 0, 0, 0), (9, 1, 1, 1),
      (10, 2, 0, 0), (11, 3, 1, 1), (12, 4, 0, 0), (13, 5, 1, 1), (14, 6, 0, 0),
      (15, 7, 1, 1)]⟩,
    ⟨4, ccdDetailsOf [(0, 0), (1, 1), (2, 2), (3, 3), (4, 0), (5, 1), (6, 2), (7, 3),
      (8, 0), (9, 1), (10, 2), (11, 3), (12, 0), (13, 1), (14, 2), (15, 3)]⟩⟩

/-- The runtime in which `sort.Slice` is Go's insertion sort and `ToSliceNoSort` ranges
over the elements in ascending order. -/
def rtAscending : Runtime where
  sortSlice := goInsertionSort
  sortSlice_perm := by
    intro less l
    have ins : ∀ (x : Int) (l : List Int), List.Perm (goInsert less x l) (x :: l) := by
      intro x l
      induction l with
      | nil => exact List.Perm.refl _
      | cons y ys ih =>
        unfold goInsert
        split
        · exact (List.Perm.cons y ih).trans (List.Perm.swap x y ys)
        · exact List.Perm.refl _
    have key : ∀ (l rev : List Int),
        List.Perm (l.foldl (fun rev x => goInsert less x rev) rev) (l.reverse ++ rev) := by
      intro l
      induction l with
      | nil => intro rev; simp
      | cons x xs ih =>
        intro rev
        simp only [List.foldl_cons, List.reverse_cons, List.append_assoc,
          List.singleton_append]
        exact (ih _).trans (List.Perm.append_left _ (ins x rev))
    unfold goInsertionSort
    refine (List.reverse_perm _).trans ((key l []).trans ?_)
    rw [List.append_nil]
    exact List.reverse_perm l
  noSort := fun l => l
  noSort_perm := fun l => List.Perm.refl l

/-- The runtime in which `sort.Slice` is Go's insertion sort and `ToSliceNoSort` ranges
over the elements in descending order. -/
def rtDescending : Runtime where
  sortSlice := goInsertionSort
  sortSlice_perm := rtAscending.sortSlice_perm
  noSort := fun l => l.reverse
  noSort_perm := fun l => List.reverse_perm l

/-! ## The orders stated by the doc comments of the source and by the specification -/

/-- Strict lexicographic comparison of two key tuples: the first component on which
they differ decides. -/
def lexLt : List Int → List Int → Bool
  | x :: xs, y :: ys => decide (x < y) || (decide (x = y) && lexLt xs ys)
  | _, _ => false

/-- Sorting of candidates by ascending key tuple. -/
def sortByKey (key : Int → List Int) (l : List Int) : List Int :=
  l.insertionSort (fun x y => lexLt (key y) (key x) = false)

/-- The key of a socket in the stated order of `freeCCDs`: the number of free CCDs on
the socket, then the socket ID. -/
def socketKey (a : cpuAccumulator) (s : Int) : List Int :=
  [((a.CCDsInSockets s).Filter a.isCCDFree).Size, s]

/-- The stated result of `freeCCDs`: the sockets of the view by ascending `socketKey`,
each contributing its free CCDs in ascending order. -/
def freeCCDsStated (a : cpuAccumulator) : List Int :=
  (sortByKey (socketKey a) a.details.Sockets.ToSlice).flatMap
    (fun s => ((a.CCDsInSockets s).Filter a.isCCDFree).ToSlice)

/-- The key of a CCD in the stated order of `freeCores`: colocation with the result
(descending), free cores on the socket of the CCD, free cores on the CCD, socket ID,
CCD ID. -/
def ccdKey (a : cpuAccumulator) (c : Int) : List Int :=
  let socket := (a.topo.CPUDetails.get ((a.topo.CPUCCDDetails.CPUsInCCDs c).ToSlice.headD 0)).SocketID
  [-(a.topo.CPUCCDDetails.CPUsInCCDs c ∩ a.result).Size,
    ((a.details.CoresInSockets socket).Filter a.isCoreFree).Size,
    ((a.CoresInCCDs c).Filter a.isCoreFree).Size, socket, c]

/-- The stated result of `freeCores`: the CCDs of the view by ascending `ccdKey`, each
contributing its free cores in ascending order. -/
def freeCoresStated (a : cpuAccumulator) : List Int :=
  (sortByKey (ccdKey a) a.ccdDetail.CCDs.ToSlice).flatMap
    (fun c => ((a.CoresInCCDs c).Filter a.isCoreFree).ToSlice)

/-- The key of a core in the stated order of `freeCPUs`: colocation of its socket and
of its CCD with the result (descending), free CPUs on the socket, on the CCD and on the
core, then socket ID, CCD ID and core ID. -/
def coreKey (a : cpuAccumulator) (core : Int) : List Int :=
  let cpu := (a.topo.CPUDetails.CPUsInCores core).ToSlice.headD 0
  let socket := (a.topo.CPUDetails.get cpu).SocketID
  let ccd := (a.topo.CPUCCDDetails.get cpu).CCDID
  [-(a.topo.CPUDetails.CPUsInSockets socket ∩ a.result).Size,
    -(a.topo.CPUCCDDetails.CPUsInCCDs ccd ∩ a.result).Size,
    (a.details.CPUsInSockets socket).Size, (a.ccdDetail.CPUsInCCDs ccd).Size,
    (a.details.CPUsInCores core).Size, socket, ccd, core]

/-- The stated result of `freeCPUs`: the cores of the view by ascending `coreKey`, each
contributing its CPUs of the view in ascending order. -/
def freeCPUsStated (a : cpuAccumulator) : List Int :=
  (sortByKey (coreKey a) a.details.Cores.ToSlice).flatMap
    (fun core => (a.details.CPUsInCores core).ToSlice)

/-! ## Invariants of the accumulator -/

/-- The invariant that every accumulator of `takeByTopology avail n` satisfies: the
result and both views lie in `avail`, the result is disjoint from both views, and the
remaining demand is `n` minus the size of the result and is not negative. -/
structure AccInv (avail : CPUSet) (n : Int) (a : cpuAccumulator) : Prop where
  result_sub : a.result ⊆ avail
  details_sub : a.details.keys ⊆ avail
  ccd_sub : a.ccdDetail.keys ⊆ avail
  details_disj : Disjoint a.result a.details.keys
  ccd_disj : Disjoint a.result a.ccdDetail.keys
  needed_eq : a.numCPUsNeeded = n - a.result.card
  needed_nonneg : 0 ≤ a.numCPUsNeeded

/-- The further invariant on which phase 4 relies: the CCD view lies in the view, and
the view has at least as many CPUs as are still needed. -/
structure AccEnough (a : cpuAccumulator) : Prop where
  ccd_details : a.ccdDetail.keys ⊆ a.details.keys
  enough : a.numCPUsNeeded ≤ a.details.keys.card

/-- The two views of the accumulator are restrictions of the maps of its topology, as
they are in every accumulator made by `newCPUAccumulator` and changed by `take`. -/
structure ViewOfTopo (a : cpuAccumulator) : Prop where
  details_keys : a.details.keys ⊆ a.topo.CPUDetails.keys
  details_info : a.details.info = a.topo.CPUDetails.info
  ccd_keys : a.ccdDetail.keys ⊆ a.topo.CPUCCDDetails.keys
  ccd_info : a.ccdDetail.info = a.topo.CPUCCDDetails.info

/-- A candidate unit of a phase-1-to-3 loop is takeable: its CPUs in the view number
exactly `unit`, or none is left. -/
def Takeable (unit : Int) (cpusOf : cpuAccumulator → Int → CPUSet) (a : cpuAccumulator)
    (s : Int) : Prop :=
  ((cpusOf a s).card : Int) = unit ∨ cpusOf a s = ∅

/-- What the loops of phases 1 to 3 use of the unit they take (`CPUsInSockets` and
`CPUsInCores` of the view, `CPUsInCCDs` of the CCD view): it lies in the two views, and
once one unit is taken every unit is either as before or empty. -/
structure UnitView (cpusOf : cpuAccumulator → Int → CPUSet) : Prop where
  sub : ∀ a s, cpusOf a s ⊆ a.details.keys ∪ a.ccdDetail.keys
  after_take : ∀ a s t, Disjoint a.result a.details.keys →
    Disjoint a.result a.ccdDetail.keys →
    cpusOf (a.take (cpusOf a s)) t = ∅ ∨ cpusOf (a.take (cpusOf a s)) t = cpusOf a t

/-- What a phase that starts in the state `a` guarantees of its outcome: an early
return gives a subset of `avail` of exactly `n` CPUs; otherwise the state left
satisfies the invariant, still needs a CPU, and has enough CPUs if `a` had. -/
def PhasePost (avail : CPUSet) (n : Int) (a : cpuAccumulator) :
    Except CPUSet cpuAccumulator → Prop
  | .error r => r ⊆ avail ∧ (r.card : Int) = n
  | .ok b => AccInv avail n b ∧ 1 ≤ b.numCPUsNeeded ∧ (AccEnough a → AccEnough b)

/-! ## `sort.Slice` of the Go releases before 1.19 on 7 to 12 elements -/

/-- The gap-6 pass that `quickSort_func` of Go 1.18 and earlier runs on a slice of 2 to
12 elements before its insertion sort:
`for i := a + 6; i < b; i++ { if data.Less(i, i-6) { data.Swap(i, i-6) } }`.
On at most 12 elements the pairs `(i-6, i)` do not overlap, so the pass compares the
`k`-th element `x` of the first six (`lo`) with the `k`-th element `y` of the others
(`hi`) and swaps the two when `less(y, x)`. -/
def goGapPass (less : Int → Int → Bool) : List Int → List Int → List Int × List Int
  | x :: lo, y :: hi =>
    let r := goGapPass less lo hi
    if less y x then (y :: r.1, x :: r.2) else (x :: r.1, y :: r.2)
  | lo, hi => (lo, hi)

/-- What `sort.Slice` does on a slice of at most 12 elements in Go 1.18 and earlier:
the gap-6 pass, then the insertion sort. -/
def goShellInsertionSort (less : Int → Int → Bool) (l : List Int) : List Int :=
  let r := goGapPass less (l.take 6) (l.drop 6)
  goInsertionSort less (r.1 ++ r.2)

/-- The runtime of Go 1.18 and earlier on slices of at most 12 elements, `ToSliceNoSort`
ranging over the elements in ascending order. -/
def rtGapInsertion : Runtime where
  sortSlice := goShellInsertionSort
  sortSlice_perm := by
    intro less l
    have gap : ∀ (lo hi : List Int),
        List.Perm ((goGapPass less lo hi).1 ++ (goGapPass less lo hi).2) (lo ++ hi) := by
      intro lo
      induction lo with
      | nil => intro hi; cases hi <;> exact List.Perm.refl _
      | cons x lo ih =>
        intro hi
        cases hi with
        | nil => exact List.Perm.refl _
        | cons y hi =>
          have h := ih hi
          have hmid : ∀ (u v : Int) (p q : List Int), List.Perm (p ++ q) (lo ++ hi) →
              List.Perm (u :: p ++ v :: q) (u :: lo ++ v :: hi) := by
            intro u v p q hpq
            refine List.Perm.cons u ?_
            exact (List.perm_middle).trans ((List.Perm.cons v hpq).trans
              (List.perm_middle).symm)
          unfold goGapPass
          split
          · refine (hmid y x _ _ h).trans ?_
            refine (List.Perm.cons y (List.perm_middle)).trans ?_
            refine (List.Perm.swap x y _).trans ?_
            exact List.Perm.cons x (List.perm_middle).symm
          · exact hmid x y _ _ h
    unfold goShellInsertionSort
    refine (rtAscending.sortSlice_perm less _).trans ((gap _ _).trans ?_)
    rw [List.take_append_drop]
  noSort := fun l => l
  noSort_perm := fun l => List.Perm.refl l

/-! ## Further topologies -/

/-- A two-socket topology with 12 cores of two threads: CPUs `i` and `i + 12` are the
threads of core `i`; cores 0 to 5 are CCD 0 on socket 1, cores 6 to 11 are CCD 1 on
socket 0. -/
def topoTwoCCD : CPUTopology :=
  ⟨⟨24, 2, 12, topoDetailsOf ((List.range 24).map (fun (i : Nat) =>
      (Int.ofNat i, Int.ofNat (i % 12), (if i % 12 < 6 then 1 else 0 : Int),
        (if i % 12 < 6 then 1 else 0 : Int))))⟩,
    ⟨2, ccdDetailsOf ((List.range 24).map (fun (i : Nat) =>
      (Int.ofNat i, (if i % 12 < 6 then 0 else 1 : Int))))⟩⟩

/-- A topology whose units are not of one size: CPUs 0, 1, 2 are core 0 on socket 0 and
CCD 0, CPU 3 is core 1 on socket 1 and CCD 1. -/
def topoUneven : CPUTopology :=
  ⟨⟨4, 2, 2, topoDetailsOf [(0, 0, 0, 0), (1, 0, 0, 0), (2, 0, 0, 0), (3, 1, 1, 1)]⟩,
    ⟨2, ccdDetailsOf [(0, 0), (1, 0), (2, 0), (3, 1)]⟩⟩

/-- The degraded form of `topoSingleSocketHT`: no CCD is known, `NumCCDs` is 0 and the
CCD map is empty. -/
def topoDegraded : CPUTopology :=
  ⟨topoSingleSocketHT.toCPUTopology, ⟨0, ⟨∅, fun _ => ⟨0⟩⟩⟩⟩

/-- A one-socket topology whose CCDs are not of one size: four cores of one thread,
CPUs 0, 1, 2 on CCD 0 and CPU 3 on CCD 1, so that `CPUsPerCCD()` is 2. -/
def topoBigCCD : CPUTopology :=
  ⟨⟨4, 1, 4, topoDetailsOf [(0, 0, 0, 0), (1, 1, 0, 0), (2, 2, 0, 0), (3, 3, 0, 0)]⟩,
    ⟨2, ccdDetailsOf [(0, 0), (1, 0), (2, 0), (3, 1)]⟩⟩

/-- A one-socket, one-CCD topology whose cores are not of one size: CPUs 0, 1, 2 are
core 0 and CPU 3 is core 1, so that `CPUsPerCore()` is 2. -/
def topoBigCore : CPUTopology :=
  ⟨⟨4, 1, 2, topoDetailsOf [(0, 0, 0, 0), (1, 0, 0, 0), (2, 0, 0, 0), (3, 1, 0, 0)]⟩,
    ⟨1, ccdDetailsOf [(0, 0), (1, 0), (2, 0), (3, 0)]⟩⟩

/-- The derived invariants that section 3 of the specification requires of a topology:
every CPU of `cpu_info` is in `cpu_ccd` when `num_ccds > 0`; `num_cpus = |cpu_info|`; the
cores of two different sockets are disjoint. (The fourth, that the per-level sizes are
the integer quotients, is how `CPUsPerSocket`, `CPUsPerCCD` and `CPUsPerCore` are
defined.) -/
def Section3 (topo : CPUTopology) : Prop :=
  (0 < topo.NumCCDs → topo.CPUDetails.keys ⊆ topo.CPUCCDDetails.keys) ∧
    topo.NumCPUs = (topo.CPUDetails.keys.card : Int) ∧
    ∀ x ∈ topo.CPUDetails.keys, ∀ y ∈ topo.CPUDetails.keys,
      (topo.CPUDetails.info x).CoreID = (topo.CPUDetails.info y).CoreID →
        (topo.CPUDetails.info x).SocketID = (topo.CPUDetails.info y).SocketID

instance (topo : CPUTopology) : Decidable (Section3 topo) := by
  unfold Section3
  infer_instance

/-! ## Sequences of takes and the states of `takeByTopology` -/

/-- The accumulator after a sequence of calls of `take`. -/
def cpuAccumulator.takes (a : cpuAccumulator) (l : List CPUSet) : cpuAccumulator :=
  l.foldl cpuAccumulator.take a

/-- Each argument of a sequence of calls of `take` is a subset of the CPUs of the view
at the time of its call. -/
def TakesOfView : cpuAccumulator → List CPUSet → Prop
  | _, [] => True
  | a, cpus :: rest => cpus ⊆ a.details.CPUs ∧ TakesOfView (a.take cpus) rest

/-- The states through which the loop `takeLoop` passes: the accumulator after each
`acc.take`. -/
def takeLoopStates (unit : Int) (cpusOf : cpuAccumulator → Int → CPUSet) :
    List Int → cpuAccumulator → List cpuAccumulator
  | [], _ => []
  | s :: rest, acc =>
    let acc1 := acc.take (cpusOf acc s)
    acc1 :: (if acc1.isSatisfied then []
      else if !acc1.needs unit then []
      else takeLoopStates unit cpusOf rest acc1)

/-- The states through which the loop of phase 4 passes: the accumulator after each
`acc.take`. -/
def takeCPUsStates : List Int → cpuAccumulator → List cpuAccumulator
  | [], _ => []
  | c :: rest, acc =>
    let acc1 := if acc.needs 1 then acc.take (NewCPUSet [c]) else acc
    (if acc.needs 1 then [acc1] else []) ++
      (if acc1.isSatisfied then [] else takeCPUsStates rest acc1)

/-- The states through which `takeByTopology` passes: the accumulator after each
`acc.take` of its four phases, in the order of the calls. -/
def takeByTopologyStates (rt : Runtime) (topo : CPUTopology) (availableCPUs : CPUSet)
    (numCPUs : Int) : List cpuAccumulator :=
  let acc := newCPUAccumulator topo availableCPUs numCPUs
  if acc.isSatisfied then []
  else if acc.isFailed then []
  else
    (if acc.needs acc.topo.CPUsPerSocket then
      takeLoopStates acc.topo.CPUsPerSocket (fun a s => a.details.CPUsInSockets s)
        acc.freeSockets acc
    else []) ++
    match takeSockets acc with
    | .error _ => []
    | .ok acc1 =>
      (if acc1.needs acc1.topo.CPUsPerCCD then
        takeLoopStates acc1.topo.CPUsPerCCD (fun a c => a.ccdDetail.CPUsInCCDs c)
          (acc1.freeCCDs rt) acc1
      else []) ++
      match takeCCDs rt acc1 with
      | .error _ => []
      | .ok acc2 =>
        (if acc2.needs acc2.topo.CPUsPerCore then
          takeLoopStates acc2.topo.CPUsPerCore (fun a c => a.details.CPUsInCores c)
            (rt.sortSlice (bestFitLess acc2) (acc2.freeCores rt)) acc2
        else []) ++
        match takeCores rt acc2 with
        | .error _ => []
        | .ok acc3 => takeCPUsStates (acc3.freeCPUs rt) acc3

/-- The accounting of the view against the available set: the CCD view lies in the
view, the result is disjoint from the view, and the CPUs of the view and of the result
together number those of `avail`. -/
structure ViewCount (avail : CPUSet) (a : cpuAccumulator) : Prop where
  ccd_details : a.ccdDetail.keys ⊆ a.details.keys
  details_disj : Disjoint a.result a.details.keys
  count : a.details.keys.card + a.result.card = avail.card

/-- The result that the outcome of a phase carries: the set returned early, or the
result of the state with which the phase is left. -/
def outcomeResult : Except CPUSet cpuAccumulator → CPUSet
  | .error r => r
  | .ok b => b.result

/-! ## Package `cm`: `Discover` and `discoverCCD` of `topology.go` -/

/-- The first loop of `discoverCCD`: a CPU that an earlier list contains is skipped
(`continue L`); otherwise its shared-CPU list is read and appended, and a read error
ends the function. `getShareCpuList` stands for the function of that name, which reads
`/sys/devices/system/cpu/cpuN/cache/index3/shared_cpu_list`. -/
def discoverLists (getShareCpuList : Int → Except String CPUSet) :
    List Int → List CPUSet → Except String (List CPUSet)
  | [], ccdCpuSet => .ok ccdCpuSet
  | cpuId :: rest, ccdCpuSet =>
    if ccdCpuSet.any (fun s => decide (cpuId ∈ s)) then
      discoverLists getShareCpuList rest ccdCpuSet
    else
      match getShareCpuList cpuId with
      | .error err => .error err
      | .ok s => discoverLists getShareCpuList rest (ccdCpuSet ++ [s])

/-- The second loop of `discoverCCD`: `cPUDetails[cpuId] = CPUInfo{CCDID: ccdID}` for
every CPU of the list number `ccdID`, a later list overwriting an earlier one. -/
def assignCCDs : List CPUSet → Int → CPUDetails → CPUDetails
  | [], _, d => d
  | s :: rest, ccdID, d =>
    assignCCDs rest (ccdID + 1) ⟨d.keys ∪ s, fun cpu => if cpu ∈ s then ⟨ccdID⟩ else d.info cpu⟩

/-- The function `discoverCCD`; the pair is Go's `(*CCDTopology, error)`, `none` in the
first component being the nil pointer and in the second the nil error. -/
def discoverCCD (getShareCpuList : Int → Except String CPUSet) (cpuSet : CPUSet) :
    Option CCDTopology × Option String :=
  match discoverLists getShareCpuList cpuSet.ToSlice [] with
  | .error err => (none, some err)
  | .ok ccdCpuSet =>
    (some ⟨(ccdCpuSet.length : Int), assignCCDs ccdCpuSet 0 ⟨∅, fun _ => ⟨0⟩⟩⟩, none)

/-- The Go value `&CPUTopology{commonTopo, ccdTopo}` as `Discover` builds it: the
embedded `*CCDTopology` is `none` when it is the nil pointer. -/
structure DiscoveredTopology where
  common : topology.CPUTopology
  ccd : Option CCDTopology

/-- The field `topo.NumCCDs`, promoted from the embedded `*CCDTopology`; `none` is the
nil-pointer dereference, a run-time panic. -/
def DiscoveredTopology.NumCCDs (topo : DiscoveredTopology) : Option Int :=
  match topo.ccd with
  | none => none
  | some c => some c.NumCCDs

/-- The field `topo.CPUCCDDetails`, promoted from the embedded `*CCDTopology`; `none`
is the nil-pointer dereference, a run-time panic. -/
def DiscoveredTopology.CPUCCDDetails (topo : DiscoveredTopology) : Option CPUDetails :=
  match topo.ccd with
  | none => none
  | some c => some c.CPUCCDDetails

/-- The method `CPUsPerCCD` on the value built by `Discover`: it reads `topo.NumCCDs`
first, so `none` (the panic) when the embedded pointer is nil. -/
def DiscoveredTopology.CPUsPerCCD (topo : DiscoveredTopology) : Option Int :=
  match topo.ccd with
  | none => none
  | some c => some (CPUTopology.CPUsPerCCD ⟨topo.common, c⟩)

/-- The function `Discover`. `commonResult` is what the imported `topology.Discover`
returns for the machine; an error of `discoverCCD` is logged and dropped. -/
def Discover (commonResult : Except String topology.CPUTopology)
    (getShareCpuList : Int → Except String CPUSet) : Except String DiscoveredTopology :=
  match commonResult with
  | .error err => .error err
  | .ok commonTopo =>
    let r := discoverCCD getShareCpuList commonTopo.CPUDetails.CPUs
    .ok ⟨commonTopo, r.1⟩

/-- The invariant of the first loop of `discoverCCD` under a reader `L` that never
fails: `P` are the CPUs met so far and `ls`, in ascending order, those of them whose
list was appended; each is the lowest CPU met of its list, and the list of every CPU
met is the list of one of them. -/
structure LeadersInv (L : Int → CPUSet) (P : Finset Int) (ls : List Int) : Prop where
  sorted : ls.Sorted (fun x y => x < y)
  mem : ∀ l ∈ ls, l ∈ P
  lowest : ∀ l ∈ ls, ∀ y ∈ P, y ∈ L l → l ≤ y
  cover : ∀ c ∈ P, ∃ l ∈ ls, L c = L l

/-- A reader of shared-CPU lists for a machine of four CPUs: the CPUs 0 and 3 share
one list, the CPUs 1 and 2 the other. -/
def sharedListOf (c : Int) : CPUSet :=
  if c = 0 ∨ c = 3 then NewCPUSet [0, 3] else NewCPUSet [1, 2]

/-! ## The state at entry to phase 4 -/

/-- The accumulator with which `takeByTopology` enters phase 4 (the `acc` on which
`acc.freeCPUs()` is called), `none` when the function returns before. -/
def phase4Entry (rt : Runtime) (topo : CPUTopology) (availableCPUs : CPUSet)
    (numCPUs : Int) : Option cpuAccumulator :=
  let acc := newCPUAccumulator topo availableCPUs numCPUs
  if acc.isSatisfied then none
  else if acc.isFailed then none
  else
    match takeSockets acc with
    | .error _ => none
    | .ok acc1 =>
      match takeCCDs rt acc1 with
      | .error _ => none
      | .ok acc2 =>
        match takeCores rt acc2 with
        | .error _ => none
        | .ok acc3 => some acc3

/-- The colocation score of a socket in `freeCPUs`: the CPUs that the topology places
on the socket and that are in the result (`iSocketColoScore` in the source). -/
def socketColoScore (a : cpuAccumulator) (socket : Int) : Int :=
  (a.topo.CPUDetails.CPUsInSockets socket ∩ a.result).Size

/-! ## Locality of an allocation -/

/-- The IDs of the units all of whose CPUs among `K` lie in `X`; `f` gives the unit
(socket, CCD or core) of a CPU. -/
def wholeUnits (K : Finset Int) (f : Int → Int) (X : Finset Int) : Finset Int :=
  (K.image f).filter (fun s => K.filter (fun x => f x = s) ⊆ X)

/-- The sockets all of whose topology CPUs lie in `R`. -/
def wholeSockets (topo : CPUTopology) (R : CPUSet) : Finset Int :=
  topo.CPUDetails.Sockets.filter (fun s => topo.CPUDetails.CPUsInSockets s ⊆ R)

/-- The CCDs all of whose topology CPUs lie in `R`. -/
def wholeCCDs (topo : CPUTopology) (R : CPUSet) : Finset Int :=
  topo.CPUCCDDetails.CCDs.filter (fun c => topo.CPUCCDDetails.CPUsInCCDs c ⊆ R)

/-- The cores all of whose topology CPUs lie in `R`. -/
def wholeCores (topo : CPUTopology) (R : CPUSet) : Finset Int :=
  topo.CPUDetails.Cores.filter (fun c => topo.CPUDetails.CPUsInCores c ⊆ R)

/-- The locality `W(R)` of an allocation `R`: the number of sockets plus the number of
CCDs plus the number of cores all of whose topology CPUs lie in `R`. -/
def W (topo : CPUTopology) (R : CPUSet) : Nat :=
  (wholeSockets topo R).card + (wholeCCDs topo R).card + (wholeCores topo R).card

/-- A topology of whole, nested units: the CCD map has the CPUs of the CPU map; every
socket, CCD and core holds exactly `CPUsPerSocket()`, `CPUsPerCCD()` and `CPUsPerCore()`
CPUs; the CPUs of a core are on one CCD and the CPUs of a CCD on one socket. -/
def Regular (topo : CPUTopology) : Prop :=
  topo.CPUCCDDetails.keys = topo.CPUDetails.keys ∧
  (∀ x ∈ topo.CPUDetails.keys,
    ((topo.CPUDetails.CPUsInSockets (topo.CPUDetails.info x).SocketID).card : Int)
      = topo.CPUsPerSocket) ∧
  (∀ x ∈ topo.CPUDetails.keys,
    ((topo.CPUCCDDetails.CPUsInCCDs (topo.CPUCCDDetails.info x).CCDID).card : Int)
      = topo.CPUsPerCCD) ∧
  (∀ x ∈ topo.CPUDetails.keys,
    ((topo.CPUDetails.CPUsInCores (topo.CPUDetails.info x).CoreID).card : Int)
      = topo.CPUsPerCore) ∧
  (∀ x ∈ topo.CPUDetails.keys, ∀ y ∈ topo.CPUDetails.keys,
    (topo.CPUDetails.info x).CoreID = (topo.CPUDetails.info y).CoreID →
      (topo.CPUCCDDetails.info x).CCDID = (topo.CPUCCDDetails.info y).CCDID) ∧
  (∀ x ∈ topo.CPUDetails.keys, ∀ y ∈ topo.CPUDetails.keys,
    (topo.CPUCCDDetails.info x).CCDID = (topo.CPUCCDDetails.info y).CCDID →
      (topo.CPUDetails.info x).SocketID = (topo.CPUDetails.info y).SocketID)

instance (topo : CPUTopology) : Decidable (Regular topo) := by
  unfold Regular
  infer_instance

/-- A topology of whole units whose CCDs lie across the sockets: 12 CPUs, CPU `i` on
core `i / 2` and socket `i / 4`, the cores `c` and `c + 3` forming CCD `c`. -/
def topoCrossCCD : CPUTopology :=
  ⟨⟨12, 3, 6, topoDetailsOf ((List.range 12).map (fun (i : Nat) =>
      (Int.ofNat i, Int.ofNat (i / 2), Int.ofNat (i / 4), Int.ofNat (i / 4))))⟩,
    ⟨3, ccdDetailsOf ((List.range 12).map (fun (i : Nat) =>
      (Int.ofNat i, Int.ofNat ((i / 2) % 3))))⟩⟩

/-- A topology of whole units whose cores lie across the CCDs: two sockets of 6 CPUs,
CCDs of 3 CPUs and cores of 2 CPUs. -/
def topoSplitCore : CPUTopology :=
  ⟨⟨12, 2, 6, topoDetailsOf [(0, 0, 0, 0), (1, 2, 0, 0), (2, 0, 0, 0), (3, 1, 0, 0),
      (4, 1, 0, 0), (5, 2, 0, 0), (6, 5, 1, 1), (7, 4, 1, 1), (8, 3, 1, 1), (9, 4, 1, 1),
      (10, 3, 1, 1), (11, 5, 1, 1)]⟩,
    ⟨4, ccdDetailsOf [(0, 0), (1, 1), (2, 1), (3, 0), (4, 1), (5, 0), (6, 2), (7, 2),
      (8, 2), (9, 3), (10, 3), (11, 3)]⟩⟩

/-- The set `X` holds, with a CPU, every CPU of `K` of the same unit. -/
def UnitClosed (K : Finset Int) (f : Int → Int) (X : Finset Int) : Prop :=
  ∀ x ∈ X, K.filter (fun y => f y = f x) ⊆ X

/-- The invariant of the accumulators of `takeByTopology topo avail n` when `avail`
lies in the topology and the CCD map has the CPUs of the CPU map: both views are the
available CPUs outside the result. -/
structure RegInv (topo : CPUTopology) (avail : CPUSet) (n : Int) (a : cpuAccumulator) :
    Prop where
  topo_eq : a.topo = topo
  info_eq : a.details.info = topo.CPUDetails.info
  ccd_info_eq : a.ccdDetail.info = topo.CPUCCDDetails.info
  keys_eq : a.details.keys = avail \ a.result
  ccd_keys_eq : a.ccdDetail.keys = avail \ a.result
  result_sub : a.result ⊆ avail
  needed_eq : a.numCPUsNeeded = n - (a.result.card : Int)

/-- What the phase of one level leaves: the result `r` is closed under the units of the
level, and the request is met, or less than one unit is still needed, or every unit
that lies in `avail` is in `r`. -/
def LevelDone (K : Finset Int) (f : Int → Int) (u : Int) (avail : CPUSet) (n : Int)
    (r : CPUSet) : Prop :=
  UnitClosed K f r ∧
    ((r.card : Int) = n ∨ n - (r.card : Int) < u ∨
      ∀ x ∈ K, K.filter (fun y => f y = f x) ⊆ avail → K.filter (fun y => f y = f x) ⊆ r)

/-- What the loop of the phase of one level guarantees when it starts in the state `a`
on the candidates `ids`: an early return gives `n` CPUs of `avail`, closed under the
units of the level; otherwise the state left satisfies the invariant, its result is
closed under the units, and less than one unit is still needed or every candidate is
in the result. -/
def LevelPost (topo : CPUTopology) (avail : CPUSet) (n : Int) (K : Finset Int)
    (f : Int → Int) (unit : Int) (a : cpuAccumulator) (ids : List Int) :
    Except CPUSet cpuAccumulator → Prop
  | .error r => r ⊆ avail ∧ (r.card : Int) = n ∧ UnitClosed K f r ∧ a.result ⊆ r
  | .ok b => RegInv topo avail n b ∧ UnitClosed K f b.result ∧ 1 ≤ b.numCPUsNeeded ∧
      a.result ⊆ b.result ∧
      (b.numCPUsNeeded < unit ∨ ∀ s ∈ ids, K.filter (fun x => f x = s) ⊆ b.result)

/-- What the phase of one level guarantees of its outcome `o` when it starts in the
state `a`: the result of the outcome extends that of `a` and is as `LevelDone` says; an
early return gives `n` CPUs of `avail`; a state left satisfies the invariant and still
needs a CPU. -/
def PhaseLevel (topo : CPUTopology) (avail : CPUSet) (n : Int) (K : Finset Int)
    (f : Int → Int) (unit : Int) (a : cpuAccumulator)
    (o : Except CPUSet cpuAccumulator) : Prop :=
  LevelDone K f unit avail n (outcomeResult o) ∧ a.result ⊆ outcomeResult o ∧
    (∀ r, o = .error r → r ⊆ avail ∧ (r.card : Int) = n) ∧
    (∀ b, o = .ok b → RegInv topo avail n b ∧ 1 ≤ b.numCPUsNeeded)

/-! ## Package `cm`: `util.go` -/

/-- The type `CPUSetPolicy`, a Go string. -/
abbrev CPUSetPolicy := String

/-- The constant `CPUSetNone`. -/
def CPUSetNone : CPUSetPolicy := "none"

/-- The constant `CPUSetExclusive`. -/
def CPUSetExclusive : CPUSetPolicy := "exclusive"

/-- The constant `CPUSetShare`. -/
def CPUSetShare : CPUSetPolicy := "share"

/-- The method `CPUSetPolicy.Compare`: the `switch c` with its cases `CPUSetShare`,
`CPUSetExclusive` and `default`, in that order. -/
def CPUSetPolicy.Compare (c i : CPUSetPolicy) : Int :=
  if c = CPUSetShare then
    if i = CPUSetExclusive then -1
    else if i = CPUSetShare then 0
    else 1
  else if c = CPUSetExclusive then
    if i = CPUSetExclusive then 0
    else 1
  else
    if i = CPUSetNone then 0
    else -1

/-- The function `GetPodCPUSetType`. `csp` is
`pod.GetAnnotations()["qos.gocrane.io/cpu-manager"]`, the empty string when the pod has
no such entry. -/
def GetPodCPUSetType (csp : String) : CPUSetPolicy :=
  if csp = "" then CPUSetNone else csp

end cm

/-! ## Packages `strconv` and `strings` of Go, as far as `ParseRangeToSlice` uses them

A Go string is taken as its list of characters. The separators and the digits are
ASCII, and no byte of a multi-byte UTF-8 character is an ASCII byte, so splitting and
digit tests on characters agree with Go's on bytes. -/

namespace strconv

/-- The largest `int` of a 64-bit platform. -/
def maxInt : Int := 9223372036854775807

/-- The smallest `int` of a 64-bit platform. -/
def minInt : Int := -9223372036854775808

/-- The digit loop of `strconv.Atoi`: `n = n*10 + (ch - '0')` for every character, and
`none` (a syntax error) at a character that is no decimal digit. -/
def parseDigits : List Char → Nat → Option Nat
  | [], n => some n
  | ch :: rest, n =>
    if '0' ≤ ch ∧ ch ≤ '9' then parseDigits rest (n * 10 + (ch.toNat - '0'.toNat))
    else none

/-- The function `strconv.Atoi` on a 64-bit platform: an optional sign `+` or `-`, then
one or more decimal digits, the value being in the range of `int`; `none` is any error
(syntax or range). -/
def Atoi (s : List Char) : Option Int :=
  match s with
  | [] => none
  | ch :: rest =>
    let ds := if ch = '-' ∨ ch = '+' then rest else s
    match ds with
    | [] => none
    | _ =>
      match parseDigits ds 0 with
      | none => none
      | some n =>
        let v : Int := if ch = '-' then -(n : Int) else (n : Int)
        if minInt ≤ v ∧ v ≤ maxInt then some v else none

end strconv

namespace strings

/-- The function `strings.Split(s, sep)` for a separator of one byte: the pieces of `s`
between the separators; one empty piece for the empty string. -/
def Split (s : List Char) (sep : Char) : List (List Char) :=
  match s with
  | [] => [[]]
  | c :: cs =>
    if c = sep then [] :: Split cs sep
    else
      match Split cs sep with
      | [] => [[c]]
      | x :: xs => (c :: x) :: xs

/-- The function `strings.SplitN(s, sep, 2)` for a separator of one byte: `(s, none)`
for the slice `[s]` when `s` has no separator, otherwise `(a, some b)` for the slice
`[a, b]`, `a` being what precedes the first separator and `b` what follows it. -/
def SplitN2 (s : List Char) (sep : Char) : List Char × Option (List Char) :=
  match s with
  | [] => ([], none)
  | c :: cs =>
    if c = sep then ([], some cs)
    else ((c :: (SplitN2 cs sep).1), (SplitN2 cs sep).2)

end strings

/-! ## Package `utils`: `ParseRangeToSlice` of `string.go` -/

namespace utils

/-- The error that `ParseRangeToSlice` returns: the error of `strconv.Atoi` on a part,
or `invalid range %q (%d >= %d)` with its three arguments. The text of the message is
not modelled. -/
inductive ParseError where
  | atoi (part : List Char)
  | invalidRange (r : List Char) (start stop : Int)
  deriving DecidableEq

/-- The integers that `for e := start; e <= end; e++` puts into the map when
`start <= end` and `end` is less than the largest `int`. -/
def rangeInts (start stop : Int) : List Int :=
  (List.range (stop - start + 1).toNat).map (fun (i : Nat) => start + (i : Int))

/-- The loop of `ParseRangeToSlice` over the items. `rMap` is the key set of the map.
`none` is for a call that does not return: when `end` is the largest `int`, `e <= end`
holds of every `e` and `e++` wraps around, so the loop over the range never ends. -/
def parseItems : List (List Char) → Finset Int → Option (Except ParseError (Finset Int))
  | [], rMap => some (.ok rMap)
  | r :: rest, rMap =>
    match strings.SplitN2 r '-' with
    | (b0, none) =>
      match strconv.Atoi b0 with
      | none => some (.error (.atoi b0))
      | some elem => parseItems rest (insert elem rMap)
    | (b0, some b1) =>
      match strconv.Atoi b0 with
      | none => some (.error (.atoi b0))
      | some start =>
        match strconv.Atoi b1 with
        | none => some (.error (.atoi b1))
        | some stop =>
          if start > stop then some (.error (.invalidRange r start stop))
          else if stop = strconv.maxInt then none
          else parseItems rest (rMap ∪ (rangeInts start stop).toFinset)

/-- The function `ParseRangeToSlice`; a returned pair is Go's `([]int, error)`, its
second component `none` for the nil error, and `none` is for a call that does not
return. The keys of the map are sorted by `sort.Ints`. -/
def ParseRangeToSlice (input : String) : Option (List Int × Option ParseError) :=
  match parseItems (strings.Split input.toList ',') ∅ with
  | none => none
  | some (.error err) => some ([], some err)
  | some (.ok rMap) => some (cpuset.CPUSet.ToSlice rMap, none)

/-- The value of a string of decimal digits. -/
def decVal (ds : List Char) : Nat :=
  ds.foldl (fun n ch => n * 10 + (ch.toNat - '0'.toNat)) 0

/-- A decimal numeral that fits an `int`: a non-empty string of the digits `0` to `9`
whose value is at most the largest `int`. -/
def Numeral (ds : List Char) : Prop :=
  ds ≠ [] ∧ (∀ ch ∈ ds, '0' ≤ ch ∧ ch ≤ '9') ∧ (decVal ds : Int) ≤ strconv.maxInt

/-- An item of the input of `ParseRangeToSlice`: a number `k` or a range `a-b`. -/
inductive Item where
  | single (k : List Char)
  | range (a b : List Char)

/-- The text of an item. -/
def Item.render : Item → List Char
  | .single k => k
  | .range a b => a ++ '-' :: b

/-- The item is a numeral, or a range of two numerals `a <= b` with `b` less than the
largest `int`. -/
def Item.WellFormed : Item → Prop
  | .single k => Numeral k
  | .range a b => Numeral a ∧ Numeral b ∧ decVal a ≤ decVal b ∧ (decVal b : Int) < strconv.maxInt

/-- The integer `x` equals the number of the item, or lies in its interval. -/
def Item.Contains : Item → Int → Prop
  | .single k, x => x = (decVal k : Int)
  | .range a b, x => (decVal a : Int) ≤ x ∧ x ≤ (decVal b : Int)

/-- The input that lists the items, separated by commas. -/
def renderItems (items : List Item) : String :=
  String.mk (List.intercalate [','] (items.map Item.render))

/-- The item, split at its first `-`, has a part that `strconv.Atoi` does not accept, or
is a range whose start is greater than its end. -/
def isBadItem (r : List Char) : Bool :=
  match strings.SplitN2 r '-' with
  | (b0, none) => (strconv.Atoi b0).isNone
  | (b0, some b1) =>
    match strconv.Atoi b0, strconv.Atoi b1 with
    | some start, some stop => decide (start > stop)
    | _, _ => true

/-- The item is a range of two integers that `strconv.Atoi` accepts, the second being
the largest `int`. -/
def endsAtMaxInt (r : List Char) : Bool :=
  match strings.SplitN2 r '-' with
  | (_, none) => false
  | (b0, some b1) =>
    match strconv.Atoi b0, strconv.Atoi b1 with
    | some _, some stop => decide (stop = strconv.maxInt)
    | _, _ => false

end utils

/-! ## Theorems -/

set_option maxRecDepth 1000000

namespace cpuset

theorem ToSlice_coe (s : CPUSet) : (s.ToSlice : Multiset Int) = s.val := by
  rcases s with ⟨⟨l⟩, h⟩
  exact Quot.sound (List.perm_insertionSort _ l)

theorem mem_ToSlice (s : CPUSet) (x : Int) : x ∈ s.ToSlice ↔ x ∈ s := by
  rw [← Multiset.mem_coe, ToSlice_coe]
  rfl

theorem nodup_ToSlice (s : CPUSet) : s.ToSlice.Nodup := by
  rw [← Multiset.coe_nodup, ToSlice_coe]
  exact s.nodup

theorem sorted_ToSlice (s : CPUSet) : s.ToSlice.Sorted (fun x y => x ≤ y) := by
  rcases s with ⟨⟨l⟩, h⟩
  exact List.sorted_insertionSort _ l

end cpuset

namespace cm
open cpuset cpuAccumulator

theorem take_details_keys (a : cpuAccumulator) (cpus : CPUSet) :
    (a.take cpus).details.keys = a.details.keys \ (a.result ∪ cpus) := by
  ext x
  simp [take, topology.CPUDetails.KeepOnly, topology.CPUDetails.CPUs]

theorem take_ccdDetail_keys (a : cpuAccumulator) (cpus : CPUSet) :
    (a.take cpus).ccdDetail.keys = a.ccdDetail.keys \ (a.result ∪ cpus) := by
  ext x
  simp [take, CPUDetails.KeepOnly, CPUDetails.CPUs]

theorem take_result (a : cpuAccumulator) (cpus : CPUSet) :
    (a.take cpus).result = a.result ∪ cpus := rfl

theorem take_needed (a : cpuAccumulator) (cpus : CPUSet) :
    (a.take cpus).numCPUsNeeded = a.numCPUsNeeded - (cpus.card : Int) := rfl

theorem accInv_take {avail : CPUSet} {n : Int} {a : cpuAccumulator} (h : AccInv avail n a)
    {cpus : CPUSet} (hsub : cpus ⊆ a.details.keys ∪ a.ccdDetail.keys)
    (hcard : (cpus.card : Int) ≤ a.numCPUsNeeded) : AccInv avail n (a.take cpus) := by
  have hdisj : Disjoint a.result cpus := by
    rw [Finset.disjoint_left]
    intro x hx hc
    rcases Finset.mem_union.1 (hsub hc) with hd | hd
    · exact (Finset.disjoint_left.1 h.details_disj) hx hd
    · exact (Finset.disjoint_left.1 h.ccd_disj) hx hd
  refine ⟨?_, ?_, ?_, ?_, ?_, ?_, ?_⟩
  · rw [take_result]
    exact Finset.union_subset h.result_sub
      (hsub.trans (Finset.union_subset h.details_sub h.ccd_sub))
  · rw [take_details_keys]
    exact Finset.sdiff_subset.trans h.details_sub
  · rw [take_ccdDetail_keys]
    exact Finset.sdiff_subset.trans h.ccd_sub
  · rw [take_result, take_details_keys]
    exact Finset.disjoint_sdiff
  · rw [take_result, take_ccdDetail_keys]
    exact Finset.disjoint_sdiff
  · rw [take_result, take_needed, Finset.card_union_of_disjoint hdisj, h.needed_eq]
    push_cast
    ring
  · rw [take_needed]
    omega

theorem accEnough_take {avail : CPUSet} {n : Int} {a : cpuAccumulator} (h : AccInv avail n a)
    (he : AccEnough a) {cpus : CPUSet} (hsub : cpus ⊆ a.details.keys ∪ a.ccdDetail.keys) :
    AccEnough (a.take cpus) := by
  have hsub1 : cpus ⊆ a.details.keys :=
    hsub.trans (Finset.union_subset (Finset.Subset.refl _) he.ccd_details)
  have hkeys : a.details.keys \ (a.result ∪ cpus) = a.details.keys \ cpus := by
    ext x
    simp only [Finset.mem_sdiff, Finset.mem_union, not_or]
    constructor
    · rintro ⟨hx, _, hc⟩
      exact ⟨hx, hc⟩
    · rintro ⟨hx, hc⟩
      exact ⟨hx, fun hr => (Finset.disjoint_left.1 h.details_disj) hr hx, hc⟩
  refine ⟨?_, ?_⟩
  · rw [take_details_keys, take_ccdDetail_keys]
    exact Finset.sdiff_subset_sdiff he.ccd_details (Finset.Subset.refl _)
  · rw [take_details_keys, take_needed, hkeys, Finset.card_sdiff hsub1]
    have := Finset.card_le_card hsub1
    have := he.enough
    omega

theorem takeLoop_spec {avail : CPUSet} {n unit : Int}
    {cpusOf : cpuAccumulator → Int → CPUSet} (hU : UnitView cpusOf) :
    ∀ (ids : List Int) (a : cpuAccumulator), AccInv avail n a → 1 ≤ a.numCPUsNeeded →
      unit ≤ a.numCPUsNeeded → (∀ s ∈ ids, Takeable unit cpusOf a s) →
      PhasePost avail n a (takeLoop unit cpusOf ids a) := by
  intro ids
  induction ids with
  | nil =>
    intro a h h1 _ _
    exact ⟨h, h1, id⟩
  | cons s rest ih =>
    intro a h h1 hu hT
    have hcard : ((cpusOf a s).card : Int) ≤ a.numCPUsNeeded := by
      rcases hT s (List.mem_cons_self _ _) with hc | hc
      · omega
      · rw [hc]; simp; omega
    have hinv := accInv_take h (hU.sub a s) hcard
    have hen : AccEnough a → AccEnough (a.take (cpusOf a s)) :=
      fun he => accEnough_take h he (hU.sub a s)
    unfold takeLoop
    simp only []
    by_cases hs : (a.take (cpusOf a s)).isSatisfied = true
    · simp only [hs, if_true]
      refine ⟨hinv.result_sub, ?_⟩
      have h0 := hinv.needed_nonneg
      have hq := hinv.needed_eq
      simp only [isSatisfied, decide_eq_true_eq] at hs
      omega
    · simp only [hs, Bool.false_eq_true, if_false]
      have h1' : 1 ≤ (a.take (cpusOf a s)).numCPUsNeeded := by
        simp only [isSatisfied, decide_eq_true_eq] at hs
        omega
      by_cases hn : (a.take (cpusOf a s)).needs unit = true
      · simp only [hn, Bool.not_true, Bool.false_eq_true, if_false]
        have hu' : unit ≤ (a.take (cpusOf a s)).numCPUsNeeded := by
          simpa [needs] using hn
        have hT' : ∀ t ∈ rest, Takeable unit cpusOf (a.take (cpusOf a s)) t := by
          intro t ht
          rcases hU.after_take a s t h.details_disj h.ccd_disj with he | he
          · exact Or.inr he
          · unfold Takeable
            rw [he]
            exact hT t (List.mem_cons_of_mem _ ht)
        have := ih (a.take (cpusOf a s)) hinv h1' hu' hT'
        revert this
        cases takeLoop unit cpusOf rest (a.take (cpusOf a s)) with
        | error r => exact id
        | ok b => exact fun hb => ⟨hb.1, hb.2.1, fun he => hb.2.2 (hen he)⟩
      · simp only [Bool.not_eq_true] at hn
        simp only [hn, Bool.not_false, if_true]
        exact ⟨hinv, h1', hen⟩


theorem filter_after_take (K R : Finset Int) (f : Int → Int) (s t : Int) (h : Disjoint R K) :
    (K \ (R ∪ K.filter (fun x => f x = s))).filter (fun x => f x = t) = ∅ ∨
      (K \ (R ∪ K.filter (fun x => f x = s))).filter (fun x => f x = t)
        = K.filter (fun x => f x = t) := by
  by_cases hst : t = s
  · left
    subst hst
    apply Finset.eq_empty_of_forall_not_mem
    intro x hx
    rw [Finset.mem_filter, Finset.mem_sdiff, Finset.mem_union] at hx
    exact hx.1.2 (Or.inr (Finset.mem_filter.2 ⟨hx.1.1, hx.2⟩))
  · right
    ext x
    rw [Finset.mem_filter, Finset.mem_sdiff, Finset.mem_union, Finset.mem_filter,
      Finset.mem_filter]
    constructor
    · rintro ⟨⟨hx, _⟩, hf⟩
      exact ⟨hx, hf⟩
    · rintro ⟨hx, hf⟩
      refine ⟨⟨hx, ?_⟩, hf⟩
      rintro (hr | hs)
      · exact (Finset.disjoint_left.1 h) hr hx
      · exact hst (hf ▸ hs.2)

theorem unitView_sockets : UnitView (fun a s => a.details.CPUsInSockets s) := by
  refine ⟨?_, ?_⟩
  · intro a s
    exact (Finset.filter_subset _ _).trans Finset.subset_union_left
  · intro a s t hd _
    have := filter_after_take a.details.keys a.result
      (fun x => (a.details.info x).SocketID) s t hd
    simp only [topology.CPUDetails.CPUsInSockets, take_details_keys]
    exact this

theorem unitView_cores : UnitView (fun a s => a.details.CPUsInCores s) := by
  refine ⟨?_, ?_⟩
  · intro a s
    exact (Finset.filter_subset _ _).trans Finset.subset_union_left
  · intro a s t hd _
    have := filter_after_take a.details.keys a.result
      (fun x => (a.details.info x).CoreID) s t hd
    simp only [topology.CPUDetails.CPUsInCores, take_details_keys]
    exact this

theorem unitView_ccds : UnitView (fun a s => a.ccdDetail.CPUsInCCDs s) := by
  refine ⟨?_, ?_⟩
  · intro a s
    exact (Finset.filter_subset _ _).trans Finset.subset_union_right
  · intro a s t _ hc
    have := filter_after_take a.ccdDetail.keys a.result
      (fun x => (a.ccdDetail.info x).CCDID) s t hc
    simp only [CPUDetails.CPUsInCCDs, take_ccdDetail_keys]
    exact this

theorem takeSockets_spec {avail : CPUSet} {n : Int} {a : cpuAccumulator}
    (h : AccInv avail n a) (h1 : 1 ≤ a.numCPUsNeeded) :
    PhasePost avail n a (takeSockets a) := by
  unfold takeSockets
  by_cases hn : a.needs a.topo.CPUsPerSocket = true
  · simp only [hn, if_true]
    refine takeLoop_spec unitView_sockets _ a h h1 (by simpa [needs] using hn) ?_
    intro s hs
    left
    rw [freeSockets, mem_ToSlice, CPUSet.Filter, Finset.mem_filter] at hs
    simpa [isSocketFree, CPUSet.Size] using hs.2
  · simp only [hn, Bool.false_eq_true, if_false]
    exact ⟨h, h1, id⟩

theorem takeCCDs_spec (rt : Runtime) {avail : CPUSet} {n : Int} {a : cpuAccumulator}
    (h : AccInv avail n a) (h1 : 1 ≤ a.numCPUsNeeded) :
    PhasePost avail n a (takeCCDs rt a) := by
  unfold takeCCDs
  by_cases hn : a.needs a.topo.CPUsPerCCD = true
  · simp only [hn, if_true]
    refine takeLoop_spec unitView_ccds _ a h h1 (by simpa [needs] using hn) ?_
    intro c hc
    left
    rw [freeCCDs] at hc
    obtain ⟨s, _, hc⟩ := List.mem_flatMap.1 hc
    rw [mem_ToSlice, CPUSet.Filter, Finset.mem_filter] at hc
    simpa [isCCDFree, CPUSet.Size] using hc.2
  · simp only [hn, Bool.false_eq_true, if_false]
    exact ⟨h, h1, id⟩

theorem takeCores_spec (rt : Runtime) {avail : CPUSet} {n : Int} {a : cpuAccumulator}
    (h : AccInv avail n a) (h1 : 1 ≤ a.numCPUsNeeded) :
    PhasePost avail n a (takeCores rt a) := by
  unfold takeCores
  by_cases hn : a.needs a.topo.CPUsPerCore = true
  · simp only [hn, if_true]
    refine takeLoop_spec unitView_cores _ a h h1 (by simpa [needs] using hn) ?_
    intro c hc
    left
    rw [(rt.sortSlice_perm _ _).mem_iff, freeCores] at hc
    obtain ⟨s, _, hc⟩ := List.mem_flatMap.1 hc
    rw [mem_ToSlice, CPUSet.Filter, Finset.mem_filter] at hc
    simpa [isCoreFree, CPUSet.Size] using hc.2
  · simp only [hn, Bool.false_eq_true, if_false]
    exact ⟨h, h1, id⟩

theorem mem_freeCPUs (rt : Runtime) (a : cpuAccumulator) (c : Int) :
    c ∈ a.freeCPUs rt ↔ c ∈ a.details.keys := by
  simp only [freeCPUs, List.mem_flatMap, (rt.sortSlice_perm _ _).mem_iff, mem_ToSlice,
    topology.CPUDetails.Cores, topology.CPUDetails.CPUsInCores, Finset.mem_image,
    Finset.mem_filter]
  constructor
  · rintro ⟨_, _, hc, _⟩
    exact hc
  · intro hc
    exact ⟨_, ⟨c, hc, rfl⟩, hc, rfl⟩

theorem nodup_freeCPUs (rt : Runtime) (a : cpuAccumulator) : (a.freeCPUs rt).Nodup := by
  rw [freeCPUs, List.nodup_flatMap]
  refine ⟨fun _ _ => nodup_ToSlice _, ?_⟩
  have hnd : (rt.sortSlice a.freeCPUsLess a.details.Cores.ToSlice).Nodup :=
    (rt.sortSlice_perm _ _).nodup_iff.2 (nodup_ToSlice _)
  refine hnd.pairwise_of_forall_ne ?_
  intro x _ y _ hxy
  intro c hcx hcy
  rw [mem_ToSlice, topology.CPUDetails.CPUsInCores, Finset.mem_filter] at hcx hcy
  exact hxy (hcx.2.symm.trans hcy.2)

theorem length_freeCPUs (rt : Runtime) (a : cpuAccumulator) :
    (a.freeCPUs rt).length = a.details.keys.card := by
  rw [← List.toFinset_card_of_nodup (nodup_freeCPUs rt a)]
  congr 1
  ext c
  rw [List.mem_toFinset, mem_freeCPUs]



theorem newCPUAccumulator_details_card_le (topo : CPUTopology) (avail : CPUSet) (n : Int) :
    (newCPUAccumulator topo avail n).details.CPUs.card ≤ avail.card := by
  apply Finset.card_le_card
  intro x hx
  simp only [newCPUAccumulator, topology.CPUDetails.CPUs, topology.CPUDetails.KeepOnly,
    Finset.mem_filter] at hx
  exact hx.2

/-- C4. For every runtime, topology and available set, a request for more CPUs than
are available returns the empty set and the error
"not enough cpus available to satisfy request". -/
theorem takeByTopology_not_enough (rt : Runtime) (topo : CPUTopology) (avail : CPUSet)
    (n : Int) (h : n > (avail.card : Int)) :
    takeByTopology rt topo avail n
      = (∅, some "not enough cpus available to satisfy request") := by
  have hle := newCPUAccumulator_details_card_le topo avail n
  have h1 : (newCPUAccumulator topo avail n).isSatisfied = false := by
    simp only [isSatisfied, newCPUAccumulator, decide_eq_false_iff_not]
    omega
  have h2 : (newCPUAccumulator topo avail n).isFailed = true := by
    simp only [isFailed, CPUSet.Size, decide_eq_true_eq]
    have : (newCPUAccumulator topo avail n).numCPUsNeeded = n := rfl
    omega
  unfold takeByTopology
  simp only [h1, h2, if_true, Bool.false_eq_true, if_false]
  rfl

theorem takeByTopology_not_enough_witness :
    (5 : Int) > ((NewCPUSet [0, 2, 4, 6]).card : Int) ∧
      takeByTopology rtAscending topoSingleSocketHT (NewCPUSet [0, 2, 4, 6]) 5
        = (∅, some "not enough cpus available to satisfy request") :=
  ⟨by decide, takeByTopology_not_enough _ _ _ _ (by decide)⟩

/-- C10. The fit score of a core in the phase-3 re-sort is the number of free CPUs on
the core's CCD minus the remaining demand: when the topology places a CPU on the core
`i` and its CCD map has every CPU of the core on the CCD `c`, `fitScore acc i` is the
number of CPUs that the CCD view of `acc` has on `c`, minus `acc.numCPUsNeeded`. The
comparator holds of two cores exactly when their fit scores `a` and `b` satisfy
`(a ≥ 0 ∧ b ≥ 0 ∧ a < b) ∨ (a < 0 ∧ b < 0 ∧ a > b) ∨ (a ≥ 0 ∧ b < 0)`, and this relation
is a strict weak order on the integers. -/
theorem bestFitLess_sign_rule :
    (∀ (acc : cpuAccumulator) (i c : Int),
      (acc.topo.CPUDetails.CPUsInCores i).Nonempty →
      (∀ y ∈ acc.topo.CPUDetails.CPUsInCores i,
        y ∈ acc.topo.CPUCCDDetails.keys ∧ (acc.topo.CPUCCDDetails.info y).CCDID = c) →
      fitScore acc i
        = ((acc.ccdDetail.keys.filter (fun cpu => (acc.ccdDetail.info cpu).CCDID = c)).card : Int)
          - acc.numCPUsNeeded) ∧
    (∀ (acc : cpuAccumulator) (i j : Int),
      bestFitLess acc i j = true ↔
        ((fitScore acc i ≥ 0 ∧ fitScore acc j ≥ 0 ∧ fitScore acc i < fitScore acc j) ∨
          (fitScore acc i < 0 ∧ fitScore acc j < 0 ∧ fitScore acc i > fitScore acc j) ∨
          (fitScore acc i ≥ 0 ∧ fitScore acc j < 0))) ∧
      IsStrictWeakOrder Int (fun a b => fitLess a b = true) := by
  have rule : ∀ a b : Int, fitLess a b = true ↔
      ((a ≥ 0 ∧ b ≥ 0 ∧ a < b) ∨ (a < 0 ∧ b < 0 ∧ a > b) ∨ (a ≥ 0 ∧ b < 0)) := by
    intro a b
    simp only [fitLess, Bool.or_eq_true, Bool.and_eq_true, decide_eq_true_eq]
    omega
  refine ⟨?_, fun acc i j => rule _ _, ?_⟩
  · intro acc i c hne hc
    have hhead : ((acc.topo.CPUDetails.CPUsInCores i).ToSlice.headD 0)
        ∈ acc.topo.CPUDetails.CPUsInCores i := by
      obtain ⟨x, hx⟩ := hne
      have hx' := (mem_ToSlice _ _).2 hx
      rcases hl : (acc.topo.CPUDetails.CPUsInCores i).ToSlice with _ | ⟨y, rest⟩
      · rw [hl] at hx'
        simp at hx'
      · rw [← mem_ToSlice, hl]
        exact List.mem_cons_self _ _
    obtain ⟨hk, hccd⟩ := hc _ hhead
    simp only [fitScore, CPUDetails.get, hk, if_true, hccd, CPUDetails.CPUsInCCDs,
      CPUSet.Size]
  refine @IsStrictWeakOrder.mk _ _ (@IsStrictOrder.mk _ _ ⟨?_⟩ ⟨?_⟩) ?_
  · intro a h
    have := (rule a a).1 h
    omega
  · intro a b c hab hbc
    have h1 := (rule a b).1 hab
    have h2 := (rule b c).1 hbc
    exact (rule a c).2 (by omega)
  · intro a b c hab hbc
    have e1 : a = b := by
      by_contra hne
      have n1 := mt (rule a b).2 hab.1
      have n2 := mt (rule b a).2 hab.2
      omega
    have e2 : b = c := by
      by_contra hne
      have n1 := mt (rule b c).2 hbc.1
      have n2 := mt (rule c b).2 hbc.2
      omega
    subst e1
    exact hbc

theorem bestFitLess_sign_rule_witness :
    ((topoDualSocketHT.CPUDetails.CPUsInCores 0).Nonempty ∧
      (∀ y ∈ topoDualSocketHT.CPUDetails.CPUsInCores 0,
        y ∈ topoDualSocketHT.CPUCCDDetails.keys ∧
          (topoDualSocketHT.CPUCCDDetails.info y).CCDID = 0)) ∧
    fitScore (newCPUAccumulator topoDualSocketHT (NewCPUSet [0, 1, 2, 4, 8, 12]) 3) 0
      = (((newCPUAccumulator topoDualSocketHT
          (NewCPUSet [0, 1, 2, 4, 8, 12]) 3).ccdDetail.keys.filter
        (fun cpu => ((newCPUAccumulator topoDualSocketHT
          (NewCPUSet [0, 1, 2, 4, 8, 12]) 3).ccdDetail.info cpu).CCDID = 0)).card : Int)
        - (newCPUAccumulator topoDualSocketHT (NewCPUSet [0, 1, 2, 4, 8, 12]) 3).numCPUsNeeded ∧
    [0, 1, 2].map (fitScore (newCPUAccumulator topoDualSocketHT
        (NewCPUSet [0, 1, 2, 4, 8, 12]) 3)) = [1, -2, -2] ∧
    bestFitLess (newCPUAccumulator topoDualSocketHT (NewCPUSet [0, 1, 2, 4, 8, 12]) 3) 0 1
      = true ∧
    bestFitLess (newCPUAccumulator topoDualSocketHT (NewCPUSet [0, 1, 2, 4, 8, 12]) 3) 1 0
      = false :=
  ⟨⟨by decide, by decide⟩,
    bestFitLess_sign_rule.1 (newCPUAccumulator topoDualSocketHT
      (NewCPUSet [0, 1, 2, 4, 8, 12]) 3) 0 0 (by decide) (by decide),
    by decide, by decide, by decide⟩


theorem takeCPUs_spec {avail : CPUSet} {n : Int} :
    ∀ (cpus : List Int) (a : cpuAccumulator), AccInv avail n a → cpus.Nodup →
      (∀ c ∈ cpus, c ∈ a.details.keys) →
      ∀ r, takeCPUs cpus a = some r → r ⊆ avail ∧ (r.card : Int) = n := by
  intro cpus
  induction cpus with
  | nil => intro a _ _ _ r hr; simp [takeCPUs] at hr
  | cons c rest ih =>
    intro a h hnd hmem r hr
    have hc : c ∈ a.details.keys := hmem c (List.mem_cons_self _ _)
    have key : ∀ b : cpuAccumulator, AccInv avail n b →
        (∀ x ∈ rest, x ∈ b.details.keys) →
        (if b.isSatisfied = true then some b.result else takeCPUs rest b) = some r →
        r ⊆ avail ∧ (r.card : Int) = n := by
      intro b hb hbm hbr
      by_cases hs : b.isSatisfied = true
      · simp only [hs, if_true, Option.some.injEq] at hbr
        subst hbr
        refine ⟨hb.result_sub, ?_⟩
        have h0 := hb.needed_nonneg
        have hq := hb.needed_eq
        simp only [isSatisfied, decide_eq_true_eq] at hs
        omega
      · simp only [hs, Bool.false_eq_true, if_false] at hbr
        exact ih b hb (List.nodup_cons.1 hnd).2 hbm r hbr
    unfold takeCPUs at hr
    simp only [] at hr
    by_cases hn : a.needs 1 = true
    · simp only [hn, if_true] at hr
      have hsub : NewCPUSet [c] ⊆ a.details.keys ∪ a.ccdDetail.keys := by
        intro x hx
        simp only [NewCPUSet, List.toFinset_cons, List.toFinset_nil, insert_emptyc_eq,
          Finset.mem_singleton] at hx
        subst hx
        exact Finset.mem_union_left _ hc
      have hcard : ((NewCPUSet [c]).card : Int) ≤ a.numCPUsNeeded := by
        have : 1 ≤ a.numCPUsNeeded := by simpa [needs] using hn
        simpa [NewCPUSet] using this
      refine key _ (accInv_take h hsub hcard) ?_ hr
      intro x hx
      rw [take_details_keys, Finset.mem_sdiff, Finset.mem_union]
      refine ⟨hmem x (List.mem_cons_of_mem _ hx), ?_⟩
      rintro (hxr | hxc)
      · exact (Finset.disjoint_left.1 h.details_disj) hxr (hmem x (List.mem_cons_of_mem _ hx))
      · simp only [NewCPUSet, List.toFinset_cons, List.toFinset_nil, insert_emptyc_eq,
          Finset.mem_singleton] at hxc
        subst hxc
        exact (List.nodup_cons.1 hnd).1 hx
    · simp only [hn, Bool.false_eq_true, if_false] at hr
      exact key a h (fun x hx => hmem x (List.mem_cons_of_mem _ hx)) hr

theorem takeCPUs_isSome :
    ∀ (cpus : List Int) (a : cpuAccumulator), 1 ≤ a.numCPUsNeeded →
      a.numCPUsNeeded ≤ (cpus.length : Int) → (takeCPUs cpus a).isSome = true := by
  intro cpus
  induction cpus with
  | nil =>
    intro a h1 h2
    simp only [List.length_nil, Nat.cast_zero] at h2
    omega
  | cons c rest ih =>
    intro a h1 h2
    have hn : a.needs 1 = true := by simpa [needs] using h1
    unfold takeCPUs
    simp only [hn, if_true]
    by_cases hs : (a.take (NewCPUSet [c])).isSatisfied = true
    · simp only [hs, if_true, Option.isSome_some]
    · simp only [hs, Bool.false_eq_true, if_false]
      have hq : (a.take (NewCPUSet [c])).numCPUsNeeded = a.numCPUsNeeded - 1 := by
        rw [take_needed]
        simp [NewCPUSet]
      apply ih
      · simp only [isSatisfied, decide_eq_true_eq] at hs
        omega
      · rw [hq]
        simp only [List.length_cons, Nat.cast_add, Nat.cast_one] at h2
        omega

theorem newCPUAccumulator_inv (topo : CPUTopology) (avail : CPUSet) (n : Int) (hn : 0 ≤ n) :
    AccInv avail n (newCPUAccumulator topo avail n) := by
  refine ⟨?_, ?_, ?_, ?_, ?_, ?_, hn⟩
  · exact Finset.empty_subset _
  · intro x hx
    exact (Finset.mem_filter.1 hx).2
  · intro x hx
    exact (Finset.mem_filter.1 hx).2
  · exact Finset.disjoint_empty_left _
  · exact Finset.disjoint_empty_left _
  · show n = n - ((∅ : Finset Int).card : Int)
    simp

theorem newCPUAccumulator_enough (topo : CPUTopology) (avail : CPUSet) (n : Int)
    (hsub : avail ⊆ topo.CPUDetails.CPUs) (hn : n ≤ (avail.card : Int)) :
    AccEnough (newCPUAccumulator topo avail n) := by
  have hk : (newCPUAccumulator topo avail n).details.keys = avail := by
    ext x
    simp only [newCPUAccumulator, topology.CPUDetails.KeepOnly, Finset.mem_filter]
    exact ⟨fun h => h.2, fun h => ⟨hsub h, h⟩⟩
  refine ⟨?_, ?_⟩
  · rw [hk]
    intro x hx
    exact (Finset.mem_filter.1 hx).2
  · rw [hk]
    exact hn

/-- The outcome of `takeByTopology` on a request for at least one CPU: the set returned
lies in `avail`; without an error it has exactly `n` CPUs; and no error is returned when
`avail` lies in the topology and holds at least `n` CPUs. -/
theorem takeByTopology_spec (rt : Runtime) (topo : CPUTopology) (avail : CPUSet) (n : Int)
    (hn : 1 ≤ n) :
    (takeByTopology rt topo avail n).1 ⊆ avail ∧
      ((takeByTopology rt topo avail n).2 = none →
        ((takeByTopology rt topo avail n).1.card : Int) = n) ∧
      (avail ⊆ topo.CPUDetails.CPUs → n ≤ (avail.card : Int) →
        (takeByTopology rt topo avail n).2 = none) := by
  have hinv := newCPUAccumulator_inv topo avail n (by omega)
  have hsat : (newCPUAccumulator topo avail n).isSatisfied = false := by
    simp only [isSatisfied, newCPUAccumulator, decide_eq_false_iff_not]
    omega
  have h1 : 1 ≤ (newCPUAccumulator topo avail n).numCPUsNeeded := hn
  unfold takeByTopology
  simp only [hsat, Bool.false_eq_true, if_false]
  by_cases hf : (newCPUAccumulator topo avail n).isFailed = true
  · simp only [hf, if_true]
    refine ⟨Finset.empty_subset _, fun h => by simp at h, ?_⟩
    intro hsub hle
    have he := newCPUAccumulator_enough topo avail n hsub hle
    have := he.enough
    simp only [isFailed, CPUSet.Size, topology.CPUDetails.CPUs, decide_eq_true_eq] at hf
    omega
  · simp only [hf, Bool.false_eq_true, if_false]
    have p1 := takeSockets_spec hinv h1
    rcases hS : takeSockets (newCPUAccumulator topo avail n) with r | a1
    · rw [hS] at p1
      exact ⟨p1.1, fun _ => p1.2, fun _ _ => rfl⟩
    rw [hS] at p1
    dsimp only
    obtain ⟨i1, n1, e1⟩ := p1
    have p2 := takeCCDs_spec rt i1 n1
    rcases hC : takeCCDs rt a1 with r | a2
    · rw [hC] at p2
      exact ⟨p2.1, fun _ => p2.2, fun _ _ => rfl⟩
    rw [hC] at p2
    dsimp only
    obtain ⟨i2, n2, e2⟩ := p2
    have p3 := takeCores_spec rt i2 n2
    rcases hK : takeCores rt a2 with r | a3
    · rw [hK] at p3
      exact ⟨p3.1, fun _ => p3.2, fun _ _ => rfl⟩
    rw [hK] at p3
    dsimp only
    obtain ⟨i3, n3, e3⟩ := p3
    have p4 := takeCPUs_spec (a3.freeCPUs rt) a3 i3 (nodup_freeCPUs rt a3)
      (fun c hc => (mem_freeCPUs rt a3 c).1 hc)
    rcases hP : takeCPUs (a3.freeCPUs rt) a3 with _ | r
    · refine ⟨Finset.empty_subset _, fun h => by simp at h, ?_⟩
      intro hsub hle
      exfalso
      have he := e3 (e2 (e1 (newCPUAccumulator_enough topo avail n hsub hle)))
      have hs := takeCPUs_isSome (a3.freeCPUs rt) a3 n3 (by
        rw [length_freeCPUs]
        exact he.enough)
      rw [hP] at hs
      simp at hs
    · have := p4 r hP
      exact ⟨this.1, fun _ => this.2, fun _ _ => rfl⟩


theorem ToSlice_ne_nil {s : CPUSet} {x : Int} (h : x ∈ s) : s.ToSlice ≠ [] := by
  intro hnil
  have := (mem_ToSlice s x).2 h
  rw [hnil] at this
  exact List.not_mem_nil _ this

theorem newCPUAccumulator_viewOfTopo (topo : CPUTopology) (avail : CPUSet) (n : Int) :
    ViewOfTopo (newCPUAccumulator topo avail n) :=
  ⟨Finset.filter_subset _ _, rfl, Finset.filter_subset _ _, rfl⟩

theorem viewOfTopo_take {a : cpuAccumulator} (h : ViewOfTopo a) (cpus : CPUSet) :
    ViewOfTopo (a.take cpus) :=
  ⟨(Finset.filter_subset _ _).trans h.details_keys, h.details_info,
    (Finset.filter_subset _ _).trans h.ccd_keys, h.ccd_info⟩

/-- The index `iCPUs[0]` of the comparator of `freeCPUs` is in range at every core that
the sort is given. -/
theorem freeCPUs_index_in_range {a : cpuAccumulator} (h : ViewOfTopo a) {core : Int}
    (hc : core ∈ a.details.Cores.ToSlice) :
    (a.topo.CPUDetails.CPUsInCores core).ToSlice ≠ [] := by
  rw [mem_ToSlice, topology.CPUDetails.Cores, Finset.mem_image] at hc
  obtain ⟨cpu, hcpu, hcore⟩ := hc
  refine ToSlice_ne_nil (x := cpu) ?_
  rw [topology.CPUDetails.CPUsInCores, Finset.mem_filter, ← h.details_info]
  exact ⟨h.details_keys hcpu, hcore⟩

/-- The index `iCPUs[0]` of the comparator of `freeCores` is in range at every CCD that
the sort is given. -/
theorem freeCores_index_in_range {a : cpuAccumulator} (h : ViewOfTopo a) {ccd : Int}
    (hc : ccd ∈ a.ccdDetail.CCDs.ToSlice) :
    (a.topo.CPUCCDDetails.CPUsInCCDs ccd).ToSlice ≠ [] := by
  rw [mem_ToSlice, CPUDetails.CCDs, Finset.mem_image] at hc
  obtain ⟨cpu, hcpu, hccd⟩ := hc
  refine ToSlice_ne_nil (x := cpu) ?_
  rw [CPUDetails.CPUsInCCDs, Finset.mem_filter, ← h.ccd_info]
  exact ⟨h.ccd_keys hcpu, hccd⟩

/-- The index `iCPUs[0]` of the comparator of phase 3 is in range at every core that
the sort is given. -/
theorem bestFit_index_in_range (rt : Runtime) {a : cpuAccumulator} (h : ViewOfTopo a)
    {core : Int} (hc : core ∈ a.freeCores rt) :
    (a.topo.CPUDetails.CPUsInCores core).ToSlice ≠ [] := by
  rw [freeCores] at hc
  obtain ⟨s, _, hc⟩ := List.mem_flatMap.1 hc
  rw [mem_ToSlice, CPUSet.Filter, Finset.mem_filter, CoresInCCDs, Finset.mem_image] at hc
  obtain ⟨⟨cpu, hcpu, hcore⟩, _⟩ := hc
  rw [Finset.mem_filter] at hcpu
  refine ToSlice_ne_nil (x := cpu) ?_
  rw [topology.CPUDetails.CPUsInCores, Finset.mem_filter, ← h.details_info]
  exact ⟨h.details_keys hcpu.2.1, hcore⟩

theorem takeByTopology_of_lt_one (rt : Runtime) (topo : CPUTopology) (avail : CPUSet)
    (n : Int) (hn : n < 1) : takeByTopology rt topo avail n = (∅, none) := by
  have hsat : (newCPUAccumulator topo avail n).isSatisfied = true := by
    simp only [isSatisfied, newCPUAccumulator, decide_eq_true_eq]
    exact hn
  unfold takeByTopology
  simp only [hsat, if_true]
  rfl

/-- C1. For every runtime, topology, available set and `n ≥ 0`: when `takeByTopology`
returns no error, the set it returns has exactly `n` elements. -/
theorem takeByTopology_size (rt : Runtime) (topo : CPUTopology) (avail : CPUSet) (n : Int)
    (hn : 0 ≤ n) (herr : (takeByTopology rt topo avail n).2 = none) :
    ((takeByTopology rt topo avail n).1.card : Int) = n := by
  by_cases h1 : 1 ≤ n
  · exact (takeByTopology_spec rt topo avail n h1).2.1 herr
  · rw [takeByTopology_of_lt_one rt topo avail n (by omega)]
    simp only [Finset.card_empty, Nat.cast_zero]
    omega

theorem takeByTopology_size_witness :
    (0 : Int) ≤ 3 ∧
      (takeByTopology rtAscending topoSingleSocketHT (NewCPUSet [1, 2, 3, 5, 6, 7]) 3).2 = none ∧
      ((takeByTopology rtAscending topoSingleSocketHT
        (NewCPUSet [1, 2, 3, 5, 6, 7]) 3).1.card : Int) = 3 :=
  ⟨by decide, by decide, takeByTopology_size _ _ _ _ (by decide) (by decide)⟩

/-- C2. For every runtime, topology, available set and `n`, the set returned by
`takeByTopology` is a subset of the available set, with or without an error. -/
theorem takeByTopology_subset (rt : Runtime) (topo : CPUTopology) (avail : CPUSet)
    (n : Int) : (takeByTopology rt topo avail n).1 ⊆ avail := by
  by_cases h1 : 1 ≤ n
  · exact (takeByTopology_spec rt topo avail n h1).1
  · rw [takeByTopology_of_lt_one rt topo avail n (by omega)]
    exact Finset.empty_subset _

/-- C3. For every runtime and topology (the invariants of the data model are not
needed), every available set that is a subset of the CPUs of the topology and every
`n` with `0 ≤ n ≤ |available|`, `takeByTopology` returns no error; in particular the
final `failed to allocate cpus` is not reached. -/
theorem takeByTopology_no_error (rt : Runtime) (topo : CPUTopology) (avail : CPUSet)
    (n : Int) (hsub : avail ⊆ topo.CPUDetails.CPUs) (h0 : 0 ≤ n)
    (hle : n ≤ (avail.card : Int)) : (takeByTopology rt topo avail n).2 = none := by
  by_cases h1 : 1 ≤ n
  · exact (takeByTopology_spec rt topo avail n h1).2.2 hsub hle
  · rw [takeByTopology_of_lt_one rt topo avail n (by omega)]

theorem takeByTopology_no_error_witness :
    NewCPUSet [0, 1, 2, 3, 6] ⊆ topoSingleSocketHT.CPUDetails.CPUs ∧ (0 : Int) ≤ 2 ∧
      (2 : Int) ≤ ((NewCPUSet [0, 1, 2, 3, 6]).card : Int) ∧
      (takeByTopology rtAscending topoSingleSocketHT (NewCPUSet [0, 1, 2, 3, 6]) 2).2 = none :=
  ⟨by decide, by decide, by decide,
    takeByTopology_no_error _ _ _ _ (by decide) (by decide) (by decide)⟩

/-- C5. On `topoDualSocketHT` with every CPU but 15 available, the list of `freeCCDs`
and the set returned by `takeByTopology` for 4 CPUs depend on the order in which
`ToSliceNoSort` ranges over the two socket IDs: enumerated as 0, 1 the free CCDs are
listed 1, 0, 2 and CCD 1 is taken; enumerated as 1, 0 they are listed 0, 2, 1 and CCD 0
is taken. -/
theorem takeByTopology_enumeration_dependent :
    (newCPUAccumulator topoDualSocketHT
        (NewCPUSet [0, 1, 2, 3, 4, 5, 6, 7, 8, 9, 10, 11, 12, 13, 14]) 4).freeCCDs rtAscending
        = [1, 0, 2] ∧
      (newCPUAccumulator topoDualSocketHT
        (NewCPUSet [0, 1, 2, 3, 4, 5, 6, 7, 8, 9, 10, 11, 12, 13, 14]) 4).freeCCDs rtDescending
        = [0, 2, 1] ∧
      takeByTopology rtAscending topoDualSocketHT
        (NewCPUSet [0, 1, 2, 3, 4, 5, 6, 7, 8, 9, 10, 11, 12, 13, 14]) 4
        = ({1, 5, 9, 13}, none) ∧
      takeByTopology rtDescending topoDualSocketHT
        (NewCPUSet [0, 1, 2, 3, 4, 5, 6, 7, 8, 9, 10, 11, 12, 13, 14]) 4
        = ({0, 4, 8, 12}, none) := by
  refine ⟨by decide, by decide, by decide, by decide⟩

/-- C6. On `topoSingleSocketHT` with CPUs 1, 2, 6 available `freeCPUs` lists core 2
before core 1, although core 1 has the smaller key (its CCD has one free CPU, that of
core 2 has two): the comparator lets the later clause `iCCD < jCCD` decide. -/
theorem freeCPUs_not_stated_order :
    (newCPUAccumulator topoSingleSocketHT (NewCPUSet [1, 2, 6]) 0).freeCPUs rtAscending
        = [2, 6, 1] ∧
      freeCPUsStated (newCPUAccumulator topoSingleSocketHT (NewCPUSet [1, 2, 6]) 0)
        = [1, 2, 6] ∧
      takeByTopology rtAscending topoSingleSocketHT (NewCPUSet [1, 2, 6]) 1 = ({2}, none) := by
  refine ⟨by decide, by decide, by decide⟩

/-- C7. On `topoDualSocketHT` with CPUs 1, 2, 6, 9, 10, 14 available `freeCores` lists
the cores of CCD 2 before the core of CCD 1, although CCD 1 has the smaller key (its
socket has one free core, that of CCD 2 has two): the comparator lets the later clause
`iSocket < jSocket` decide. -/
theorem freeCores_not_stated_order :
    (newCPUAccumulator topoDualSocketHT (NewCPUSet [1, 2, 6, 9, 10, 14]) 0).freeCores
        rtAscending = [2, 6, 1] ∧
      freeCoresStated (newCPUAccumulator topoDualSocketHT (NewCPUSet [1, 2, 6, 9, 10, 14]) 0)
        = [1, 2, 6] := by
  refine ⟨by decide, by decide⟩

/-- C8. On `topoDualSocketHT` with every CPU but 15 available, and the socket IDs
enumerated as 1, 0, `freeCCDs` lists the CCDs of socket 0 (two free CCDs) before the
CCD of socket 1 (one free CCD), against the stated order. -/
theorem freeCCDs_not_stated_order :
    (newCPUAccumulator topoDualSocketHT
        (NewCPUSet [0, 1, 2, 3, 4, 5, 6, 7, 8, 9, 10, 11, 12, 13, 14]) 0).freeCCDs rtDescending
        = [0, 2, 1] ∧
      freeCCDsStated (newCPUAccumulator topoDualSocketHT
        (NewCPUSet [0, 1, 2, 3, 4, 5, 6, 7, 8, 9, 10, 11, 12, 13, 14]) 0) = [1, 0, 2] := by
  refine ⟨by decide, by decide⟩

/-- C9. Each of the three chained comparators holds in both directions of some pair of
candidates of an accumulator made by `newCPUAccumulator`: sockets 0 and 1, CCDs 1 and
2, cores 1 and 2; none of them holds of a candidate and itself, so none is transitive
either. -/
theorem comparators_not_asymmetric :
    (freeCCDsLess (newCPUAccumulator topoDualSocketHT
        (NewCPUSet [0, 1, 2, 3, 4, 5, 6, 7, 8, 9, 10, 11, 12, 13, 14]) 0) 0 1 = true ∧
      freeCCDsLess (newCPUAccumulator topoDualSocketHT
        (NewCPUSet [0, 1, 2, 3, 4, 5, 6, 7, 8, 9, 10, 11, 12, 13, 14]) 0) 1 0 = true ∧
      freeCCDsLess (newCPUAccumulator topoDualSocketHT
        (NewCPUSet [0, 1, 2, 3, 4, 5, 6, 7, 8, 9, 10, 11, 12, 13, 14]) 0) 0 0 = false) ∧
    (freeCoresLess (newCPUAccumulator topoDualSocketHT
        (NewCPUSet [1, 2, 6, 9, 10, 14]) 0) 1 2 = true ∧
      freeCoresLess (newCPUAccumulator topoDualSocketHT
        (NewCPUSet [1, 2, 6, 9, 10, 14]) 0) 2 1 = true ∧
      freeCoresLess (newCPUAccumulator topoDualSocketHT
        (NewCPUSet [1, 2, 6, 9, 10, 14]) 0) 1 1 = false) ∧
    (freeCPUsLess (newCPUAccumulator topoSingleSocketHT (NewCPUSet [1, 2, 6]) 0) 1 2 = true ∧
      freeCPUsLess (newCPUAccumulator topoSingleSocketHT (NewCPUSet [1, 2, 6]) 0) 2 1 = true ∧
      freeCPUsLess (newCPUAccumulator topoSingleSocketHT (NewCPUSet [1, 2, 6]) 0) 1 1
        = false) := by
  refine ⟨⟨by decide, by decide, by decide⟩, ⟨by decide, by decide, by decide⟩,
    ⟨by decide, by decide, by decide⟩⟩

/-- C12. For every accumulator state `freeSockets` is strictly ascending and lists
exactly the socket IDs of the view for which `isSocketFree` holds. -/
theorem freeSockets_sorted_mem (a : cpuAccumulator) :
    a.freeSockets.Sorted (fun x y => x < y) ∧
      ∀ s : Int, s ∈ a.freeSockets ↔ (s ∈ a.details.Sockets ∧ a.isSocketFree s = true) := by
  refine ⟨(sorted_ToSlice _).lt_of_le (nodup_ToSlice _), ?_⟩
  intro s
  rw [freeSockets, mem_ToSlice, CPUSet.Filter, Finset.mem_filter]

/-- C15. For every accumulator and every CPU set, after `take(cpus)` the result
contains `cpus` and has no CPU in common with either view. -/
theorem take_contains_disjoint (a : cpuAccumulator) (cpus : CPUSet) :
    cpus ⊆ (a.take cpus).result ∧
      (a.take cpus).result ∩ (a.take cpus).details.CPUs = ∅ ∧
      (a.take cpus).result ∩ (a.take cpus).ccdDetail.CPUs = ∅ := by
  refine ⟨Finset.subset_union_right, ?_, ?_⟩
  · rw [← Finset.disjoint_iff_inter_eq_empty, topology.CPUDetails.CPUs, take_details_keys,
      take_result]
    exact Finset.disjoint_sdiff
  · rw [← Finset.disjoint_iff_inter_eq_empty, CPUDetails.CPUs, take_ccdDetail_keys,
      take_result]
    exact Finset.disjoint_sdiff

theorem takes_cons (a : cpuAccumulator) (cpus : CPUSet) (l : List CPUSet) :
    a.takes (cpus :: l) = (a.take cpus).takes l := rfl

theorem take_details_of_subset {a : cpuAccumulator} {cpus : CPUSet}
    (hd : Disjoint a.result a.details.keys) :
    (a.take cpus).details.keys = a.details.keys \ cpus := by
  rw [take_details_keys]
  ext x
  simp only [Finset.mem_sdiff, Finset.mem_union, not_or]
  constructor
  · rintro ⟨hx, _, hc⟩
    exact ⟨hx, hc⟩
  · rintro ⟨hx, hc⟩
    exact ⟨hx, fun hr => (Finset.disjoint_left.1 hd) hr hx, hc⟩

theorem take_details_disjoint (a : cpuAccumulator) (cpus : CPUSet) :
    Disjoint (a.take cpus).result (a.take cpus).details.keys := by
  rw [take_details_keys, take_result]
  exact Finset.disjoint_sdiff

theorem takes_of_view :
    ∀ (l : List CPUSet) (a : cpuAccumulator), Disjoint a.result a.details.keys →
      TakesOfView a l →
      (a.takes l).numCPUsNeeded = a.numCPUsNeeded - ((l.map Finset.card).sum : Nat) ∧
        (a.takes l).result.card = a.result.card + (l.map Finset.card).sum ∧
        (a.takes l).details.keys.card + (l.map Finset.card).sum = a.details.keys.card := by
  intro l
  induction l with
  | nil =>
    intro a _ _
    simp [takes]
  | cons cpus rest ih =>
    intro a hd hl
    obtain ⟨hsub0, hrest⟩ := hl
    have hsub : cpus ⊆ a.details.keys := hsub0
    have hdisj : Disjoint a.result cpus := by
      rw [Finset.disjoint_left]
      intro x hx hc
      exact (Finset.disjoint_left.1 hd) hx (hsub hc)
    obtain ⟨h1, h2, h3⟩ := ih (a.take cpus) (take_details_disjoint a cpus) hrest
    rw [takes_cons]
    refine ⟨?_, ?_, ?_⟩
    · rw [h1, take_needed]
      simp only [List.map_cons, List.sum_cons, Nat.cast_add]
      omega
    · rw [h2, take_result, Finset.card_union_of_disjoint hdisj]
      simp only [List.map_cons, List.sum_cons]
      omega
    · rw [take_details_of_subset hd, Finset.card_sdiff hsub] at h3
      have := Finset.card_le_card hsub
      simp only [List.map_cons, List.sum_cons]
      omega

/-- C16. For every accumulator made by `newCPUAccumulator(topo, available, n)` and
every sequence of takes, each of a subset of the CPUs of the view at that time, the
remaining demand after the sequence is `n` minus the size of the result, and is `n`
minus the total size of the sets taken. -/
theorem takes_needed (topo : CPUTopology) (avail : CPUSet) (n : Int) (l : List CPUSet)
    (h : TakesOfView (newCPUAccumulator topo avail n) l) :
    ((newCPUAccumulator topo avail n).takes l).numCPUsNeeded
        = n - (((newCPUAccumulator topo avail n).takes l).result.card : Int) ∧
      ((newCPUAccumulator topo avail n).takes l).numCPUsNeeded
        = n - (((l.map Finset.card).sum : Nat) : Int) := by
  have hd : Disjoint (newCPUAccumulator topo avail n).result
      (newCPUAccumulator topo avail n).details.keys := Finset.disjoint_empty_left _
  obtain ⟨h1, h2, _⟩ := takes_of_view l _ hd h
  have h0 : (newCPUAccumulator topo avail n).result.card = 0 := rfl
  have hn : (newCPUAccumulator topo avail n).numCPUsNeeded = n := rfl
  rw [h0] at h2
  rw [hn] at h1
  refine ⟨?_, h1⟩
  rw [h1, h2]
  simp

theorem takes_needed_witness :
    TakesOfView (newCPUAccumulator topoSingleSocketHT (NewCPUSet [0, 1, 2]) 4)
        [NewCPUSet [0], NewCPUSet [1]] ∧
      ((newCPUAccumulator topoSingleSocketHT (NewCPUSet [0, 1, 2]) 4).takes
        [NewCPUSet [0], NewCPUSet [1]]).numCPUsNeeded
        = 4 - (((newCPUAccumulator topoSingleSocketHT (NewCPUSet [0, 1, 2]) 4).takes
          [NewCPUSet [0], NewCPUSet [1]]).result.card : Int) ∧
      ((newCPUAccumulator topoSingleSocketHT (NewCPUSet [0, 1, 2]) 4).takes
        [NewCPUSet [0], NewCPUSet [1]]).numCPUsNeeded
        = 4 - ((([NewCPUSet [0], NewCPUSet [1]].map Finset.card).sum : Nat) : Int) :=
  ⟨⟨by decide, by decide, trivial⟩,
    takes_needed _ _ _ _ ⟨by decide, by decide, trivial⟩⟩

/-- C19. For every runtime, topology and available set, a request for 0 CPUs returns
the empty set and no error. -/
theorem takeByTopology_zero (rt : Runtime) (topo : CPUTopology) (avail : CPUSet) :
    takeByTopology rt topo avail 0 = (∅, none) :=
  takeByTopology_of_lt_one rt topo avail 0 (by decide)

theorem goInsert_filter (less : Int → Int → Bool) (p : Int → Bool)
    (hp : ∀ x y, less x y = true → p y = true → p x = false) (x : Int) :
    ∀ rev : List Int, (goInsert less x rev).filter p = (x :: rev).filter p := by
  intro rev
  induction rev with
  | nil => rfl
  | cons y ys ih =>
    unfold goInsert
    by_cases hl : less x y = true
    · simp only [hl, if_true]
      by_cases hy : p y = true
      · have hx := hp x y hl hy
        rw [List.filter_cons_of_pos hy, ih, List.filter_cons_of_neg (by simp [hx]),
          List.filter_cons_of_neg (by simp [hx]), List.filter_cons_of_pos hy]
      · rw [List.filter_cons_of_neg hy, ih]
        by_cases hx : p x = true
        · rw [List.filter_cons_of_pos hx, List.filter_cons_of_pos hx,
            List.filter_cons_of_neg hy]
        · rw [List.filter_cons_of_neg hx, List.filter_cons_of_neg hx,
            List.filter_cons_of_neg hy]
    · simp only [hl, Bool.false_eq_true, if_false]

theorem goInsertionSort_filter (less : Int → Int → Bool) (p : Int → Bool)
    (hp : ∀ x y, less x y = true → p y = true → p x = false) (l : List Int) :
    (goInsertionSort less l).filter p = l.filter p := by
  have key : ∀ (l rev : List Int),
      (l.foldl (fun rev x => goInsert less x rev) rev).filter p
        = (l.reverse ++ rev).filter p := by
    intro l
    induction l with
    | nil => intro rev; simp
    | cons x xs ih =>
      intro rev
      rw [List.foldl_cons, ih, List.filter_append, goInsert_filter less p hp,
        List.reverse_cons, List.append_assoc, List.filter_append]
      rfl
  unfold goInsertionSort
  rw [List.filter_reverse, key, List.append_nil, List.filter_reverse,
    List.reverse_reverse]

/-- C11, as amended. When `sort.Slice` runs its insertion sort (as it does on at most
12 elements since Go 1.19 and on at most 6 before), the cores of any one fit score `v`
are in the re-sorted list in the same relative order as in the list given, which in
phase 3 is `freeCores()`. -/
theorem bestFit_resort_stable_insertion (acc : cpuAccumulator) (l : List Int) (v : Int) :
    (goInsertionSort (bestFitLess acc) l).filter (fun c => decide (fitScore acc c = v))
      = l.filter (fun c => decide (fitScore acc c = v)) := by
  apply goInsertionSort_filter
  intro x y hl hy
  simp only [decide_eq_true_eq] at hy
  simp only [decide_eq_false_iff_not]
  intro hx
  have hirr : ∀ s : Int, fitLess s s = false := by
    intro s
    simp only [fitLess, Bool.or_eq_false_iff, Bool.and_eq_false_iff, decide_eq_false_iff_not]
    omega
  rw [bestFitLess, hx, hy, hirr] at hl
  exact Bool.false_ne_true hl

/-- C11, counterexample. On `topoTwoCCD` with the 17 CPUs below available and 4 CPUs
requested, `freeCores()` lists core 6 before core 7, which have the same fit score; the
`sort.Slice` of Go 1.18 and earlier (gap-6 pass, then insertion sort, on these 7
elements) leaves core 7 before core 6, and `takeByTopology` then returns the threads of
cores 0 and 7 where the insertion sort alone gives those of cores 0 and 6. -/
theorem bestFit_resort_unstable :
    (newCPUAccumulator topoTwoCCD
        (NewCPUSet [0, 1, 2, 3, 6, 7, 8, 9, 10, 11, 12, 18, 19, 20, 21, 22, 23]) 4).freeCores
        rtGapInsertion = [6, 7, 8, 9, 10, 11, 0] ∧
      fitScore (newCPUAccumulator topoTwoCCD
        (NewCPUSet [0, 1, 2, 3, 6, 7, 8, 9, 10, 11, 12, 18, 19, 20, 21, 22, 23]) 4) 6
        = fitScore (newCPUAccumulator topoTwoCCD
        (NewCPUSet [0, 1, 2, 3, 6, 7, 8, 9, 10, 11, 12, 18, 19, 20, 21, 22, 23]) 4) 7 ∧
      rtGapInsertion.sortSlice (bestFitLess (newCPUAccumulator topoTwoCCD
        (NewCPUSet [0, 1, 2, 3, 6, 7, 8, 9, 10, 11, 12, 18, 19, 20, 21, 22, 23]) 4))
        [6, 7, 8, 9, 10, 11, 0] = [0, 7, 8, 9, 10, 11, 6] ∧
      takeByTopology rtGapInsertion topoTwoCCD
        (NewCPUSet [0, 1, 2, 3, 6, 7, 8, 9, 10, 11, 12, 18, 19, 20, 21, 22, 23]) 4
        = ({0, 7, 12, 19}, none) ∧
      takeByTopology rtAscending topoTwoCCD
        (NewCPUSet [0, 1, 2, 3, 6, 7, 8, 9, 10, 11, 12, 18, 19, 20, 21, 22, 23]) 4
        = ({0, 6, 12, 18}, none) := by
  refine ⟨by decide, by decide, by decide, by decide, by decide⟩

theorem viewOfTopo_takes (topo : CPUTopology) (avail : CPUSet) (n : Int) (l : List CPUSet) :
    ViewOfTopo ((newCPUAccumulator topo avail n).takes l) ∧
      ((newCPUAccumulator topo avail n).takes l).topo = topo := by
  have key : ∀ (l : List CPUSet) (a : cpuAccumulator), ViewOfTopo a →
      ViewOfTopo (a.takes l) ∧ (a.takes l).topo = a.topo := by
    intro l
    induction l with
    | nil => intro a h; exact ⟨h, rfl⟩
    | cons c rest ih =>
      intro a h
      exact ih (a.take c) (viewOfTopo_take h c)
  exact key l _ (newCPUAccumulator_viewOfTopo topo avail n)

theorem filter_card_eq_iff (K V : Finset Int) (hV : V ⊆ K) (p : Int → Prop)
    [DecidablePred p] :
    ((V.filter p).card : Int) = ((K.filter p).card : Int) ↔ K.filter p ⊆ V := by
  have hsub : V.filter p ⊆ K.filter p := Finset.filter_subset_filter p hV
  constructor
  · intro h
    have heq := Finset.eq_of_subset_of_card_le hsub (by omega)
    rw [← heq]
    exact Finset.filter_subset _ _
  · intro h
    have : K.filter p ⊆ V.filter p := by
      intro x hx
      exact Finset.mem_filter.2 ⟨h hx, (Finset.mem_filter.1 hx).2⟩
    rw [Finset.Subset.antisymm hsub this]

/-- C13, as amended. For every accumulator made by `newCPUAccumulator` and changed by
takes: for every socket `s` to which the topology gives exactly `CPUsPerSocket()` CPUs,
`isSocketFree(s)` returns true if and only if every CPU that the topology places on `s`
is in the view; for every CCD `c` to which the topology gives exactly `CPUsPerCCD()`
CPUs, `isCCDFree(c)` returns true if and only if every CPU that the topology places on
`c` is in the CCD view; for every core `id` to which the topology gives exactly
`CPUsPerCore()` CPUs, `isCoreFree(id)` returns true if and only if every CPU that the
topology places on `id` is in the view. The three statements are independent: each
asks for the size of its own unit only. -/
theorem isFree_iff_all_present (topo : CPUTopology) (avail : CPUSet) (n : Int)
    (l : List CPUSet) :
    (∀ s : Int, (topo.CPUDetails.CPUsInSockets s).Size = topo.CPUsPerSocket →
      (((newCPUAccumulator topo avail n).takes l).isSocketFree s = true ↔
        topo.CPUDetails.CPUsInSockets s
          ⊆ ((newCPUAccumulator topo avail n).takes l).details.CPUs)) ∧
    (∀ c : Int, (topo.CPUCCDDetails.CPUsInCCDs c).Size = topo.CPUsPerCCD →
      (((newCPUAccumulator topo avail n).takes l).isCCDFree c = true ↔
        topo.CPUCCDDetails.CPUsInCCDs c
          ⊆ ((newCPUAccumulator topo avail n).takes l).ccdDetail.CPUs)) ∧
    (∀ id : Int, (topo.CPUDetails.CPUsInCores id).Size = topo.CPUsPerCore →
      (((newCPUAccumulator topo avail n).takes l).isCoreFree id = true ↔
        topo.CPUDetails.CPUsInCores id
          ⊆ ((newCPUAccumulator topo avail n).takes l).details.CPUs)) := by
  obtain ⟨hv, ht⟩ := viewOfTopo_takes topo avail n l
  generalize (newCPUAccumulator topo avail n).takes l = a at hv ht
  subst ht
  refine ⟨fun s hs => ?_, fun c hc => ?_, fun id hid => ?_⟩
  · simp only [isSocketFree, decide_eq_true_eq, ← hs, CPUSet.Size,
      topology.CPUDetails.CPUsInSockets, hv.details_info, topology.CPUDetails.CPUs]
    exact filter_card_eq_iff _ _ hv.details_keys _
  · simp only [isCCDFree, decide_eq_true_eq, ← hc, CPUSet.Size, CPUDetails.CPUsInCCDs,
      hv.ccd_info, CPUDetails.CPUs]
    exact filter_card_eq_iff _ _ hv.ccd_keys _
  · simp only [isCoreFree, decide_eq_true_eq, ← hid, CPUSet.Size,
      topology.CPUDetails.CPUsInCores, hv.details_info, topology.CPUDetails.CPUs]
    exact filter_card_eq_iff _ _ hv.details_keys _

theorem isFree_iff_all_present_witness :
    ((topoBigCCD.CPUDetails.CPUsInSockets 0).Size = topoBigCCD.CPUsPerSocket ∧
      (((newCPUAccumulator topoBigCCD (NewCPUSet [0, 1, 2, 3]) 2).takes
          [NewCPUSet [0]]).isSocketFree 0 = true ↔
        topoBigCCD.CPUDetails.CPUsInSockets 0
          ⊆ ((newCPUAccumulator topoBigCCD (NewCPUSet [0, 1, 2, 3]) 2).takes
            [NewCPUSet [0]]).details.CPUs)) ∧
    ((topoSingleSocketHT.CPUCCDDetails.CPUsInCCDs 1).Size = topoSingleSocketHT.CPUsPerCCD ∧
      (((newCPUAccumulator topoSingleSocketHT (NewCPUSet [0, 1, 2, 3, 4, 5, 6, 7]) 2).takes
          [NewCPUSet [0, 4]]).isCCDFree 1 = true ↔
        topoSingleSocketHT.CPUCCDDetails.CPUsInCCDs 1
          ⊆ ((newCPUAccumulator topoSingleSocketHT (NewCPUSet [0, 1, 2, 3, 4, 5, 6, 7]) 2).takes
            [NewCPUSet [0, 4]]).ccdDetail.CPUs)) ∧
    ((topoBigCCD.CPUDetails.CPUsInCores 2).Size = topoBigCCD.CPUsPerCore ∧
      (((newCPUAccumulator topoBigCCD (NewCPUSet [0, 1, 2, 3]) 2).takes
          [NewCPUSet [0]]).isCoreFree 2 = true ↔
        topoBigCCD.CPUDetails.CPUsInCores 2
          ⊆ ((newCPUAccumulator topoBigCCD (NewCPUSet [0, 1, 2, 3]) 2).takes
            [NewCPUSet [0]]).details.CPUs)) :=
  ⟨⟨by decide, (isFree_iff_all_present _ _ _ _).1 0 (by decide)⟩,
    ⟨by decide, (isFree_iff_all_present _ _ _ _).2.1 1 (by decide)⟩,
    ⟨by decide, (isFree_iff_all_present _ _ _ _).2.2 2 (by decide)⟩⟩

/-- C13, counterexample. `topoUneven` satisfies the invariants of section 3. With all
of its CPUs in the view every CPU of socket 0, of CCD 0 and of core 0 is present while
`isSocketFree(0)`, `isCCDFree(0)` and `isCoreFree(0)` are false (3 CPUs against a
per-unit size of 2); with CPU 2 left out of the view all three are true. And on
`topoSingleSocketHT` every CPU of the socket 5, which has none, is present while
`isSocketFree(5)` is false. -/
theorem isFree_not_iff_all_present :
    Section3 topoUneven ∧
      (topoUneven.CPUDetails.CPUsInSockets 0
          ⊆ (newCPUAccumulator topoUneven (NewCPUSet [0, 1, 2, 3]) 0).details.CPUs ∧
        (newCPUAccumulator topoUneven (NewCPUSet [0, 1, 2, 3]) 0).isSocketFree 0 = false) ∧
      (topoUneven.CPUCCDDetails.CPUsInCCDs 0
          ⊆ (newCPUAccumulator topoUneven (NewCPUSet [0, 1, 2, 3]) 0).ccdDetail.CPUs ∧
        (newCPUAccumulator topoUneven (NewCPUSet [0, 1, 2, 3]) 0).isCCDFree 0 = false) ∧
      (topoUneven.CPUDetails.CPUsInCores 0
          ⊆ (newCPUAccumulator topoUneven (NewCPUSet [0, 1, 2, 3]) 0).details.CPUs ∧
        (newCPUAccumulator topoUneven (NewCPUSet [0, 1, 2, 3]) 0).isCoreFree 0 = false) ∧
      (¬ topoUneven.CPUDetails.CPUsInSockets 0
          ⊆ (newCPUAccumulator topoUneven (NewCPUSet [0, 1, 3]) 0).details.CPUs ∧
        (newCPUAccumulator topoUneven (NewCPUSet [0, 1, 3]) 0).isSocketFree 0 = true ∧
        (newCPUAccumulator topoUneven (NewCPUSet [0, 1, 3]) 0).isCCDFree 0 = true ∧
        (newCPUAccumulator topoUneven (NewCPUSet [0, 1, 3]) 0).isCoreFree 0 = true) ∧
      (Section3 topoSingleSocketHT ∧
        topoSingleSocketHT.CPUDetails.CPUsInSockets 5
          ⊆ (newCPUAccumulator topoSingleSocketHT
            (NewCPUSet [0, 1, 2, 3, 4, 5, 6, 7]) 0).details.CPUs ∧
        (newCPUAccumulator topoSingleSocketHT
          (NewCPUSet [0, 1, 2, 3, 4, 5, 6, 7]) 0).isSocketFree 5 = false) := by
  refine ⟨by decide, ⟨by decide, by decide⟩, ⟨by decide, by decide⟩, ⟨by decide, by decide⟩,
    ⟨by decide, by decide, by decide, by decide⟩, ⟨by decide, by decide, by decide⟩⟩

theorem mem_freeCores (rt : Runtime) (a : cpuAccumulator) (c : Int) :
    c ∈ a.freeCores rt ↔
      ((∃ cpu ∈ a.ccdDetail.keys, cpu ∈ a.details.keys ∧ (a.details.info cpu).CoreID = c) ∧
        a.isCoreFree c = true) := by
  simp only [freeCores, List.mem_flatMap, (rt.sortSlice_perm _ _).mem_iff, mem_ToSlice,
    CPUDetails.CCDs, CPUSet.Filter, CoresInCCDs, Finset.mem_image, Finset.mem_filter]
  constructor
  · rintro ⟨s, _, ⟨cpu, ⟨hk, hd, _⟩, hcore⟩, hfree⟩
    exact ⟨⟨cpu, hk, hd, hcore⟩, hfree⟩
  · rintro ⟨⟨cpu, hk, hd, hcore⟩, hfree⟩
    exact ⟨_, ⟨cpu, hk, rfl⟩, ⟨cpu, ⟨hk, hd, rfl⟩, hcore⟩, hfree⟩

theorem details_sub_ccd_takes (topo : CPUTopology) (avail : CPUSet) (n : Int)
    (hcov : topo.CPUDetails.CPUs ⊆ topo.CPUCCDDetails.CPUs) (l : List CPUSet) :
    ((newCPUAccumulator topo avail n).takes l).details.keys
      ⊆ ((newCPUAccumulator topo avail n).takes l).ccdDetail.keys := by
  have key : ∀ (l : List CPUSet) (a : cpuAccumulator), a.details.keys ⊆ a.ccdDetail.keys →
      (a.takes l).details.keys ⊆ (a.takes l).ccdDetail.keys := by
    intro l
    induction l with
    | nil => intro a h; exact h
    | cons c rest ih =>
      intro a h
      refine ih (a.take c) ?_
      rw [take_details_keys, take_ccdDetail_keys]
      exact Finset.sdiff_subset_sdiff h (Finset.Subset.refl _)
  refine key l _ ?_
  intro x hx
  have hx' := Finset.mem_filter.1 hx
  exact Finset.mem_filter.2 ⟨hcov hx'.1, hx'.2⟩

/-- On a topology whose CCD map holds every CPU of its CPU map, for every accumulator
made by `newCPUAccumulator` and changed by takes, `freeCores()` lists exactly the cores of
the view for which `isCoreFree` holds. -/
theorem freeCores_mem_of_covered (rt : Runtime) (topo : CPUTopology) (avail : CPUSet)
    (n : Int) (l : List CPUSet) (hcov : topo.CPUDetails.CPUs ⊆ topo.CPUCCDDetails.CPUs)
    (c : Int) :
    c ∈ ((newCPUAccumulator topo avail n).takes l).freeCores rt ↔
      (c ∈ ((newCPUAccumulator topo avail n).takes l).details.Cores ∧
        ((newCPUAccumulator topo avail n).takes l).isCoreFree c = true) := by
  have hsub := details_sub_ccd_takes topo avail n hcov l
  generalize (newCPUAccumulator topo avail n).takes l = a at hsub
  rw [mem_freeCores, topology.CPUDetails.Cores, Finset.mem_image]
  constructor
  · rintro ⟨⟨cpu, _, hd, hcore⟩, hfree⟩
    exact ⟨⟨cpu, hd, hcore⟩, hfree⟩
  · rintro ⟨⟨cpu, hd, hcore⟩, hfree⟩
    exact ⟨⟨cpu, hsub hd, hd, hcore⟩, hfree⟩

/-- C14. On the degraded topology `topoDegraded` (no CCD known, `NumCCDs = 0`, empty CCD
map), which satisfies the invariants of section 3, with the CPUs 0, 1 and 5 available:
core 1, whose CPUs are 1 and 5, is in the view and `isCoreFree(1)` holds, but
`freeCores()` is empty whatever the runtime, and `takeByTopology` asked for 2 CPUs
returns the CPUs 0 and 1 instead of the whole core. -/
theorem freeCores_degraded_empty :
    Section3 topoDegraded ∧
      topoDegraded.CPUDetails.CPUsInCores 1 = NewCPUSet [1, 5] ∧
      topoDegraded.CPUsPerCore = 2 ∧
      (1 : Int) ∈ (newCPUAccumulator topoDegraded (NewCPUSet [0, 1, 5]) 2).details.Cores ∧
      (newCPUAccumulator topoDegraded (NewCPUSet [0, 1, 5]) 2).isCoreFree 1 = true ∧
      (∀ rt : Runtime,
        (newCPUAccumulator topoDegraded (NewCPUSet [0, 1, 5]) 2).freeCores rt = []) ∧
      takeByTopology rtAscending topoDegraded (NewCPUSet [0, 1, 5]) 2
        = (NewCPUSet [0, 1], none) ∧
      takeByTopology rtGapInsertion topoDegraded (NewCPUSet [0, 1, 5]) 2
        = (NewCPUSet [0, 1], none) ∧
      takeByTopology rtAscending topoSingleSocketHT (NewCPUSet [0, 1, 5]) 2
        = (NewCPUSet [1, 5], none) := by
  refine ⟨by decide, by decide, by decide, by decide, by decide, ?_, by decide, by decide,
    by decide⟩
  intro rt
  apply List.eq_nil_iff_forall_not_mem.2
  intro c hc
  rw [mem_freeCores] at hc
  obtain ⟨⟨cpu, hcpu, _⟩, _⟩ := hc
  simp [newCPUAccumulator, CPUDetails.KeepOnly, topoDegraded] at hcpu

/-- C18. When `discoverCCD` fails, `Discover` returns a topology and no error, but the
embedded `*CCDTopology` of that topology is nil: reading `NumCCDs` or `CPUCCDDetails`
and calling `CPUsPerCCD()` dereference the nil pointer instead of giving 0, the empty
map and 0. -/
theorem Discover_ccd_failure (common : topology.CPUTopology)
    (getShareCpuList : Int → Except String CPUSet) (err : String)
    (h : (discoverCCD getShareCpuList common.CPUDetails.CPUs).2 = some err) :
    ∃ topo, Discover (.ok common) getShareCpuList = .ok topo ∧ topo.ccd = none ∧
      topo.NumCCDs = none ∧ topo.CPUCCDDetails = none ∧ topo.CPUsPerCCD = none := by
  have hnil : (discoverCCD getShareCpuList common.CPUDetails.CPUs).1 = none := by
    unfold discoverCCD at h ⊢
    cases hl : discoverLists getShareCpuList common.CPUDetails.CPUs.ToSlice [] with
    | error e => rfl
    | ok lists =>
      rw [hl] at h
      simp at h
  refine ⟨⟨common, none⟩, ?_, rfl, rfl, rfl, rfl⟩
  unfold Discover
  simp only [hnil]

theorem Discover_ccd_failure_witness :
    (discoverCCD (fun _ => Except.error "no such file or directory")
        topoSingleSocketHT.toCPUTopology.CPUDetails.CPUs).2
        = some "no such file or directory" ∧
      ∃ topo, Discover (.ok topoSingleSocketHT.toCPUTopology)
          (fun _ => Except.error "no such file or directory") = .ok topo ∧
        topo.ccd = none ∧ topo.NumCCDs = none ∧ topo.CPUCCDDetails = none ∧
        topo.CPUsPerCCD = none :=
  ⟨by decide, Discover_ccd_failure _ _ "no such file or directory" (by decide)⟩

theorem newCPUAccumulator_details_keys (topo : CPUTopology) (avail : CPUSet) (n : Int)
    (hsub : avail ⊆ topo.CPUDetails.CPUs) :
    (newCPUAccumulator topo avail n).details.keys = avail := by
  ext x
  simp only [newCPUAccumulator, topology.CPUDetails.KeepOnly, Finset.mem_filter]
  exact ⟨fun h => h.2, fun h => ⟨hsub h, h⟩⟩

theorem viewCount_new (topo : CPUTopology) (avail : CPUSet) (n : Int)
    (hsub : avail ⊆ topo.CPUDetails.CPUs) :
    ViewCount avail (newCPUAccumulator topo avail n) := by
  have hk := newCPUAccumulator_details_keys topo avail n hsub
  refine ⟨?_, Finset.disjoint_empty_left _, ?_⟩
  · rw [hk]
    intro x hx
    exact (Finset.mem_filter.1 hx).2
  · rw [hk]
    rfl

theorem viewCount_take {avail : CPUSet} {a : cpuAccumulator} (h : ViewCount avail a)
    {cpus : CPUSet} (hsub : cpus ⊆ a.details.keys) : ViewCount avail (a.take cpus) := by
  have hdisj : Disjoint a.result cpus := by
    rw [Finset.disjoint_left]
    intro x hx hc
    exact (Finset.disjoint_left.1 h.details_disj) hx (hsub hc)
  refine ⟨?_, take_details_disjoint a cpus, ?_⟩
  · rw [take_details_keys, take_ccdDetail_keys]
    exact Finset.sdiff_subset_sdiff h.ccd_details (Finset.Subset.refl _)
  · rw [take_details_of_subset h.details_disj, take_result,
      Finset.card_union_of_disjoint hdisj, Finset.card_sdiff hsub]
    have := Finset.card_le_card hsub
    have := h.count
    omega

theorem takeLoop_viewCount {avail : CPUSet} {unit : Int}
    {cpusOf : cpuAccumulator → Int → CPUSet}
    (hsub : ∀ a s, a.ccdDetail.keys ⊆ a.details.keys → cpusOf a s ⊆ a.details.keys) :
    ∀ (ids : List Int) (a : cpuAccumulator), ViewCount avail a →
      (∀ b ∈ takeLoopStates unit cpusOf ids a, ViewCount avail b) ∧
        (∀ b, takeLoop unit cpusOf ids a = .ok b → ViewCount avail b) := by
  intro ids
  induction ids with
  | nil =>
    intro a h
    refine ⟨fun b hb => by simp [takeLoopStates] at hb, ?_⟩
    intro b hb
    simp only [takeLoop, Except.ok.injEq] at hb
    exact hb ▸ h
  | cons s rest ih =>
    intro a h
    have h1 := viewCount_take h (hsub a s h.ccd_details)
    obtain ⟨ih1, ih2⟩ := ih (a.take (cpusOf a s)) h1
    unfold takeLoopStates takeLoop
    simp only []
    by_cases hs : (a.take (cpusOf a s)).isSatisfied = true
    · simp only [hs, if_true, List.mem_singleton]
      exact ⟨fun b hb => hb ▸ h1, fun b hb => by simp at hb⟩
    · simp only [hs, Bool.false_eq_true, if_false]
      by_cases hn : (a.take (cpusOf a s)).needs unit = true
      · simp only [hn, Bool.not_true, Bool.false_eq_true, if_false, List.mem_cons]
        refine ⟨?_, ih2⟩
        rintro b (hb | hb)
        · exact hb ▸ h1
        · exact ih1 b hb
      · simp only [Bool.not_eq_true] at hn
        simp only [hn, Bool.not_false, if_true, List.mem_singleton, Except.ok.injEq]
        exact ⟨fun b hb => hb ▸ h1, fun b hb => hb ▸ h1⟩

theorem takeCPUs_viewCount {avail : CPUSet} :
    ∀ (cpus : List Int) (a : cpuAccumulator), ViewCount avail a → cpus.Nodup →
      (∀ c ∈ cpus, c ∈ a.details.keys) →
      ∀ b ∈ takeCPUsStates cpus a, ViewCount avail b := by
  intro cpus
  induction cpus with
  | nil => intro a _ _ _ b hb; simp [takeCPUsStates] at hb
  | cons c rest ih =>
    intro a h hnd hmem b hb
    have hc : c ∈ a.details.keys := hmem c (List.mem_cons_self _ _)
    unfold takeCPUsStates at hb
    simp only [] at hb
    by_cases hn : a.needs 1 = true
    · simp only [hn, if_true, List.singleton_append, List.mem_cons] at hb
      have hsub : NewCPUSet [c] ⊆ a.details.keys := by
        intro x hx
        simp only [NewCPUSet, List.toFinset_cons, List.toFinset_nil, insert_emptyc_eq,
          Finset.mem_singleton] at hx
        exact hx ▸ hc
      have h1 := viewCount_take h hsub
      rcases hb with hb | hb
      · exact hb ▸ h1
      · by_cases hs : (a.take (NewCPUSet [c])).isSatisfied = true
        · simp [hs] at hb
        · simp only [hs, Bool.false_eq_true, if_false] at hb
          refine ih _ h1 (List.nodup_cons.1 hnd).2 ?_ b hb
          intro x hx
          rw [take_details_keys, Finset.mem_sdiff, Finset.mem_union]
          refine ⟨hmem x (List.mem_cons_of_mem _ hx), ?_⟩
          rintro (hxr | hxc)
          · exact (Finset.disjoint_left.1 h.details_disj) hxr
              (hmem x (List.mem_cons_of_mem _ hx))
          · simp only [NewCPUSet, List.toFinset_cons, List.toFinset_nil, insert_emptyc_eq,
              Finset.mem_singleton] at hxc
            subst hxc
            exact (List.nodup_cons.1 hnd).1 hx
    · simp only [hn, Bool.false_eq_true, if_false, List.nil_append] at hb
      by_cases hs : a.isSatisfied = true
      · simp [hs] at hb
      · simp only [hs, Bool.false_eq_true, if_false] at hb
        exact ih a h (List.nodup_cons.1 hnd).2
          (fun x hx => hmem x (List.mem_cons_of_mem _ hx)) b hb

theorem viewSub_sockets (a : cpuAccumulator) (s : Int)
    (_ : a.ccdDetail.keys ⊆ a.details.keys) : a.details.CPUsInSockets s ⊆ a.details.keys :=
  Finset.filter_subset _ _

theorem viewSub_cores (a : cpuAccumulator) (s : Int)
    (_ : a.ccdDetail.keys ⊆ a.details.keys) : a.details.CPUsInCores s ⊆ a.details.keys :=
  Finset.filter_subset _ _

theorem viewSub_ccds (a : cpuAccumulator) (s : Int)
    (h : a.ccdDetail.keys ⊆ a.details.keys) : a.ccdDetail.CPUsInCCDs s ⊆ a.details.keys :=
  (Finset.filter_subset _ _).trans h

theorem takeByTopologyStates_viewCount (rt : Runtime) (topo : CPUTopology) (avail : CPUSet)
    (n : Int) (hsub : avail ⊆ topo.CPUDetails.CPUs) :
    ∀ b ∈ takeByTopologyStates rt topo avail n, ViewCount avail b := by
  have h0 := viewCount_new topo avail n hsub
  intro b hb
  unfold takeByTopologyStates at hb
  simp only [] at hb
  by_cases hsat : (newCPUAccumulator topo avail n).isSatisfied = true
  · simp [hsat] at hb
  simp only [hsat, Bool.false_eq_true, if_false] at hb
  by_cases hf : (newCPUAccumulator topo avail n).isFailed = true
  · simp [hf] at hb
  simp only [hf, Bool.false_eq_true, if_false] at hb
  -- phase 1
  have p1 := @takeLoop_viewCount avail
    (newCPUAccumulator topo avail n).topo.CPUsPerSocket _ viewSub_sockets
    (newCPUAccumulator topo avail n).freeSockets _ h0
  rcases List.mem_append.1 hb with hb | hb
  · by_cases hn : (newCPUAccumulator topo avail n).needs
        (newCPUAccumulator topo avail n).topo.CPUsPerSocket = true
    · simp only [hn, if_true] at hb
      exact p1.1 b hb
    · simp [hn] at hb
  rcases hS : takeSockets (newCPUAccumulator topo avail n) with r | a1
  · rw [hS] at hb
    simp at hb
  rw [hS] at hb
  dsimp only at hb
  have h1 : ViewCount avail a1 := by
    unfold takeSockets at hS
    by_cases hn : (newCPUAccumulator topo avail n).needs
        (newCPUAccumulator topo avail n).topo.CPUsPerSocket = true
    · simp only [hn, if_true] at hS
      exact p1.2 a1 hS
    · simp only [hn, Bool.false_eq_true, if_false, Except.ok.injEq] at hS
      exact hS ▸ h0
  -- phase 2
  have p2 := @takeLoop_viewCount avail a1.topo.CPUsPerCCD _ viewSub_ccds
    (a1.freeCCDs rt) a1 h1
  rcases List.mem_append.1 hb with hb | hb
  · by_cases hn : a1.needs a1.topo.CPUsPerCCD = true
    · simp only [hn, if_true] at hb
      exact p2.1 b hb
    · simp [hn] at hb
  rcases hC : takeCCDs rt a1 with r | a2
  · rw [hC] at hb
    simp at hb
  rw [hC] at hb
  dsimp only at hb
  have h2 : ViewCount avail a2 := by
    unfold takeCCDs at hC
    by_cases hn : a1.needs a1.topo.CPUsPerCCD = true
    · simp only [hn, if_true] at hC
      exact p2.2 a2 hC
    · simp only [hn, Bool.false_eq_true, if_false, Except.ok.injEq] at hC
      exact hC ▸ h1
  -- phase 3
  have p3 := @takeLoop_viewCount avail a2.topo.CPUsPerCore _ viewSub_cores
    (rt.sortSlice (bestFitLess a2) (a2.freeCores rt)) a2 h2
  rcases List.mem_append.1 hb with hb | hb
  · by_cases hn : a2.needs a2.topo.CPUsPerCore = true
    · simp only [hn, if_true] at hb
      exact p3.1 b hb
    · simp [hn] at hb
  rcases hK : takeCores rt a2 with r | a3
  · rw [hK] at hb
    simp at hb
  rw [hK] at hb
  dsimp only at hb
  have h3 : ViewCount avail a3 := by
    unfold takeCores at hK
    by_cases hn : a2.needs a2.topo.CPUsPerCore = true
    · simp only [hn, if_true] at hK
      exact p3.2 a3 hK
    · simp only [hn, Bool.false_eq_true, if_false, Except.ok.injEq] at hK
      exact hK ▸ h2
  -- phase 4
  exact takeCPUs_viewCount (a3.freeCPUs rt) a3 h3 (nodup_freeCPUs rt a3)
    (fun c hc => (mem_freeCPUs rt a3 c).1 hc) b hb

/-- C17. For every runtime and topology, every available set within the CPUs of the
topology and every `n`: after every sequence of takes of subsets of the view at the
time, and in every state through which `takeByTopology` passes (the accumulator after
each of its takes), the CPUs of the view and of the result together number those of
the available set. -/
theorem card_details_add_result (rt : Runtime) (topo : CPUTopology) (avail : CPUSet)
    (n : Int) (hsub : avail ⊆ topo.CPUDetails.CPUs) :
    (∀ l : List CPUSet, TakesOfView (newCPUAccumulator topo avail n) l →
        ((newCPUAccumulator topo avail n).takes l).details.CPUs.card
          + ((newCPUAccumulator topo avail n).takes l).result.card = avail.card) ∧
      (∀ b ∈ takeByTopologyStates rt topo avail n,
        b.details.CPUs.card + b.result.card = avail.card) := by
  refine ⟨?_, fun b hb => (takeByTopologyStates_viewCount rt topo avail n hsub b hb).count⟩
  intro l hl
  have hd : Disjoint (newCPUAccumulator topo avail n).result
      (newCPUAccumulator topo avail n).details.keys := Finset.disjoint_empty_left _
  obtain ⟨_, h2, h3⟩ := takes_of_view l _ hd hl
  have h0 : (newCPUAccumulator topo avail n).result.card = 0 := rfl
  rw [newCPUAccumulator_details_keys topo avail n hsub] at h3
  rw [h0] at h2
  show ((newCPUAccumulator topo avail n).takes l).details.keys.card + _ = _
  omega

theorem card_details_add_result_witness :
    NewCPUSet [1, 2, 3, 5, 6, 7] ⊆ topoSingleSocketHT.CPUDetails.CPUs ∧
      (takeByTopologyStates rtAscending topoSingleSocketHT (NewCPUSet [1, 2, 3, 5, 6, 7]) 3).length
        = 2 ∧
      ((∀ l : List CPUSet,
          TakesOfView (newCPUAccumulator topoSingleSocketHT (NewCPUSet [1, 2, 3, 5, 6, 7]) 3) l →
          ((newCPUAccumulator topoSingleSocketHT (NewCPUSet [1, 2, 3, 5, 6, 7]) 3).takes
              l).details.CPUs.card
            + ((newCPUAccumulator topoSingleSocketHT (NewCPUSet [1, 2, 3, 5, 6, 7]) 3).takes
              l).result.card = (NewCPUSet [1, 2, 3, 5, 6, 7]).card) ∧
        (∀ b ∈ takeByTopologyStates rtAscending topoSingleSocketHT
            (NewCPUSet [1, 2, 3, 5, 6, 7]) 3,
          b.details.CPUs.card + b.result.card = (NewCPUSet [1, 2, 3, 5, 6, 7]).card)) :=
  ⟨by decide, by decide, card_details_add_result _ _ _ _ (by decide)⟩

/-- The outcome of `takeLoop` is read off the last of the states of `takeLoopStates`:
with no take the loop is left in the state in which it was entered; otherwise it
returns early exactly when the last state is satisfied. -/
theorem takeLoop_eq_of_states (unit : Int) (cpusOf : cpuAccumulator → Int → CPUSet) :
    ∀ (ids : List Int) (a : cpuAccumulator),
      takeLoop unit cpusOf ids a =
        match (takeLoopStates unit cpusOf ids a).getLast? with
        | none => .ok a
        | some b => if b.isSatisfied = true then .error b.result else .ok b := by
  intro ids
  induction ids with
  | nil => intro a; rfl
  | cons s rest ih =>
    intro a
    unfold takeLoop takeLoopStates
    simp only []
    by_cases hs : (a.take (cpusOf a s)).isSatisfied = true
    · simp [hs]
    · simp only [hs, Bool.false_eq_true, if_false]
      by_cases hn : (a.take (cpusOf a s)).needs unit = true
      · simp only [hn, Bool.not_true, Bool.false_eq_true, if_false]
        rw [ih, List.getLast?_cons]
        cases (takeLoopStates unit cpusOf rest (a.take (cpusOf a s))).getLast? with
        | none => simp [hs]
        | some b => simp
      · simp only [Bool.not_eq_true] at hn
        simp [hn, hs]

theorem takeLoop_result_mono {unit : Int} {cpusOf : cpuAccumulator → Int → CPUSet} :
    ∀ (ids : List Int) (a : cpuAccumulator),
      a.result ⊆ outcomeResult (takeLoop unit cpusOf ids a) := by
  intro ids
  induction ids with
  | nil => intro a; exact Finset.Subset.refl _
  | cons s rest ih =>
    intro a
    have h1 : a.result ⊆ (a.take (cpusOf a s)).result := Finset.subset_union_left
    unfold takeLoop
    simp only []
    by_cases hs : (a.take (cpusOf a s)).isSatisfied = true
    · simp only [hs, if_true]
      exact h1
    · simp only [hs, Bool.false_eq_true, if_false]
      by_cases hn : (a.take (cpusOf a s)).needs unit = true
      · simp only [hn, Bool.not_true, Bool.false_eq_true, if_false]
        exact h1.trans (ih _)
      · simp only [Bool.not_eq_true] at hn
        simp only [hn, Bool.not_false, if_true]
        exact h1

theorem takeCPUs_result_mono :
    ∀ (cpus : List Int) (a : cpuAccumulator) (r : CPUSet),
      takeCPUs cpus a = some r → a.result ⊆ r := by
  intro cpus
  induction cpus with
  | nil => intro a r hr; simp [takeCPUs] at hr
  | cons c rest ih =>
    intro a r hr
    unfold takeCPUs at hr
    simp only [] at hr
    have key : ∀ b : cpuAccumulator, a.result ⊆ b.result →
        (if b.isSatisfied = true then some b.result else takeCPUs rest b) = some r →
        a.result ⊆ r := by
      intro b hab hbr
      by_cases hs : b.isSatisfied = true
      · simp only [hs, if_true, Option.some.injEq] at hbr
        exact hbr ▸ hab
      · simp only [hs, Bool.false_eq_true, if_false] at hbr
        exact hab.trans (ih b r hbr)
    by_cases hn : a.needs 1 = true
    · simp only [hn, if_true] at hr
      exact key _ Finset.subset_union_left hr
    · simp only [hn, Bool.false_eq_true, if_false] at hr
      exact key a (Finset.Subset.refl _) hr

theorem filter_after_take_ne (K R : Finset Int) (f : Int → Int) (s t : Int)
    (h : Disjoint R K) (hst : t ≠ s) :
    (K \ (R ∪ K.filter (fun x => f x = s))).filter (fun x => f x = t)
      = K.filter (fun x => f x = t) := by
  ext x
  rw [Finset.mem_filter, Finset.mem_sdiff, Finset.mem_union, Finset.mem_filter,
    Finset.mem_filter]
  constructor
  · rintro ⟨⟨hx, _⟩, hf⟩
    exact ⟨hx, hf⟩
  · rintro ⟨hx, hf⟩
    refine ⟨⟨hx, ?_⟩, hf⟩
    rintro (hr | hs)
    · exact (Finset.disjoint_left.1 h) hr hx
    · exact hst (hf ▸ hs.2)

theorem takeLoop_sockets_firsts {unit : Int} (hunit : 1 ≤ unit) :
    ∀ (ids : List Int) (a : cpuAccumulator), Disjoint a.result a.details.keys →
      ids.Nodup → (∀ s ∈ ids, ((a.details.CPUsInSockets s).card : Int) = unit) →
      unit ≤ a.numCPUsNeeded →
      ∀ s ∈ ids.take (a.numCPUsNeeded / unit).toNat,
        a.details.CPUsInSockets s
          ⊆ outcomeResult (takeLoop unit (fun a s => a.details.CPUsInSockets s) ids a) := by
  intro ids
  induction ids with
  | nil => intro a _ _ _ _ s hs; simp at hs
  | cons s rest ih =>
    intro a hd hnd hfree hu t ht
    have hX : a.details.CPUsInSockets s ⊆ (a.take (a.details.CPUsInSockets s)).result :=
      Finset.subset_union_right
    have hcard := hfree s (List.mem_cons_self _ _)
    have hneeded : (a.take (a.details.CPUsInSockets s)).numCPUsNeeded
        = a.numCPUsNeeded - unit := by
      rw [take_needed, hcard]
    have hq : 1 ≤ a.numCPUsNeeded / unit :=
      (Int.le_ediv_iff_mul_le (by omega)).2 (by omega)
    obtain ⟨k, hk⟩ : ∃ k : Nat, (a.numCPUsNeeded / unit).toNat = k + 1 :=
      ⟨(a.numCPUsNeeded / unit).toNat - 1, by omega⟩
    rw [hk, List.take_succ_cons, List.mem_cons] at ht
    have hdiv : (a.numCPUsNeeded - unit) / unit = a.numCPUsNeeded / unit - 1 := by
      have := Int.add_mul_ediv_right a.numCPUsNeeded (-1) (show unit ≠ 0 by omega)
      rw [show a.numCPUsNeeded + -1 * unit = a.numCPUsNeeded - unit by ring] at this
      rw [this]
      ring
    unfold takeLoop
    simp only []
    by_cases hs : (a.take (a.details.CPUsInSockets s)).isSatisfied = true
    · simp only [hs, if_true]
      have hlt : a.numCPUsNeeded - unit < 1 := by
        simpa [isSatisfied, hneeded] using hs
      have hk0 : k = 0 := by
        have : a.numCPUsNeeded / unit < 2 :=
          (Int.ediv_lt_iff_lt_mul (by omega)).2 (by omega)
        omega
      rcases ht with ht | ht
      · exact ht ▸ hX
      · rw [hk0] at ht
        simp at ht
    · simp only [hs, Bool.false_eq_true, if_false]
      by_cases hn : (a.take (a.details.CPUsInSockets s)).needs unit = true
      · simp only [hn, Bool.not_true, Bool.false_eq_true, if_false]
        rcases ht with ht | ht
        · exact ht ▸ (hX.trans (takeLoop_result_mono rest _))
        · have hu' : unit ≤ (a.take (a.details.CPUsInSockets s)).numCPUsNeeded := by
            simpa [needs] using hn
          have hk' : ((a.take (a.details.CPUsInSockets s)).numCPUsNeeded / unit).toNat
              = k := by
            rw [hneeded, hdiv]
            omega
          have hts : t ≠ s := by
            intro h
            exact (List.nodup_cons.1 hnd).1 (h ▸ (List.mem_of_mem_take ht))
          have heq : ∀ u, u ≠ s →
              (a.take (a.details.CPUsInSockets s)).details.CPUsInSockets u
                = a.details.CPUsInSockets u := by
            intro u hus
            have := filter_after_take_ne a.details.keys a.result
              (fun x => (a.details.info x).SocketID) s u hd hus
            simp only [topology.CPUDetails.CPUsInSockets, take_details_keys]
            exact this
          have hfree' : ∀ u ∈ rest,
              (((a.take (a.details.CPUsInSockets s)).details.CPUsInSockets u).card : Int)
                = unit := by
            intro u hu
            rw [heq u (fun h => (List.nodup_cons.1 hnd).1 (h ▸ hu))]
            exact hfree u (List.mem_cons_of_mem _ hu)
          have := ih (a.take (a.details.CPUsInSockets s)) (take_details_disjoint a _)
            (List.nodup_cons.1 hnd).2 hfree' hu' t (by rw [hk']; exact ht)
          rw [heq t hts] at this
          exact this
      · simp only [Bool.not_eq_true] at hn
        simp only [hn, Bool.not_false, if_true]
        have hlt : a.numCPUsNeeded - unit < unit := by
          simpa [needs, hneeded] using hn
        have hk0 : k = 0 := by
          have : a.numCPUsNeeded / unit < 2 :=
            (Int.ediv_lt_iff_lt_mul (by omega)).2 (by omega)
          omega
        rcases ht with ht | ht
        · exact ht ▸ hX
        · rw [hk0] at ht
          simp at ht

theorem phase_result_mono (unit : Int) (cpusOf : cpuAccumulator → Int → CPUSet)
    (ids : List Int) (a : cpuAccumulator) (c : Bool) :
    a.result ⊆ outcomeResult (if c = true then takeLoop unit cpusOf ids a else .ok a) := by
  cases c
  · exact Finset.Subset.refl _
  · exact takeLoop_result_mono ids a

theorem takeSockets_result_sub (rt : Runtime) (topo : CPUTopology) (avail : CPUSet) (n : Int)
    (hsat : (newCPUAccumulator topo avail n).isSatisfied = false)
    (hf : (newCPUAccumulator topo avail n).isFailed = false)
    (herr : (takeByTopology rt topo avail n).2 = none) :
    outcomeResult (takeSockets (newCPUAccumulator topo avail n))
      ⊆ (takeByTopology rt topo avail n).1 := by
  unfold takeByTopology at herr ⊢
  simp only [hsat, hf, Bool.false_eq_true, if_false] at herr ⊢
  rcases hS : takeSockets (newCPUAccumulator topo avail n) with r | a1
  · exact Finset.Subset.refl _
  rw [hS] at herr
  dsimp only at herr ⊢
  have m2 : a1.result ⊆ outcomeResult (takeCCDs rt a1) := phase_result_mono _ _ _ _ _
  rcases hC : takeCCDs rt a1 with r | a2
  · rw [hC] at m2
    exact m2
  rw [hC] at herr m2
  dsimp only at herr ⊢
  have m3 : a2.result ⊆ outcomeResult (takeCores rt a2) := phase_result_mono _ _ _ _ _
  rcases hK : takeCores rt a2 with r | a3
  · rw [hK] at m3
    exact m2.trans m3
  rw [hK] at herr m3
  dsimp only at herr ⊢
  rcases hP : takeCPUs (a3.freeCPUs rt) a3 with _ | r
  · rw [hP] at herr
    simp at herr
  · exact m2.trans (m3.trans (takeCPUs_result_mono _ _ _ hP))

/-- The first sockets of `freeSockets()` are taken whole. For every runtime, every
topology with `CPUsPerSocket() ≥ 1`, every available set within the CPUs of the topology
and every `n` with `CPUsPerSocket() ≤ n ≤ |available|`: `freeSockets()` of the initial
accumulator is strictly ascending, and the result of `takeByTopology` contains the CPUs
that the initial view has on each of the first `min(n / CPUsPerSocket(), F)` sockets of
that list, `F` being its length; these are all the CPUs that the topology places on the
socket when it places `CPUsPerSocket()` there. -/
theorem takeSockets_firsts_taken (rt : Runtime) (topo : CPUTopology) (avail : CPUSet)
    (n : Int) (hcps : 1 ≤ topo.CPUsPerSocket) (hsub : avail ⊆ topo.CPUDetails.CPUs)
    (hn : topo.CPUsPerSocket ≤ n) (hle : n ≤ (avail.card : Int)) :
    (newCPUAccumulator topo avail n).freeSockets.Sorted (fun x y => x < y) ∧
      ∀ s ∈ (newCPUAccumulator topo avail n).freeSockets.take
          (min (n / topo.CPUsPerSocket).toNat (newCPUAccumulator topo avail n).freeSockets.length),
        (newCPUAccumulator topo avail n).details.CPUsInSockets s
            ⊆ (takeByTopology rt topo avail n).1 ∧
          ((topo.CPUDetails.CPUsInSockets s).Size = topo.CPUsPerSocket →
            topo.CPUDetails.CPUsInSockets s ⊆ (takeByTopology rt topo avail n).1) := by
  refine ⟨(sorted_ToSlice _).lt_of_le (nodup_ToSlice _), ?_⟩
  intro s hs
  have hfreeS : ((newCPUAccumulator topo avail n).details.CPUsInSockets s).Size
      = topo.CPUsPerSocket := by
    have hmem := List.mem_of_mem_take hs
    rw [freeSockets, mem_ToSlice, CPUSet.Filter, Finset.mem_filter] at hmem
    have hfree := hmem.2
    simp only [isSocketFree, decide_eq_true_eq] at hfree
    exact hfree
  suffices hview : (newCPUAccumulator topo avail n).details.CPUsInSockets s
      ⊆ (takeByTopology rt topo avail n).1 by
    refine ⟨hview, fun hfull => ?_⟩
    have hv := newCPUAccumulator_viewOfTopo topo avail n
    have hall : topo.CPUDetails.CPUsInSockets s
        ⊆ (newCPUAccumulator topo avail n).details.keys :=
      (filter_card_eq_iff _ _ hv.details_keys _).1 (by
        rw [← hfull] at hfreeS
        exact hfreeS)
    intro x hx
    apply hview
    rw [topology.CPUDetails.CPUsInSockets, Finset.mem_filter]
    exact ⟨hall hx, (Finset.mem_filter.1 hx).2⟩
  have hs' : s ∈ (newCPUAccumulator topo avail n).freeSockets.take
      (n / topo.CPUsPerSocket).toNat := by
    rw [← List.take_take, List.take_length] at hs
    exact hs
  have h1 : 1 ≤ n := by omega
  have herr := (takeByTopology_spec rt topo avail n h1).2.2 hsub hle
  have hsat : (newCPUAccumulator topo avail n).isSatisfied = false := by
    simp only [isSatisfied, newCPUAccumulator, decide_eq_false_iff_not]
    omega
  have hf : (newCPUAccumulator topo avail n).isFailed = false := by
    have hk := newCPUAccumulator_details_keys topo avail n hsub
    simp only [isFailed, CPUSet.Size, topology.CPUDetails.CPUs, hk, decide_eq_false_iff_not]
    show ¬ n > _
    omega
  refine Finset.Subset.trans ?_ (takeSockets_result_sub rt topo avail n hsat hf herr)
  have hneeds : (newCPUAccumulator topo avail n).needs
      (newCPUAccumulator topo avail n).topo.CPUsPerSocket = true := by
    simp only [needs, decide_eq_true_eq]
    exact hn
  unfold takeSockets
  simp only [hneeds, if_true]
  refine takeLoop_sockets_firsts hcps _ _ (Finset.disjoint_empty_left _) (nodup_ToSlice _)
    ?_ hn s hs'
  intro u hu
  rw [mem_ToSlice, CPUSet.Filter, Finset.mem_filter] at hu
  have hfree := hu.2
  simp only [isSocketFree, CPUSet.Size, decide_eq_true_eq] at hfree
  exact hfree

end cm

/-! ### Policies of `util.go` -/

namespace cm

/-- C28: on the three defined policies `Compare` realises the order
exclusive > share > none; the nine values of `a.Compare(b)` for `a`, `b` among
`none`, `share`, `exclusive` are 1 when `a` ranks above `b`, 0 when `a = b` and -1 when
`a` ranks below `b`. -/
theorem Compare_defined_policies :
    CPUSetPolicy.Compare CPUSetNone CPUSetNone = 0 ∧
    CPUSetPolicy.Compare CPUSetNone CPUSetShare = -1 ∧
    CPUSetPolicy.Compare CPUSetNone CPUSetExclusive = -1 ∧
    CPUSetPolicy.Compare CPUSetShare CPUSetNone = 1 ∧
    CPUSetPolicy.Compare CPUSetShare CPUSetShare = 0 ∧
    CPUSetPolicy.Compare CPUSetShare CPUSetExclusive = -1 ∧
    CPUSetPolicy.Compare CPUSetExclusive CPUSetNone = 1 ∧
    CPUSetPolicy.Compare CPUSetExclusive CPUSetShare = 1 ∧
    CPUSetPolicy.Compare CPUSetExclusive CPUSetExclusive = 0 := by
  decide

/-- C29: on a policy value that is none of the three defined ones, here the annotation
`foo` that `GetPodCPUSetType` passes through, `Compare` is no consistent three-way
comparison: `foo` compares below itself, and `foo` compares equal to `none` while
`none` compares below `foo`. -/
theorem Compare_undefined_policy :
    GetPodCPUSetType "foo" = "foo" ∧
    CPUSetPolicy.Compare (GetPodCPUSetType "foo") (GetPodCPUSetType "foo") = -1 ∧
    CPUSetPolicy.Compare (GetPodCPUSetType "foo") CPUSetNone = 0 ∧
    CPUSetPolicy.Compare CPUSetNone (GetPodCPUSetType "foo") = -1 ∧
    ¬ (∀ a : CPUSetPolicy, a.Compare a = 0) ∧
    ¬ (∀ a b : CPUSetPolicy, a.Compare b = -(b.Compare a)) := by
  refine ⟨by decide, by decide, by decide, by decide, ?_, ?_⟩
  · intro h
    exact absurd (h "foo") (by decide)
  · intro h
    exact absurd (h "foo" CPUSetNone) (by decide)

end cm
/-! ### `ParseRangeToSlice` -/

namespace strings

theorem Split_of_not_mem (sep : Char) : ∀ s : List Char, sep ∉ s → Split s sep = [s]
  | [], _ => rfl
  | c :: cs, h => by
    have hc : c ≠ sep := fun e => h (e ▸ List.mem_cons_self _ _)
    have hcs : sep ∉ cs := fun e => h (List.mem_cons_of_mem _ e)
    simp [Split, hc, Split_of_not_mem sep cs hcs]

theorem Split_append (sep : Char) (rest : List Char) :
    ∀ a : List Char, sep ∉ a → Split (a ++ sep :: rest) sep = a :: Split rest sep
  | [], _ => by simp [Split]
  | c :: cs, h => by
    have hc : c ≠ sep := fun e => h (e ▸ List.mem_cons_self _ _)
    have hcs : sep ∉ cs := fun e => h (List.mem_cons_of_mem _ e)
    simp [Split, hc, Split_append sep rest cs hcs]

theorem Split_intercalate (sep : Char) :
    ∀ xs : List (List Char), xs ≠ [] → (∀ x ∈ xs, sep ∉ x) →
      Split (List.intercalate [sep] xs) sep = xs
  | [], h, _ => absurd rfl h
  | [x], _, h => by
    simpa [List.intercalate] using Split_of_not_mem sep x (h x (List.mem_singleton_self x))
  | x :: y :: r, _, h => by
    have ih := Split_intercalate sep (y :: r) (List.cons_ne_nil _ _)
      (fun z hz => h z (List.mem_cons_of_mem _ hz))
    have hx : sep ∉ x := h x (List.mem_cons_self _ _)
    have e : List.intercalate [sep] (x :: y :: r)
        = x ++ sep :: List.intercalate [sep] (y :: r) := by
      simp [List.intercalate]
    rw [e, Split_append sep _ x hx, ih]

theorem SplitN2_of_not_mem (sep : Char) :
    ∀ s : List Char, sep ∉ s → SplitN2 s sep = (s, none)
  | [], _ => rfl
  | c :: cs, h => by
    have hc : c ≠ sep := fun e => h (e ▸ List.mem_cons_self _ _)
    have hcs : sep ∉ cs := fun e => h (List.mem_cons_of_mem _ e)
    simp [SplitN2, hc, SplitN2_of_not_mem sep cs hcs]

theorem SplitN2_append (sep : Char) (b : List Char) :
    ∀ a : List Char, sep ∉ a → SplitN2 (a ++ sep :: b) sep = (a, some b)
  | [], _ => by simp [SplitN2]
  | c :: cs, h => by
    have hc : c ≠ sep := fun e => h (e ▸ List.mem_cons_self _ _)
    have hcs : sep ∉ cs := fun e => h (List.mem_cons_of_mem _ e)
    simp [SplitN2, hc, SplitN2_append sep b cs hcs]

end strings

namespace strconv

theorem parseDigits_eq : ∀ (ds : List Char) (n : Nat),
    (∀ ch ∈ ds, '0' ≤ ch ∧ ch ≤ '9') →
    parseDigits ds n = some (ds.foldl (fun n ch => n * 10 + (ch.toNat - '0'.toNat)) n)
  | [], _, _ => rfl
  | ch :: rest, n, h => by
    have hc := h ch (List.mem_cons_self _ _)
    have ih := parseDigits_eq rest (n * 10 + (ch.toNat - '0'.toNat))
      (fun c hc => h c (List.mem_cons_of_mem _ hc))
    simp only [parseDigits, hc, and_self, if_true, ih, List.foldl_cons]

theorem digit_ne_sep (ch sep : Char) (hsep : ¬ '0' ≤ sep) (h : '0' ≤ ch ∧ ch ≤ '9') :
    ch ≠ sep := fun e => hsep (e ▸ h.1)

theorem Atoi_numeral (ds : List Char) (h : utils.Numeral ds) :
    Atoi ds = some (utils.decVal ds : Int) := by
  obtain ⟨hne, hd, hmax⟩ := h
  cases ds with
  | nil => exact absurd rfl hne
  | cons ch rest =>
    have hc := hd ch (List.mem_cons_self _ _)
    have h1 : ch ≠ '-' := digit_ne_sep ch '-' (by decide) hc
    have h2 : ch ≠ '+' := digit_ne_sep ch '+' (by decide) hc
    have hp := parseDigits_eq (ch :: rest) 0 hd
    have hmin : minInt ≤ ((utils.decVal (ch :: rest) : Nat) : Int) := by
      have : (0 : Int) ≤ ((utils.decVal (ch :: rest) : Nat) : Int) := Int.ofNat_nonneg _
      have : minInt ≤ 0 := by decide
      omega
    unfold Atoi
    simp only [h1, h2, or_self, if_false]
    rw [hp]
    simp only [utils.decVal] at hmin hmax ⊢
    simp only [hmin, hmax, and_self, if_true]

end strconv

namespace utils

theorem mem_rangeInts (a b x : Int) : x ∈ rangeInts a b ↔ a ≤ x ∧ x ≤ b := by
  unfold rangeInts
  simp only [List.mem_map, List.mem_range]
  constructor
  · rintro ⟨i, hi, rfl⟩
    omega
  · rintro ⟨h1, h2⟩
    refine ⟨(x - a).toNat, ?_, ?_⟩ <;> omega

theorem numeral_not_mem (sep : Char) (hsep : ¬ '0' ≤ sep) (ds : List Char)
    (h : Numeral ds) : sep ∉ ds :=
  fun hm => hsep (h.2.1 sep hm).1

theorem render_no_comma (it : Item) (h : it.WellFormed) : ',' ∉ it.render := by
  cases it with
  | single k => exact numeral_not_mem ',' (by decide) k h
  | range a b =>
    obtain ⟨ha, hb, _, _⟩ := h
    simp only [Item.render, List.mem_append, List.mem_cons, not_or]
    exact ⟨numeral_not_mem ',' (by decide) a ha, by decide,
      numeral_not_mem ',' (by decide) b hb⟩

theorem parseItems_wellFormed : ∀ (items : List Item), (∀ it ∈ items, it.WellFormed) →
    ∀ rMap : Finset Int, ∃ S : Finset Int,
      parseItems (items.map Item.render) rMap = some (.ok S) ∧
      ∀ x, x ∈ S ↔ x ∈ rMap ∨ ∃ it ∈ items, it.Contains x
  | [], _, rMap => ⟨rMap, rfl, fun x => by simp⟩
  | it :: rest, hwf, rMap => by
    have hit := hwf it (List.mem_cons_self _ _)
    have hrest : ∀ i ∈ rest, i.WellFormed := fun i hi => hwf i (List.mem_cons_of_mem _ hi)
    cases it with
    | single k =>
      have hs := strings.SplitN2_of_not_mem '-' k (numeral_not_mem '-' (by decide) k hit)
      have ha := strconv.Atoi_numeral k hit
      obtain ⟨S, hS, hmem⟩ := parseItems_wellFormed rest hrest (insert (decVal k : Int) rMap)
      refine ⟨S, ?_, ?_⟩
      · rw [List.map_cons, parseItems]
        change (match strings.SplitN2 k '-' with
          | (b0, none) => _
          | (b0, some b1) => _) = _
        rw [hs]
        dsimp only
        rw [ha]
        exact hS
      · intro x
        rw [hmem x, Finset.mem_insert]
        constructor
        · rintro ((h | h) | ⟨i, hi, hc⟩)
          · exact Or.inr ⟨_, List.mem_cons_self _ _, h⟩
          · exact Or.inl h
          · exact Or.inr ⟨i, List.mem_cons_of_mem _ hi, hc⟩
        · rintro (h | ⟨i, hi, hc⟩)
          · exact Or.inl (Or.inr h)
          · rcases List.mem_cons.1 hi with rfl | hi
            · exact Or.inl (Or.inl hc)
            · exact Or.inr ⟨i, hi, hc⟩
    | range a b =>
      obtain ⟨hna, hnb, hab, hb⟩ := hit
      have hs := strings.SplitN2_append '-' b a (numeral_not_mem '-' (by decide) a hna)
      have haa := strconv.Atoi_numeral a hna
      have hbb := strconv.Atoi_numeral b hnb
      obtain ⟨S, hS, hmem⟩ := parseItems_wellFormed rest hrest
        (rMap ∪ (rangeInts (decVal a : Int) (decVal b : Int)).toFinset)
      have h1 : ¬ ((decVal a : Int) > (decVal b : Int)) := by
        have : (decVal a : Int) ≤ (decVal b : Int) := by exact_mod_cast hab
        exact not_lt.2 this
      have h2 : ((decVal b : Int)) ≠ strconv.maxInt := ne_of_lt hb
      refine ⟨S, ?_, ?_⟩
      · rw [List.map_cons, parseItems]
        change (match strings.SplitN2 (a ++ '-' :: b) '-' with
          | (b0, none) => _
          | (b0, some b1) => _) = _
        rw [hs]
        dsimp only
        rw [haa]
        dsimp only
        rw [hbb]
        dsimp only
        rw [if_neg h1, if_neg h2]
        exact hS
      · intro x
        rw [hmem x, Finset.mem_union, List.mem_toFinset, mem_rangeInts]
        constructor
        · rintro ((h | h) | ⟨i, hi, hc⟩)
          · exact Or.inl h
          · exact Or.inr ⟨_, List.mem_cons_self _ _, h⟩
          · exact Or.inr ⟨i, List.mem_cons_of_mem _ hi, hc⟩
        · rintro (h | ⟨i, hi, hc⟩)
          · exact Or.inl (Or.inl h)
          · rcases List.mem_cons.1 hi with rfl | hi
            · exact Or.inl (Or.inr hc)
            · exact Or.inr ⟨i, hi, hc⟩

/-- C30, counterexamples: a negative integer, an integer beyond the range of `int` and
the empty input are rejected with an error, and on a range that ends at the largest
`int` the call does not return. -/
theorem ParseRangeToSlice_not_every_integer :
    ParseRangeToSlice "-5" = some ([], some (.atoi [])) ∧
    ParseRangeToSlice "" = some ([], some (.atoi [])) ∧
    ParseRangeToSlice "99999999999999999999"
      = some ([], some (.atoi "99999999999999999999".toList)) ∧
    ParseRangeToSlice "0-9223372036854775807" = none := by
  decide

/-- C30, amended: for every input that lists one or more items separated by commas,
each a numeral `k` (decimal digits only, value at most the largest `int`) or a range
`a-b` of two numerals with `a <= b` and `b` less than the largest `int`,
`ParseRangeToSlice` returns no error and the strictly ascending, duplicate-free list of
exactly the integers that equal some `k` or lie in some interval `[a, b]`; and
`0-2,7,12-14` gives `[0, 1, 2, 7, 12, 13, 14]`. -/
theorem ParseRangeToSlice_wellFormed (items : List Item) (hne : items ≠ [])
    (hwf : ∀ it ∈ items, it.WellFormed) :
    (∃ l : List Int, ParseRangeToSlice (renderItems items) = some (l, none) ∧
      l.Sorted (· < ·) ∧ l.Nodup ∧ ∀ x, x ∈ l ↔ ∃ it ∈ items, it.Contains x) ∧
    renderItems [.range ['0'] ['2'], .single ['7'], .range ['1', '2'] ['1', '4']]
      = "0-2,7,12-14" ∧
    ParseRangeToSlice "0-2,7,12-14" = some ([0, 1, 2, 7, 12, 13, 14], none) := by
  refine ⟨?_, by decide, by decide⟩
  obtain ⟨S, hS, hmem⟩ := parseItems_wellFormed items hwf ∅
  have hsplit : strings.Split (renderItems items).toList ','
      = items.map Item.render := by
    unfold renderItems
    apply strings.Split_intercalate
    · simpa using hne
    · intro x hx
      obtain ⟨it, hit, rfl⟩ := List.mem_map.1 hx
      exact render_no_comma it (hwf it hit)
  refine ⟨cpuset.CPUSet.ToSlice S, ?_,
    (cpuset.sorted_ToSlice S).lt_of_le (cpuset.nodup_ToSlice S), cpuset.nodup_ToSlice S, ?_⟩
  · unfold ParseRangeToSlice
    rw [hsplit, hS]
  · intro x
    rw [cpuset.mem_ToSlice, hmem x]
    simp

theorem ParseRangeToSlice_wellFormed_witness :
    ([Item.range ['3'] ['5'], Item.single ['4'], Item.single ['1', '0']] ≠ [] ∧
      ∀ it ∈ [Item.range ['3'] ['5'], Item.single ['4'], Item.single ['1', '0']],
        it.WellFormed) ∧
    ParseRangeToSlice "3-5,4,10" = some ([3, 4, 5, 10], none) ∧
    ((∃ l : List Int, ParseRangeToSlice
        (renderItems [.range ['3'] ['5'], .single ['4'], .single ['1', '0']])
          = some (l, none) ∧
      l.Sorted (· < ·) ∧ l.Nodup ∧
      ∀ x, x ∈ l ↔ ∃ it ∈ [Item.range ['3'] ['5'], Item.single ['4'], Item.single ['1', '0']],
        it.Contains x) ∧
    renderItems [.range ['0'] ['2'], .single ['7'], .range ['1', '2'] ['1', '4']]
      = "0-2,7,12-14" ∧
    ParseRangeToSlice "0-2,7,12-14" = some ([0, 1, 2, 7, 12, 13, 14], none)) :=
  have hwf : ∀ it ∈ [Item.range ['3'] ['5'], Item.single ['4'], Item.single ['1', '0']],
      it.WellFormed := by
    intro it hit
    simp only [List.mem_cons, List.mem_singleton, List.not_mem_nil, or_false] at hit
    rcases hit with rfl | rfl | rfl
    · exact ⟨⟨by decide, by decide, by decide⟩, ⟨by decide, by decide, by decide⟩,
        by decide, by decide⟩
    · exact ⟨by decide, by decide, by decide⟩
    · exact ⟨by decide, by decide, by decide⟩
  ⟨⟨List.cons_ne_nil _ _, hwf⟩, by decide,
    ParseRangeToSlice_wellFormed _ (List.cons_ne_nil _ _) hwf⟩

end utils

/-! ### Phases 2 to 4 -/

namespace cm

open cpuset cpuAccumulator

theorem freeSockets_eq_nil (a : cpuAccumulator) (h0 : a.topo.CPUsPerSocket = 0) :
    a.freeSockets = [] := by
  apply List.eq_nil_iff_forall_not_mem.2
  intro s hs
  rw [freeSockets, mem_ToSlice, CPUSet.Filter, Finset.mem_filter,
    topology.CPUDetails.Sockets, Finset.mem_image] at hs
  obtain ⟨⟨cpu, hcpu, rfl⟩, hfree⟩ := hs
  have hmem : cpu ∈ a.details.CPUsInSockets (a.details.info cpu).SocketID := by
    rw [topology.CPUDetails.CPUsInSockets, Finset.mem_filter]
    exact ⟨hcpu, rfl⟩
  have hpos : 0 < (a.details.CPUsInSockets (a.details.info cpu).SocketID).card :=
    Finset.card_pos.2 ⟨cpu, hmem⟩
  simp only [isSocketFree, CPUSet.Size, h0, decide_eq_true_eq] at hfree
  omega

theorem freeCCDs_eq_nil (rt : Runtime) (a : cpuAccumulator) (h0 : a.topo.CPUsPerCCD = 0) :
    a.freeCCDs rt = [] := by
  rw [freeCCDs]
  apply List.eq_nil_iff_forall_not_mem.2
  intro c hc
  obtain ⟨s, _, hcs⟩ := List.mem_flatMap.1 hc
  rw [mem_ToSlice, CPUSet.Filter, Finset.mem_filter] at hcs
  obtain ⟨hin, hfree⟩ := hcs
  rw [CCDsInSockets, Finset.mem_image] at hin
  obtain ⟨cpu, hcpu, rfl⟩ := hin
  rw [Finset.mem_filter] at hcpu
  have hmem : cpu ∈ a.ccdDetail.CPUsInCCDs (a.ccdDetail.info cpu).CCDID := by
    rw [CPUDetails.CPUsInCCDs, Finset.mem_filter]
    exact ⟨hcpu.1, rfl⟩
  have hpos : 0 < (a.ccdDetail.CPUsInCCDs (a.ccdDetail.info cpu).CCDID).card :=
    Finset.card_pos.2 ⟨cpu, hmem⟩
  simp only [isCCDFree, CPUSet.Size, h0, decide_eq_true_eq] at hfree
  omega

theorem freeCores_eq_nil (rt : Runtime) (a : cpuAccumulator) (h0 : a.topo.CPUsPerCore = 0) :
    a.freeCores rt = [] := by
  apply List.eq_nil_iff_forall_not_mem.2
  intro c hc
  rw [mem_freeCores] at hc
  obtain ⟨⟨cpu, _, hcpu, rfl⟩, hfree⟩ := hc
  have hmem : cpu ∈ a.details.CPUsInCores (a.details.info cpu).CoreID := by
    rw [topology.CPUDetails.CPUsInCores, Finset.mem_filter]
    exact ⟨hcpu, rfl⟩
  have hpos : 0 < (a.details.CPUsInCores (a.details.info cpu).CoreID).card :=
    Finset.card_pos.2 ⟨cpu, hmem⟩
  simp only [isCoreFree, CPUSet.Size, h0, decide_eq_true_eq] at hfree
  omega

/-- C25: `freeCPUs()` lists every CPU of the current view exactly once and nothing
else, and the CPUs of any one core form one block of the list, in ascending order of
CPU ID: the list is `pre ++ block ++ post`, `block` being the ascending enumeration of
the CPUs of the view on the core, and no CPU of `pre` or `post` is on the core. -/
theorem freeCPUs_view_by_core (rt : Runtime) (a : cpuAccumulator) :
    (a.freeCPUs rt).Nodup ∧ (∀ c, c ∈ a.freeCPUs rt ↔ c ∈ a.details.CPUs) ∧
    ∀ core : Int, ∃ pre post : List Int,
      a.freeCPUs rt = pre ++ (a.details.CPUsInCores core).ToSlice ++ post ∧
      (∀ c ∈ pre, (a.details.info c).CoreID ≠ core) ∧
      (∀ c ∈ post, (a.details.info c).CoreID ≠ core) ∧
      ((a.details.CPUsInCores core).ToSlice).Sorted (· < ·) ∧
      ∀ c, c ∈ (a.details.CPUsInCores core).ToSlice ↔
        (c ∈ a.details.CPUs ∧ (a.details.info c).CoreID = core) := by
  refine ⟨nodup_freeCPUs rt a, fun c => mem_freeCPUs rt a c, ?_⟩
  intro core
  have hsorted : ((a.details.CPUsInCores core).ToSlice).Sorted (· < ·) :=
    (sorted_ToSlice _).lt_of_le (nodup_ToSlice _)
  have hmem : ∀ c, c ∈ (a.details.CPUsInCores core).ToSlice ↔
      (c ∈ a.details.CPUs ∧ (a.details.info c).CoreID = core) := by
    intro c
    rw [mem_ToSlice, topology.CPUDetails.CPUsInCores, Finset.mem_filter]
    rfl
  have hother : ∀ l : List Int, core ∉ l →
      ∀ c ∈ l.flatMap (fun k => (a.details.CPUsInCores k).ToSlice),
        (a.details.info c).CoreID ≠ core := by
    intro l hl c hc
    obtain ⟨k, hk, hck⟩ := List.mem_flatMap.1 hc
    rw [mem_ToSlice, topology.CPUDetails.CPUsInCores, Finset.mem_filter] at hck
    rw [hck.2]
    rintro rfl
    exact hl hk
  have hnd : (rt.sortSlice a.freeCPUsLess a.details.Cores.ToSlice).Nodup :=
    (rt.sortSlice_perm _ _).nodup_iff.2 (nodup_ToSlice _)
  by_cases hcore : core ∈ rt.sortSlice a.freeCPUsLess a.details.Cores.ToSlice
  · obtain ⟨l1, l2, hl⟩ := List.append_of_mem hcore
    rw [hl] at hnd
    have h1 : core ∉ l1 := fun h =>
      (List.nodup_append.1 hnd).2.2 h (List.mem_cons_self _ _)
    have h2 : core ∉ l2 := (List.nodup_cons.1 (List.nodup_append.1 hnd).2.1).1
    refine ⟨l1.flatMap (fun k => (a.details.CPUsInCores k).ToSlice),
      l2.flatMap (fun k => (a.details.CPUsInCores k).ToSlice), ?_, hother l1 h1,
      hother l2 h2, hsorted, hmem⟩
    rw [freeCPUs]
    simp only [hl, List.flatMap_append, List.flatMap_cons, List.append_assoc]
  · have hempty : (a.details.CPUsInCores core).ToSlice = [] := by
      apply List.eq_nil_iff_forall_not_mem.2
      intro c hc
      rw [hmem] at hc
      apply hcore
      rw [(rt.sortSlice_perm _ _).mem_iff, mem_ToSlice, topology.CPUDetails.Cores,
        Finset.mem_image]
      exact ⟨c, hc.1, hc.2⟩
    refine ⟨a.freeCPUs rt, [], ?_, hother _ hcore, fun c hc => absurd hc (List.not_mem_nil c),
      hsorted, hmem⟩
    rw [hempty, List.append_nil, List.append_nil]

/-- C26: the unit size `CPUsPerCCD()` is 0 when the topology has no CCD, or more CCDs
than CPUs; and whenever it is 0, in every accumulator state `freeCCDs()` is the empty
list, so that phase 2 leaves the state as it is, although `needs(0)` holds of every
remaining demand that is not negative. -/
theorem freeCCDs_nil_of_unit_zero (rt : Runtime) (a : cpuAccumulator) :
    ((a.topo.NumCCDs = 0 ∨ (0 ≤ a.topo.NumCPUs ∧ a.topo.NumCPUs < a.topo.NumCCDs)) →
      a.topo.CPUsPerCCD = 0) ∧
    (a.topo.CPUsPerCCD = 0 →
      a.freeCCDs rt = [] ∧ takeCCDs rt a = .ok a ∧
      (0 ≤ a.numCPUsNeeded → a.needs a.topo.CPUsPerCCD = true)) := by
  constructor
  · rintro (h | ⟨h0, h1⟩)
    · simp [CPUTopology.CPUsPerCCD, h]
    · unfold CPUTopology.CPUsPerCCD
      split
      · rfl
      · exact Int.tdiv_eq_zero_of_lt h0 h1
  · intro h0
    have hnil : a.freeCCDs rt = [] := freeCCDs_eq_nil rt a h0
    refine ⟨hnil, ?_, ?_⟩
    · unfold takeCCDs
      rw [hnil]
      split <;> rfl
    · intro hn
      simpa [needs, h0] using hn

theorem freeCCDs_nil_of_unit_zero_witness :
    (newCPUAccumulator topoDegraded (NewCPUSet [0, 1, 2, 3, 4, 5, 6, 7]) 3).topo.NumCCDs = 0 ∧
    (newCPUAccumulator topoDegraded (NewCPUSet [0, 1, 2, 3, 4, 5, 6, 7]) 3).topo.CPUsPerCCD = 0 ∧
    0 ≤ (newCPUAccumulator topoDegraded (NewCPUSet [0, 1, 2, 3, 4, 5, 6, 7]) 3).numCPUsNeeded ∧
    (newCPUAccumulator topoDegraded (NewCPUSet [0, 1, 2, 3, 4, 5, 6, 7]) 3).freeCCDs rtAscending
      = [] ∧
    takeCCDs rtAscending (newCPUAccumulator topoDegraded (NewCPUSet [0, 1, 2, 3, 4, 5, 6, 7]) 3)
      = .ok (newCPUAccumulator topoDegraded (NewCPUSet [0, 1, 2, 3, 4, 5, 6, 7]) 3) ∧
    (newCPUAccumulator topoDegraded (NewCPUSet [0, 1, 2, 3, 4, 5, 6, 7]) 3).needs
      (newCPUAccumulator topoDegraded (NewCPUSet [0, 1, 2, 3, 4, 5, 6, 7]) 3).topo.CPUsPerCCD
      = true :=
  have h := freeCCDs_nil_of_unit_zero rtAscending
    (newCPUAccumulator topoDegraded (NewCPUSet [0, 1, 2, 3, 4, 5, 6, 7]) 3)
  have h0 := h.1 (Or.inl (by decide))
  ⟨by decide, h0, by decide, (h.2 h0).1, (h.2 h0).2.1, (h.2 h0).2.2 (by decide)⟩

end cm
namespace cm

open cpuset cpuAccumulator

/-- C23: phase 4 does not always start on the socket that the allocation already uses.
On `topoDualSocketHT` with the CPUs 0, 2, 5, 8 available and 3 requested, phase 3 takes
core 0 (CPUs 0 and 8, on socket 0); at entry to phase 4 the view holds CPU 2 (socket 0,
colocation score 2) and CPU 5 (socket 1, colocation score 0), `freeCPUs()` is `[5, 2]`,
its first CPU lies on socket 1, and the allocation returned is 0, 5, 8. -/
theorem freeCPUs_first_not_colocated :
    (phase4Entry rtAscending topoDualSocketHT (NewCPUSet [0, 2, 5, 8]) 3).map
      (fun a => (a.result.ToSlice, a.details.CPUs.ToSlice, a.numCPUsNeeded))
      = some ([0, 8], [2, 5], 1) ∧
    (phase4Entry rtAscending topoDualSocketHT (NewCPUSet [0, 2, 5, 8]) 3).map
      (fun a => (a.freeCPUs rtAscending,
        (a.topo.CPUDetails.get ((a.freeCPUs rtAscending).headD 0)).SocketID))
      = some ([5, 2], 1) ∧
    (phase4Entry rtAscending topoDualSocketHT (NewCPUSet [0, 2, 5, 8]) 3).map
      (fun a => a.details.Sockets.ToSlice.map (fun s => (s, socketColoScore a s)))
      = some [(0, 2), (1, 0)] ∧
    takeByTopology rtAscending topoDualSocketHT (NewCPUSet [0, 2, 5, 8]) 3
      = (NewCPUSet [0, 5, 8], none) ∧
    takeByTopology rtGapInsertion topoDualSocketHT (NewCPUSet [0, 2, 5, 8]) 3
      = (NewCPUSet [0, 5, 8], none) := by
  refine ⟨by decide, by decide, by decide, by decide, by decide⟩

end cm
namespace cm

open cpuset cpuAccumulator

theorem takeLoop_first_satisfied (unit : Int) (cpusOf : cpuAccumulator → Int → CPUSet)
    (c0 : Int) (rest : List Int) (a : cpuAccumulator)
    (h : ((cpusOf a c0).card : Int) = a.numCPUsNeeded) :
    takeLoop unit cpusOf (c0 :: rest) a = .error (a.result ∪ cpusOf a c0) := by
  have hs : (a.take (cpusOf a c0)).isSatisfied = true := by
    simp only [isSatisfied, take_needed, CPUSet.Size, decide_eq_true_eq]
    omega
  simp only [takeLoop, hs, if_true, take_result]

theorem newCPUAccumulator_ccd_sub (topo : CPUTopology) (avail : CPUSet) (n : Int)
    (hsub : avail ⊆ topo.CPUDetails.CPUs) :
    (newCPUAccumulator topo avail n).ccdDetail.keys
      ⊆ (newCPUAccumulator topo avail n).details.keys := by
  intro x hx
  simp only [newCPUAccumulator, CPUDetails.KeepOnly, topology.CPUDetails.KeepOnly,
    Finset.mem_filter] at hx ⊢
  exact ⟨hsub hx.2, hx.2⟩

theorem mem_freeCCDs (rt : Runtime) (a : cpuAccumulator) (c : Int) :
    c ∈ a.freeCCDs rt ↔
      ((∃ cpu ∈ a.ccdDetail.keys, cpu ∈ a.details.keys ∧ (a.ccdDetail.info cpu).CCDID = c) ∧
        a.isCCDFree c = true) := by
  simp only [freeCCDs, List.mem_flatMap, (rt.sortSlice_perm _ _).mem_iff,
    (rt.noSort_perm _).mem_iff, mem_ToSlice, CPUSet.Filter, Finset.mem_filter,
    CCDsInSockets, Finset.mem_image, topology.CPUDetails.Sockets]
  constructor
  · rintro ⟨s, _, ⟨cpu, ⟨hk, hd, _⟩, rfl⟩, hfree⟩
    exact ⟨⟨cpu, hk, hd, rfl⟩, hfree⟩
  · rintro ⟨⟨cpu, hk, hd, rfl⟩, hfree⟩
    exact ⟨(a.details.info cpu).SocketID, ⟨cpu, hd, rfl⟩, ⟨cpu, ⟨hk, hd, rfl⟩, rfl⟩, hfree⟩

/-- The first CCD of `freeCCDs()` is returned. For every topology, every `available`
within the CPUs of the topology and `n = CPUsPerCCD()` with `1 <= n < CPUsPerSocket()`,
if `isCCDFree` holds of some CCD in the initial accumulator then `freeCCDs()` is not
empty, `isCCDFree` holds of its first element, and `takeByTopology` returns, without
error, exactly the CPUs of that CCD in the view; these are CPUs that the topology places
on the CCD, and all of them whenever the topology places `CPUsPerCCD()` CPUs there. -/
theorem takeCCDs_first_returned (rt : Runtime) (topo : CPUTopology) (avail : CPUSet)
    (n : Int) (hsub : avail ⊆ topo.CPUDetails.CPUs) (hn : n = topo.CPUsPerCCD)
    (h1 : 1 ≤ n) (hlt : n < topo.CPUsPerSocket)
    (hfree : ∃ c, (newCPUAccumulator topo avail n).isCCDFree c = true) :
    ∃ c0 rest, (newCPUAccumulator topo avail n).freeCCDs rt = c0 :: rest ∧
      (newCPUAccumulator topo avail n).isCCDFree c0 = true ∧
      takeByTopology rt topo avail n
        = ((newCPUAccumulator topo avail n).ccdDetail.CPUsInCCDs c0, none) ∧
      (newCPUAccumulator topo avail n).ccdDetail.CPUsInCCDs c0
        ⊆ topo.CPUCCDDetails.CPUsInCCDs c0 ∧
      (((topo.CPUCCDDetails.CPUsInCCDs c0).card : Int) = topo.CPUsPerCCD →
        (newCPUAccumulator topo avail n).ccdDetail.CPUsInCCDs c0
          = topo.CPUCCDDetails.CPUsInCCDs c0) := by
  obtain ⟨c, hc⟩ := hfree
  have hccd := newCPUAccumulator_ccd_sub topo avail n hsub
  have htopo : (newCPUAccumulator topo avail n).topo = topo := rfl
  have hneed : (newCPUAccumulator topo avail n).numCPUsNeeded = n := rfl
  have hres : (newCPUAccumulator topo avail n).result = ∅ := rfl
  -- the size of a free CCD
  have hsize : ∀ d, (newCPUAccumulator topo avail n).isCCDFree d = true →
      (((newCPUAccumulator topo avail n).ccdDetail.CPUsInCCDs d).card : Int) = n := by
    intro d hd
    simp only [isCCDFree, CPUSet.Size, decide_eq_true_eq, htopo] at hd
    rw [hd, hn]
  -- the free CCD is listed
  have hmem : c ∈ (newCPUAccumulator topo avail n).freeCCDs rt := by
    rw [mem_freeCCDs]
    refine ⟨?_, hc⟩
    have hpos : 0 < ((newCPUAccumulator topo avail n).ccdDetail.CPUsInCCDs c).card := by
      have := hsize c hc
      omega
    obtain ⟨cpu, hcpu⟩ := Finset.card_pos.1 hpos
    rw [CPUDetails.CPUsInCCDs, Finset.mem_filter] at hcpu
    exact ⟨cpu, hcpu.1, hccd hcpu.1, hcpu.2⟩
  obtain ⟨c0, rest, hlist⟩ := List.exists_cons_of_ne_nil (List.ne_nil_of_mem hmem)
  have hc0 : (newCPUAccumulator topo avail n).isCCDFree c0 = true := by
    have : c0 ∈ (newCPUAccumulator topo avail n).freeCCDs rt := by
      rw [hlist]
      exact List.mem_cons_self _ _
    exact ((mem_freeCCDs rt _ c0).1 this).2
  have hsubTopo : (newCPUAccumulator topo avail n).ccdDetail.CPUsInCCDs c0
      ⊆ topo.CPUCCDDetails.CPUsInCCDs c0 := by
    intro x hx
    simp only [newCPUAccumulator, CPUDetails.KeepOnly, CPUDetails.CPUsInCCDs,
      Finset.mem_filter] at hx ⊢
    exact ⟨hx.1.1, hx.2⟩
  refine ⟨c0, rest, hlist, hc0, ?_, hsubTopo, ?_⟩
  · -- the run of the phases
    have hsat : (newCPUAccumulator topo avail n).isSatisfied = false := by
      simp only [isSatisfied, hneed, decide_eq_false_iff_not]
      omega
    have hfail : (newCPUAccumulator topo avail n).isFailed = false := by
      simp only [isFailed, hneed, CPUSet.Size, topology.CPUDetails.CPUs,
        decide_eq_false_iff_not, not_lt, ge_iff_le, gt_iff_lt]
      have h2 := hsize c hc
      have h3 : ((newCPUAccumulator topo avail n).ccdDetail.CPUsInCCDs c).card
          ≤ (newCPUAccumulator topo avail n).details.keys.card :=
        Finset.card_le_card ((Finset.filter_subset _ _).trans hccd)
      omega
    have hskip : takeSockets (newCPUAccumulator topo avail n)
        = .ok (newCPUAccumulator topo avail n) := by
      have : (newCPUAccumulator topo avail n).needs
          (newCPUAccumulator topo avail n).topo.CPUsPerSocket = false := by
        simp only [needs, hneed, htopo, decide_eq_false_iff_not]
        omega
      simp only [takeSockets, this, Bool.false_eq_true, if_false]
    have hphase2 : takeCCDs rt (newCPUAccumulator topo avail n)
        = .error ((newCPUAccumulator topo avail n).ccdDetail.CPUsInCCDs c0) := by
      have : (newCPUAccumulator topo avail n).needs
          (newCPUAccumulator topo avail n).topo.CPUsPerCCD = true := by
        simp only [needs, hneed, htopo, decide_eq_true_eq]
        omega
      simp only [takeCCDs, this, if_true, hlist]
      rw [takeLoop_first_satisfied _ _ c0 rest _ (by rw [hsize c0 hc0, hneed]), hres,
        Finset.empty_union]
    unfold takeByTopology
    simp only [hsat, hfail, Bool.false_eq_true, if_false, hskip, hphase2]
  · intro hcard
    apply Finset.eq_of_subset_of_card_le hsubTopo
    have := hsize c0 hc0
    omega

end cm
namespace cm

open cpuset cpuAccumulator

/-- The first core of the candidate list of phase 3 is returned. For every topology
whose CCD map covers every CPU, every `available` and `n = CPUsPerCore()` with `1 <= n`,
`n < CPUsPerCCD()` and `n < CPUsPerSocket()`, if `isCoreFree` holds of some core in the
initial accumulator then the candidate list of phase 3 is not empty, `isCoreFree` holds
of its first element, and `takeByTopology` returns, without error, exactly the CPUs of
that core in the view; these are CPUs that the topology places on the core, and all of
them whenever the topology places `CPUsPerCore()` CPUs there. -/
theorem takeCores_first_returned (rt : Runtime) (topo : CPUTopology) (avail : CPUSet)
    (n : Int) (hcover : topo.CPUDetails.CPUs ⊆ topo.CPUCCDDetails.CPUs)
    (hn : n = topo.CPUsPerCore) (h1 : 1 ≤ n) (hltC : n < topo.CPUsPerCCD)
    (hltS : n < topo.CPUsPerSocket)
    (hfree : ∃ c, (newCPUAccumulator topo avail n).isCoreFree c = true) :
    ∃ c0 rest,
      rt.sortSlice (bestFitLess (newCPUAccumulator topo avail n))
        ((newCPUAccumulator topo avail n).freeCores rt) = c0 :: rest ∧
      (newCPUAccumulator topo avail n).isCoreFree c0 = true ∧
      takeByTopology rt topo avail n
        = ((newCPUAccumulator topo avail n).details.CPUsInCores c0, none) ∧
      (newCPUAccumulator topo avail n).details.CPUsInCores c0
        ⊆ topo.CPUDetails.CPUsInCores c0 ∧
      (((topo.CPUDetails.CPUsInCores c0).card : Int) = topo.CPUsPerCore →
        (newCPUAccumulator topo avail n).details.CPUsInCores c0
          = topo.CPUDetails.CPUsInCores c0) := by
  obtain ⟨c, hc⟩ := hfree
  have htopo : (newCPUAccumulator topo avail n).topo = topo := rfl
  have hneed : (newCPUAccumulator topo avail n).numCPUsNeeded = n := rfl
  have hres : (newCPUAccumulator topo avail n).result = ∅ := rfl
  have hsize : ∀ d, (newCPUAccumulator topo avail n).isCoreFree d = true →
      (((newCPUAccumulator topo avail n).details.CPUsInCores d).card : Int) = n := by
    intro d hd
    simp only [isCoreFree, CPUSet.Size, decide_eq_true_eq, htopo] at hd
    rw [hd, hn]
  have hmem : c ∈ rt.sortSlice (bestFitLess (newCPUAccumulator topo avail n))
      ((newCPUAccumulator topo avail n).freeCores rt) := by
    rw [(rt.sortSlice_perm _ _).mem_iff, mem_freeCores]
    refine ⟨?_, hc⟩
    have hpos : 0 < ((newCPUAccumulator topo avail n).details.CPUsInCores c).card := by
      have := hsize c hc
      omega
    obtain ⟨cpu, hcpu⟩ := Finset.card_pos.1 hpos
    rw [topology.CPUDetails.CPUsInCores, Finset.mem_filter] at hcpu
    refine ⟨cpu, ?_, hcpu.1, hcpu.2⟩
    have hk := hcpu.1
    simp only [newCPUAccumulator, CPUDetails.KeepOnly, topology.CPUDetails.KeepOnly,
      Finset.mem_filter] at hk ⊢
    exact ⟨hcover hk.1, hk.2⟩
  obtain ⟨c0, rest, hlist⟩ := List.exists_cons_of_ne_nil (List.ne_nil_of_mem hmem)
  have hc0 : (newCPUAccumulator topo avail n).isCoreFree c0 = true := by
    have : c0 ∈ rt.sortSlice (bestFitLess (newCPUAccumulator topo avail n))
        ((newCPUAccumulator topo avail n).freeCores rt) := by
      rw [hlist]
      exact List.mem_cons_self _ _
    rw [(rt.sortSlice_perm _ _).mem_iff] at this
    exact ((mem_freeCores rt _ c0).1 this).2
  have hsubTopo : (newCPUAccumulator topo avail n).details.CPUsInCores c0
      ⊆ topo.CPUDetails.CPUsInCores c0 := by
    intro x hx
    simp only [newCPUAccumulator, topology.CPUDetails.KeepOnly,
      topology.CPUDetails.CPUsInCores, Finset.mem_filter] at hx ⊢
    exact ⟨hx.1.1, hx.2⟩
  refine ⟨c0, rest, hlist, hc0, ?_, hsubTopo, ?_⟩
  · have hsat : (newCPUAccumulator topo avail n).isSatisfied = false := by
      simp only [isSatisfied, hneed, decide_eq_false_iff_not]
      omega
    have hfail : (newCPUAccumulator topo avail n).isFailed = false := by
      simp only [isFailed, hneed, CPUSet.Size, topology.CPUDetails.CPUs,
        decide_eq_false_iff_not, not_lt, ge_iff_le, gt_iff_lt]
      have h2 := hsize c hc
      have h3 : ((newCPUAccumulator topo avail n).details.CPUsInCores c).card
          ≤ (newCPUAccumulator topo avail n).details.keys.card :=
        Finset.card_le_card (Finset.filter_subset _ _)
      omega
    have hskip1 : takeSockets (newCPUAccumulator topo avail n)
        = .ok (newCPUAccumulator topo avail n) := by
      have : (newCPUAccumulator topo avail n).needs
          (newCPUAccumulator topo avail n).topo.CPUsPerSocket = false := by
        simp only [needs, hneed, htopo, decide_eq_false_iff_not]
        omega
      simp only [takeSockets, this, Bool.false_eq_true, if_false]
    have hskip2 : takeCCDs rt (newCPUAccumulator topo avail n)
        = .ok (newCPUAccumulator topo avail n) := by
      have : (newCPUAccumulator topo avail n).needs
          (newCPUAccumulator topo avail n).topo.CPUsPerCCD = false := by
        simp only [needs, hneed, htopo, decide_eq_false_iff_not]
        omega
      simp only [takeCCDs, this, Bool.false_eq_true, if_false]
    have hphase3 : takeCores rt (newCPUAccumulator topo avail n)
        = .error ((newCPUAccumulator topo avail n).details.CPUsInCores c0) := by
      have : (newCPUAccumulator topo avail n).needs
          (newCPUAccumulator topo avail n).topo.CPUsPerCore = true := by
        simp only [needs, hneed, htopo, decide_eq_true_eq]
        omega
      simp only [takeCores, this, if_true, hlist]
      rw [takeLoop_first_satisfied _ _ c0 rest _ (by rw [hsize c0 hc0, hneed]), hres,
        Finset.empty_union]
    unfold takeByTopology
    simp only [hsat, hfail, Bool.false_eq_true, if_false, hskip1, hskip2, hphase3]
  · intro hcard
    apply Finset.eq_of_subset_of_card_le hsubTopo
    have := hsize c0 hc0
    have hn2 : n = topo.toCPUTopology.CPUsPerCore := hn
    omega

end cm
namespace cm

open cpuset cpuAccumulator

theorem takeCPUs_firsts : ∀ (cpus : List Int) (a : cpuAccumulator),
    1 ≤ a.numCPUsNeeded → a.numCPUsNeeded ≤ (cpus.length : Int) →
    takeCPUs cpus a = some (a.result ∪ (cpus.take a.numCPUsNeeded.toNat).toFinset)
  | [], a, h1, h2 => by
    simp only [List.length_nil, Nat.cast_zero] at h2
    omega
  | c :: rest, a, h1, h2 => by
    have hn : a.needs 1 = true := by simpa [needs] using h1
    have hcard : ((NewCPUSet [c]).card : Int) = 1 := by simp [NewCPUSet]
    have hneeded : (a.take (NewCPUSet [c])).numCPUsNeeded = a.numCPUsNeeded - 1 := by
      rw [take_needed, hcard]
    obtain ⟨k, hk⟩ : ∃ k : Nat, a.numCPUsNeeded.toNat = k + 1 :=
      ⟨a.numCPUsNeeded.toNat - 1, by omega⟩
    simp only [takeCPUs, hn, if_true]
    by_cases hs : (a.take (NewCPUSet [c])).isSatisfied = true
    · have hk0 : k = 0 := by
        simp only [isSatisfied, hneeded, decide_eq_true_eq] at hs
        omega
      rw [if_pos hs, take_result, hk, hk0]
      simp [NewCPUSet]
    · have hs2 : 1 ≤ (a.take (NewCPUSet [c])).numCPUsNeeded := by
        simp only [isSatisfied, decide_eq_true_eq, not_lt] at hs
        exact hs
      rw [if_neg hs]
      rw [takeCPUs_firsts rest _ hs2 (by
        rw [hneeded]
        simp only [List.length_cons, Nat.cast_add, Nat.cast_one] at h2
        omega)]
      have hk2 : (a.take (NewCPUSet [c])).numCPUsNeeded.toNat = k := by
        rw [hneeded]
        omega
      rw [hk2, hk, take_result, List.take_succ_cons, List.toFinset_cons, NewCPUSet]
      congr 1
      ext x
      simp only [Finset.mem_union, List.mem_toFinset, List.mem_singleton, Finset.mem_insert,
        List.mem_cons, List.not_mem_nil, or_false]
      tauto

theorem take_enough (a : cpuAccumulator) (cpus : CPUSet)
    (hd : Disjoint a.result a.details.keys)
    (he : a.numCPUsNeeded ≤ (a.details.keys.card : Int)) :
    (a.take cpus).numCPUsNeeded ≤ ((a.take cpus).details.keys.card : Int) := by
  have hkeys : a.details.keys \ (a.result ∪ cpus) = a.details.keys \ cpus := by
    ext x
    simp only [Finset.mem_sdiff, Finset.mem_union, not_or]
    constructor
    · rintro ⟨hx, _, hc⟩
      exact ⟨hx, hc⟩
    · rintro ⟨hx, hc⟩
      exact ⟨hx, fun hr => (Finset.disjoint_left.1 hd) hr hx, hc⟩
  rw [take_details_keys, take_needed, hkeys]
  have := Finset.le_card_sdiff cpus a.details.keys
  omega

theorem takeLoop_enough (unit : Int) (cpusOf : cpuAccumulator → Int → CPUSet) :
    ∀ (ids : List Int) (a : cpuAccumulator), Disjoint a.result a.details.keys →
      a.numCPUsNeeded ≤ (a.details.keys.card : Int) →
      ∀ b, takeLoop unit cpusOf ids a = .ok b →
        b.numCPUsNeeded ≤ (b.details.keys.card : Int)
  | [], a, _, he, b, hb => by
    simp only [takeLoop, Except.ok.injEq] at hb
    rw [← hb]
    exact he
  | s :: rest, a, hd, he, b, hb => by
    have he1 := take_enough a (cpusOf a s) hd he
    have hd1 := take_details_disjoint a (cpusOf a s)
    simp only [takeLoop] at hb
    split at hb
    · cases hb
    · split at hb
      · simp only [Except.ok.injEq] at hb
        rw [← hb]
        exact he1
      · exact takeLoop_enough unit cpusOf rest _ hd1 he1 b hb

end cm
namespace cm

open cpuset cpuAccumulator

theorem phase_enough (c : Bool) (unit : Int) (cpusOf : cpuAccumulator → Int → CPUSet)
    (ids : List Int) (a b : cpuAccumulator)
    (h : (if c = true then takeLoop unit cpusOf ids a else .ok a) = .ok b)
    (hd : Disjoint a.result a.details.keys)
    (he : a.numCPUsNeeded ≤ (a.details.keys.card : Int)) :
    b.numCPUsNeeded ≤ (b.details.keys.card : Int) := by
  split at h
  · exact takeLoop_enough unit cpusOf ids a hd he b h
  · simp only [Except.ok.injEq] at h
    rw [← h]
    exact he

theorem phase4Entry_spec (rt : Runtime) (topo : CPUTopology) (avail : CPUSet) (n : Int)
    (a3 : cpuAccumulator) (h : phase4Entry rt topo avail n = some a3) :
    AccInv avail n a3 ∧ 1 ≤ a3.numCPUsNeeded ∧
      a3.numCPUsNeeded ≤ (a3.details.keys.card : Int) ∧
      takeByTopology rt topo avail n =
        (match takeCPUs (a3.freeCPUs rt) a3 with
          | some r => (r, none)
          | none => (NewCPUSet [], some errFailed)) := by
  unfold phase4Entry at h
  unfold takeByTopology
  by_cases hsat : (newCPUAccumulator topo avail n).isSatisfied = true
  · simp [hsat] at h
  by_cases hf : (newCPUAccumulator topo avail n).isFailed = true
  · simp [hsat, hf] at h
  simp only [hsat, hf, Bool.false_eq_true, if_false] at h ⊢
  have h1 : 1 ≤ (newCPUAccumulator topo avail n).numCPUsNeeded := by
    simp only [isSatisfied, decide_eq_true_eq, not_lt] at hsat
    exact hsat
  have hn : 1 ≤ n := h1
  have hinv := newCPUAccumulator_inv topo avail n (by omega)
  have he0 : (newCPUAccumulator topo avail n).numCPUsNeeded
      ≤ ((newCPUAccumulator topo avail n).details.keys.card : Int) := by
    simp only [isFailed, CPUSet.Size, topology.CPUDetails.CPUs, decide_eq_true_eq,
      not_lt, gt_iff_lt] at hf
    exact hf
  have p1 := takeSockets_spec hinv h1
  rcases hS : takeSockets (newCPUAccumulator topo avail n) with r | a1
  · rw [hS] at h
    simp at h
  rw [hS] at p1 h
  dsimp only at h ⊢
  obtain ⟨i1, n1, -⟩ := p1
  have he1 := phase_enough _ _ _ _ _ a1 hS hinv.details_disj he0
  have p2 := takeCCDs_spec rt i1 n1
  rcases hC : takeCCDs rt a1 with r | a2
  · rw [hC] at h
    simp at h
  rw [hC] at p2 h
  dsimp only at h ⊢
  obtain ⟨i2, n2, -⟩ := p2
  have he2 := phase_enough _ _ _ _ _ a2 hC i1.details_disj he1
  have p3 := takeCores_spec rt i2 n2
  rcases hK : takeCores rt a2 with r | a3'
  · rw [hK] at h
    simp at h
  rw [hK] at p3 h
  dsimp only at h ⊢
  obtain ⟨i3, n3, -⟩ := p3
  have he3 := phase_enough _ _ _ _ _ a3' hK i2.details_disj he2
  simp only [Option.some.injEq] at h
  subst h
  exact ⟨i3, n3, he3, rfl⟩

theorem phase4Entry_initial (rt : Runtime) (topo : CPUTopology) (avail : CPUSet) (n : Int)
    (h1 : 1 ≤ n) (hle : n ≤ ((topo.CPUDetails.CPUs ∩ avail).card : Int))
    (hS : topo.CPUsPerSocket ≠ 0 → n < topo.CPUsPerSocket)
    (hC : topo.CPUsPerCCD ≠ 0 → n < topo.CPUsPerCCD)
    (hK : topo.CPUsPerCore ≠ 0 → n < topo.CPUsPerCore) :
    phase4Entry rt topo avail n = some (newCPUAccumulator topo avail n) := by
  have htopo : (newCPUAccumulator topo avail n).topo = topo := rfl
  have hneed : (newCPUAccumulator topo avail n).numCPUsNeeded = n := rfl
  have hsat : (newCPUAccumulator topo avail n).isSatisfied = false := by
    simp only [isSatisfied, hneed, decide_eq_false_iff_not]
    omega
  have hkeys : (newCPUAccumulator topo avail n).details.keys
      = topo.CPUDetails.CPUs ∩ avail := by
    ext x
    simp [newCPUAccumulator, topology.CPUDetails.KeepOnly, topology.CPUDetails.CPUs]
  have hfail : (newCPUAccumulator topo avail n).isFailed = false := by
    simp only [isFailed, hneed, CPUSet.Size, decide_eq_false_iff_not, not_lt, gt_iff_lt]
    show n ≤ (((newCPUAccumulator topo avail n).details.keys).card : Int)
    rw [hkeys]
    exact hle
  have hp1 : takeSockets (newCPUAccumulator topo avail n)
      = .ok (newCPUAccumulator topo avail n) := by
    unfold takeSockets
    split
    · rename_i hneeds
      have h0 : (newCPUAccumulator topo avail n).topo.CPUsPerSocket = 0 := by
        by_contra hne
        have := hS hne
        simp only [needs, hneed, htopo, decide_eq_true_eq] at hneeds
        omega
      rw [freeSockets_eq_nil _ h0]
      rfl
    · rfl
  have hp2 : takeCCDs rt (newCPUAccumulator topo avail n)
      = .ok (newCPUAccumulator topo avail n) := by
    unfold takeCCDs
    split
    · rename_i hneeds
      have h0 : (newCPUAccumulator topo avail n).topo.CPUsPerCCD = 0 := by
        by_contra hne
        have := hC hne
        simp only [needs, hneed, htopo, decide_eq_true_eq] at hneeds
        omega
      rw [freeCCDs_eq_nil rt _ h0]
      rfl
    · rfl
  have hp3 : takeCores rt (newCPUAccumulator topo avail n)
      = .ok (newCPUAccumulator topo avail n) := by
    unfold takeCores
    split
    · rename_i hneeds
      have h0 : (newCPUAccumulator topo avail n).topo.CPUsPerCore = 0 := by
        by_contra hne
        have := hK hne
        simp only [needs, hneed, htopo, decide_eq_true_eq] at hneeds
        omega
      have hnil : rt.sortSlice (bestFitLess (newCPUAccumulator topo avail n))
          ((newCPUAccumulator topo avail n).freeCores rt) = [] := by
        rw [freeCores_eq_nil rt _ h0]
        exact List.Perm.eq_nil (rt.sortSlice_perm _ [])
      simp only [hnil]
      rfl
    · rfl
  unfold phase4Entry
  simp only [hsat, hfail, Bool.false_eq_true, if_false, hp1, hp2, hp3]

/-- Phase 4 takes the first elements of one fixed ordering. Whenever `takeByTopology`
enters phase 4, in the state `a3` with the remaining demand `r = a3.numCPUsNeeded`, then
`r` is at least 1 and at most the length of `freeCPUs()` of `a3`, no CPU of that list is
in the result yet, and `takeByTopology` returns, without error, the result of `a3`
together with the first `r` elements of the list. And when
`1 <= n <= |available ∩ topo CPUs|` and `n` is smaller than every non-zero unit size,
`takeByTopology` returns, without error, the set of the first `n` elements of
`freeCPUs()` of the initial accumulator. -/
theorem phase4_firsts (rt : Runtime) (topo : CPUTopology) (avail : CPUSet) (n : Int) :
    (∀ a3, phase4Entry rt topo avail n = some a3 →
      1 ≤ a3.numCPUsNeeded ∧ a3.numCPUsNeeded ≤ ((a3.freeCPUs rt).length : Int) ∧
      (∀ c ∈ a3.freeCPUs rt, c ∉ a3.result) ∧
      takeByTopology rt topo avail n =
        (a3.result ∪ ((a3.freeCPUs rt).take a3.numCPUsNeeded.toNat).toFinset, none)) ∧
    (1 ≤ n → n ≤ ((topo.CPUDetails.CPUs ∩ avail).card : Int) →
      (topo.CPUsPerSocket ≠ 0 → n < topo.CPUsPerSocket) →
      (topo.CPUsPerCCD ≠ 0 → n < topo.CPUsPerCCD) →
      (topo.CPUsPerCore ≠ 0 → n < topo.CPUsPerCore) →
      takeByTopology rt topo avail n =
        ((((newCPUAccumulator topo avail n).freeCPUs rt).take n.toNat).toFinset, none)) := by
  have part1 : ∀ a3, phase4Entry rt topo avail n = some a3 →
      1 ≤ a3.numCPUsNeeded ∧ a3.numCPUsNeeded ≤ ((a3.freeCPUs rt).length : Int) ∧
      (∀ c ∈ a3.freeCPUs rt, c ∉ a3.result) ∧
      takeByTopology rt topo avail n =
        (a3.result ∪ ((a3.freeCPUs rt).take a3.numCPUsNeeded.toNat).toFinset, none) := by
    intro a3 h
    obtain ⟨hinv, h1, he, htbt⟩ := phase4Entry_spec rt topo avail n a3 h
    have hlen : a3.numCPUsNeeded ≤ ((a3.freeCPUs rt).length : Int) := by
      rw [length_freeCPUs]
      exact he
    refine ⟨h1, hlen, ?_, ?_⟩
    · intro c hc hr
      exact (Finset.disjoint_left.1 hinv.details_disj) hr ((mem_freeCPUs rt a3 c).1 hc)
    · rw [htbt, takeCPUs_firsts _ a3 h1 hlen]
  refine ⟨part1, ?_⟩
  intro h1 hle hS hC hK
  have h := (part1 _ (phase4Entry_initial rt topo avail n h1 hle hS hC hK)).2.2.2
  rw [h]
  have hres : (newCPUAccumulator topo avail n).result = ∅ := rfl
  have hneed : (newCPUAccumulator topo avail n).numCPUsNeeded = n := rfl
  rw [hres, hneed, Finset.empty_union]

end cm
/-! ### Locality monotonicity -/

namespace cm

open cpuset cpuAccumulator

theorem wholeUnits_mono (K : Finset Int) (f : Int → Int) {X Y : Finset Int} (h : X ⊆ Y) :
    wholeUnits K f X ⊆ wholeUnits K f Y := by
  intro s hs
  rw [wholeUnits, Finset.mem_filter] at hs ⊢
  exact ⟨hs.1, hs.2.trans h⟩

theorem card_wholeUnits_mul (K : Finset Int) (f : Int → Int) (u : Nat) (X : Finset Int)
    (hX : X ⊆ K) (hu : ∀ x ∈ K, (K.filter (fun y => f y = f x)).card = u) :
    (wholeUnits K f X).card * u
      = (X.filter (fun x => K.filter (fun y => f y = f x) ⊆ X)).card := by
  have hunion : X.filter (fun x => K.filter (fun y => f y = f x) ⊆ X)
      = (wholeUnits K f X).biUnion (fun s => K.filter (fun y => f y = s)) := by
    ext x
    simp only [Finset.mem_filter, Finset.mem_biUnion, wholeUnits, Finset.mem_image]
    constructor
    · rintro ⟨hx, hsub⟩
      exact ⟨f x, ⟨⟨x, hX hx, rfl⟩, hsub⟩, hX hx, rfl⟩
    · rintro ⟨s, ⟨_, hsub⟩, hxK, hfx⟩
      subst hfx
      exact ⟨hsub (Finset.mem_filter.2 ⟨hxK, rfl⟩), hsub⟩
  rw [hunion, Finset.card_biUnion]
  · rw [Finset.sum_const_nat (m := u)]
    intro s hs
    rw [wholeUnits, Finset.mem_filter, Finset.mem_image] at hs
    obtain ⟨⟨x, hx, rfl⟩, _⟩ := hs
    exact hu x hx
  · intro s _ t _ hst
    rw [Finset.disjoint_left]
    intro x hxs hxt
    exact hst ((Finset.mem_filter.1 hxs).2.symm.trans (Finset.mem_filter.1 hxt).2)

theorem card_wholeUnits_mul_le (K : Finset Int) (f : Int → Int) (u : Nat) (X : Finset Int)
    (hX : X ⊆ K) (hu : ∀ x ∈ K, (K.filter (fun y => f y = f x)).card = u) :
    (wholeUnits K f X).card * u ≤ X.card := by
  rw [card_wholeUnits_mul K f u X hX hu]
  exact Finset.card_le_card (Finset.filter_subset _ _)

theorem card_wholeUnits_mul_closed (K : Finset Int) (f : Int → Int) (u : Nat)
    (X : Finset Int) (hX : X ⊆ K)
    (hu : ∀ x ∈ K, (K.filter (fun y => f y = f x)).card = u) (hc : UnitClosed K f X) :
    (wholeUnits K f X).card * u = X.card := by
  rw [card_wholeUnits_mul K f u X hX hu]
  congr 1
  exact Finset.filter_true_of_mem hc

/-- The number of whole units of a level in an allocation `R` of `n` CPUs out of
`avail`, when the phase of the level left the part `r` of `R`. -/
theorem card_wholeUnits_eq (K : Finset Int) (f : Int → Int) (u : Nat) (hu1 : 1 ≤ u)
    (avail R r : Finset Int) (n : Nat) (havail : avail ⊆ K) (hR : R ⊆ avail)
    (hcard : R.card = n) (hr : r ⊆ R)
    (hu : ∀ x ∈ K, (K.filter (fun y => f y = f x)).card = u)
    (hdone : LevelDone K f (u : Int) avail (n : Int) r) :
    (wholeUnits K f R).card = min (n / u) (wholeUnits K f avail).card := by
  apply le_antisymm
  · apply le_min
    · rw [Nat.le_div_iff_mul_le (by omega)]
      have := card_wholeUnits_mul_le K f u R (hR.trans havail) hu
      omega
    · exact Finset.card_le_card (wholeUnits_mono K f hR)
  · have hmono : (wholeUnits K f r).card ≤ (wholeUnits K f R).card :=
      Finset.card_le_card (wholeUnits_mono K f hr)
    have hmul := card_wholeUnits_mul_closed K f u r ((hr.trans hR).trans havail) hu hdone.1
    have hrle : r.card ≤ n := hcard ▸ Finset.card_le_card hr
    rcases hdone.2 with h | h | h
    · have h' : r.card = n := by exact_mod_cast h
      have : n / u ≤ (wholeUnits K f r).card := by
        rw [← h', ← hmul, Nat.mul_div_cancel _ (by omega)]
      exact (min_le_left _ _).trans (this.trans hmono)
    · have h' : n < r.card + u := by omega
      have : n / u ≤ (wholeUnits K f r).card := by
        have hlt : n / u < (wholeUnits K f r).card + 1 := by
          rw [Nat.div_lt_iff_lt_mul (by omega), Nat.add_mul, hmul]
          omega
        omega
      exact (min_le_left _ _).trans (this.trans hmono)
    · have hsub : wholeUnits K f avail ⊆ wholeUnits K f r := by
        intro s hs
        rw [wholeUnits, Finset.mem_filter, Finset.mem_image] at hs ⊢
        obtain ⟨⟨x, hx, rfl⟩, hsub⟩ := hs
        exact ⟨⟨x, hx, rfl⟩, h x hx hsub⟩
      exact (min_le_right _ _).trans ((Finset.card_le_card hsub).trans hmono)

end cm
namespace cm

open cpuset cpuAccumulator

theorem regInv_take {topo : CPUTopology} {avail : CPUSet} {n : Int} {a : cpuAccumulator}
    (h : RegInv topo avail n a) {cpus : CPUSet} (hsub : cpus ⊆ a.details.keys) :
    RegInv topo avail n (a.take cpus) := by
  have hdisj : Disjoint a.result cpus := by
    rw [Finset.disjoint_left]
    intro x hx hc
    have := hsub hc
    rw [h.keys_eq, Finset.mem_sdiff] at this
    exact this.2 hx
  have hkeys : ∀ V : Finset Int, V = avail \ a.result →
      V \ (a.result ∪ cpus) = avail \ (a.result ∪ cpus) := by
    intro V hV
    subst hV
    ext x
    simp only [Finset.mem_sdiff, Finset.mem_union, not_or]
    tauto
  refine ⟨h.topo_eq, h.info_eq, h.ccd_info_eq, ?_, ?_, ?_, ?_⟩
  · rw [take_details_keys, take_result]
    exact hkeys _ h.keys_eq
  · rw [take_ccdDetail_keys, take_result]
    exact hkeys _ h.ccd_keys_eq
  · rw [take_result]
    refine Finset.union_subset h.result_sub (hsub.trans ?_)
    rw [h.keys_eq]
    exact Finset.sdiff_subset
  · rw [take_result, take_needed, Finset.card_union_of_disjoint hdisj, h.needed_eq]
    push_cast
    ring

theorem takeLoop_level (topo : CPUTopology) (avail : CPUSet) (n : Int) (K : Finset Int)
    (f : Int → Int) (unit : Int) (cpusOf : cpuAccumulator → Int → CPUSet)
    (havail : avail ⊆ K) (hunit : 1 ≤ unit)
    (hc : ∀ a, RegInv topo avail n a → ∀ s,
      cpusOf a s = (avail \ a.result).filter (fun x => f x = s)) :
    ∀ (ids : List Int) (a : cpuAccumulator), RegInv topo avail n a →
      UnitClosed K f a.result → unit ≤ a.numCPUsNeeded →
      (∀ s ∈ ids, ((K.filter (fun x => f x = s)).card : Int) = unit ∧
        (K.filter (fun x => f x = s) ⊆ avail \ a.result ∨
          K.filter (fun x => f x = s) ⊆ a.result)) →
      LevelPost topo avail n K f unit a ids (takeLoop unit cpusOf ids a) := by
  intro ids
  induction ids with
  | nil =>
    intro a hinv hcl hu _
    exact ⟨hinv, hcl, by omega, Finset.Subset.refl _, Or.inr (fun s hs => by simp at hs)⟩
  | cons s rest ih =>
    intro a hinv hcl hu hids
    obtain ⟨hcard, hcase⟩ := hids s (List.mem_cons_self _ _)
    have hXeq := hc a hinv s
    have hXsub : cpusOf a s ⊆ a.details.keys := by
      rw [hXeq, hinv.keys_eq]
      exact Finset.filter_subset _ _
    have hXfib : cpusOf a s ⊆ K.filter (fun x => f x = s) := by
      rw [hXeq]
      intro x hx
      rw [Finset.mem_filter] at hx ⊢
      exact ⟨havail (Finset.mem_sdiff.1 hx.1).1, hx.2⟩
    have hXcard : ((cpusOf a s).card : Int) ≤ unit := by
      rw [← hcard]
      exact_mod_cast Finset.card_le_card hXfib
    have hfib : K.filter (fun x => f x = s) ⊆ a.result ∪ cpusOf a s := by
      rcases hcase with h | h
      · intro x hx
        rw [Finset.mem_union, hXeq, Finset.mem_filter]
        exact Or.inr ⟨h hx, (Finset.mem_filter.1 hx).2⟩
      · exact h.trans Finset.subset_union_left
    have hcl' : UnitClosed K f (a.result ∪ cpusOf a s) := by
      intro x hx
      rcases Finset.mem_union.1 hx with h | h
      · exact (hcl x h).trans Finset.subset_union_left
      · have hfx : f x = s := (Finset.mem_filter.1 (hXfib h)).2
        rw [hfx]
        exact hfib
    have hinv' := regInv_take hinv hXsub
    have hres' : (a.take (cpusOf a s)).result = a.result ∪ cpusOf a s := rfl
    have hneed' : (a.take (cpusOf a s)).numCPUsNeeded
        = a.numCPUsNeeded - ((cpusOf a s).card : Int) := rfl
    have hids' : ∀ t ∈ rest, ((K.filter (fun x => f x = t)).card : Int) = unit ∧
        (K.filter (fun x => f x = t) ⊆ avail \ (a.take (cpusOf a s)).result ∨
          K.filter (fun x => f x = t) ⊆ (a.take (cpusOf a s)).result) := by
      intro t ht
      obtain ⟨htc, htcase⟩ := hids t (List.mem_cons_of_mem _ ht)
      refine ⟨htc, ?_⟩
      rw [hres']
      rcases htcase with h | h
      · by_cases hts : t = s
        · right
          rw [hts]
          exact hfib
        · left
          intro x hx
          have hxa := h hx
          rw [Finset.mem_sdiff] at hxa ⊢
          refine ⟨hxa.1, ?_⟩
          intro hxr
          rcases Finset.mem_union.1 hxr with h1 | h1
          · exact hxa.2 h1
          · exact hts ((Finset.mem_filter.1 hx).2.symm.trans
              (Finset.mem_filter.1 (hXfib h1)).2)
      · right
        exact h.trans Finset.subset_union_left
    unfold takeLoop
    simp only []
    by_cases hs : (a.take (cpusOf a s)).isSatisfied = true
    · simp only [hs, if_true]
      refine ⟨hinv'.result_sub, ?_, hcl', Finset.subset_union_left⟩
      have h1 : (a.take (cpusOf a s)).numCPUsNeeded < 1 := by
        simpa [isSatisfied] using hs
      have h2 := hinv'.needed_eq
      omega
    · simp only [hs, Bool.false_eq_true, if_false]
      have h1 : 1 ≤ (a.take (cpusOf a s)).numCPUsNeeded := by
        simp only [isSatisfied, decide_eq_true_eq, not_lt] at hs
        exact hs
      by_cases hn : (a.take (cpusOf a s)).needs unit = true
      · simp only [hn, Bool.not_true, Bool.false_eq_true, if_false]
        have hu' : unit ≤ (a.take (cpusOf a s)).numCPUsNeeded := by
          simpa [needs] using hn
        have post := ih (a.take (cpusOf a s)) hinv' hcl' hu' hids'
        rcases hL : takeLoop unit cpusOf rest (a.take (cpusOf a s)) with r | b
        · rw [hL] at post
          exact ⟨post.1, post.2.1, post.2.2.1, Finset.subset_union_left.trans post.2.2.2⟩
        · rw [hL] at post
          obtain ⟨p1, p2, p3, p4, p5⟩ := post
          refine ⟨p1, p2, p3, Finset.subset_union_left.trans p4, ?_⟩
          rcases p5 with h | h
          · exact Or.inl h
          · right
            intro t ht
            rcases List.mem_cons.1 ht with rfl | ht
            · exact hfib.trans p4
            · exact h t ht
      · simp only [Bool.not_eq_true] at hn
        simp only [hn, Bool.not_false, if_true]
        refine ⟨hinv', hcl', h1, Finset.subset_union_left, Or.inl ?_⟩
        simpa [needs] using hn

end cm
namespace cm

open cpuset cpuAccumulator

theorem filter_eq_fiber_of_card (K V : Finset Int) (f : Int → Int) (s : Int) (hV : V ⊆ K)
    (h : (V.filter (fun x => f x = s)).card = (K.filter (fun x => f x = s)).card) :
    K.filter (fun x => f x = s) ⊆ V := by
  have hsub : V.filter (fun x => f x = s) ⊆ K.filter (fun x => f x = s) :=
    Finset.filter_subset_filter _ hV
  have := Finset.eq_of_subset_of_card_le hsub (by omega)
  rw [← this]
  exact Finset.filter_subset _ _

/-- The phase of one level, on a list of candidates that holds exactly the units of the
level that are free in the state `a`. -/
theorem phase_level (topo : CPUTopology) (avail : CPUSet) (n : Int) (K : Finset Int)
    (f : Int → Int) (unit : Int) (cpusOf : cpuAccumulator → Int → CPUSet)
    (havail : avail ⊆ K) (hunit : 1 ≤ unit)
    (hsize : ∀ x ∈ K, ((K.filter (fun y => f y = f x)).card : Int) = unit)
    (hc : ∀ a, RegInv topo avail n a → ∀ s,
      cpusOf a s = (avail \ a.result).filter (fun x => f x = s))
    (ids : List Int) (a : cpuAccumulator) (hinv : RegInv topo avail n a)
    (hcl : UnitClosed K f a.result) (h1 : 1 ≤ a.numCPUsNeeded)
    (hmem : ∀ s, s ∈ ids ↔ ((∃ x ∈ avail \ a.result, f x = s) ∧
      (((avail \ a.result).filter (fun x => f x = s)).card : Int) = unit)) :
    PhaseLevel topo avail n K f unit a
      (if a.needs unit = true then takeLoop unit cpusOf ids a else .ok a) := by
  unfold PhaseLevel
  by_cases hn : a.needs unit = true
  · simp only [hn, if_true]
    have hu : unit ≤ a.numCPUsNeeded := by simpa [needs] using hn
    have hids : ∀ s ∈ ids, ((K.filter (fun x => f x = s)).card : Int) = unit ∧
        (K.filter (fun x => f x = s) ⊆ avail \ a.result ∨
          K.filter (fun x => f x = s) ⊆ a.result) := by
      intro s hs
      obtain ⟨⟨x, hx, rfl⟩, hcard⟩ := (hmem s).1 hs
      have hxK : x ∈ K := havail (Finset.mem_sdiff.1 hx).1
      refine ⟨hsize x hxK, Or.inl ?_⟩
      apply filter_eq_fiber_of_card K _ f _ (Finset.sdiff_subset.trans havail)
      have := hsize x hxK
      omega
    have post := takeLoop_level topo avail n K f unit cpusOf havail hunit hc ids a hinv hcl
      hu hids
    rcases hL : takeLoop unit cpusOf ids a with r | b
    · rw [hL] at post
      obtain ⟨p1, p2, p3, p4⟩ := post
      refine ⟨⟨p3, Or.inl p2⟩, p4, ?_, ?_⟩
      · intro r' hr
        cases hr
        exact ⟨p1, p2⟩
      · intro b hb
        cases hb
    · rw [hL] at post
      obtain ⟨p1, p2, p3, p4, p5⟩ := post
      refine ⟨⟨p2, Or.inr ?_⟩, p4, ?_, ?_⟩
      · rcases p5 with h | h
        · left
          have := p1.needed_eq
          show n - (b.result.card : Int) < unit
          omega
        · right
          intro x hx hsub
          by_cases hex : ∃ y ∈ K.filter (fun y => f y = f x), y ∈ a.result
          · obtain ⟨y, hy, hyr⟩ := hex
            have := hcl y hyr
            rw [(Finset.mem_filter.1 hy).2] at this
            exact this.trans p4
          · apply h (f x)
            rw [hmem]
            have hview : K.filter (fun y => f y = f x) ⊆ avail \ a.result := by
              intro y hy
              rw [Finset.mem_sdiff]
              exact ⟨hsub hy, fun hyr => hex ⟨y, hy, hyr⟩⟩
            refine ⟨⟨x, hview (Finset.mem_filter.2 ⟨hx, rfl⟩), rfl⟩, ?_⟩
            rw [← hsize x hx]
            congr 2
            ext y
            simp only [Finset.mem_filter]
            constructor
            · rintro ⟨hy, hfy⟩
              exact ⟨havail (Finset.mem_sdiff.1 hy).1, hfy⟩
            · rintro ⟨hy, hfy⟩
              exact ⟨hview (Finset.mem_filter.2 ⟨hy, hfy⟩), hfy⟩
      · intro r hr
        cases hr
      · intro b' hb
        cases hb
        exact ⟨p1, p3⟩
  · simp only [hn, Bool.false_eq_true, if_false]
    refine ⟨⟨hcl, Or.inr (Or.inl ?_)⟩, Finset.Subset.refl _, ?_, ?_⟩
    · have := hinv.needed_eq
      have hlt : a.numCPUsNeeded < unit := by
        simpa [needs] using hn
      show n - (a.result.card : Int) < unit
      omega
    · intro r hr
      cases hr
    · intro b hb
      cases hb
      exact ⟨hinv, h1⟩

end cm
namespace cm

open cpuset cpuAccumulator

theorem takeSockets_level (topo : CPUTopology) (avail : CPUSet) (n : Int)
    (havail : avail ⊆ topo.CPUDetails.keys) (hunit : 1 ≤ topo.CPUsPerSocket)
    (hsize : ∀ x ∈ topo.CPUDetails.keys,
      ((topo.CPUDetails.keys.filter (fun y => (topo.CPUDetails.info y).SocketID
        = (topo.CPUDetails.info x).SocketID)).card : Int) = topo.CPUsPerSocket)
    (a : cpuAccumulator) (hinv : RegInv topo avail n a)
    (hcl : UnitClosed topo.CPUDetails.keys (fun x => (topo.CPUDetails.info x).SocketID)
      a.result)
    (h1 : 1 ≤ a.numCPUsNeeded) :
    PhaseLevel topo avail n topo.CPUDetails.keys
      (fun x => (topo.CPUDetails.info x).SocketID) topo.CPUsPerSocket a (takeSockets a) := by
  have hc : ∀ a', RegInv topo avail n a' → ∀ s,
      a'.details.CPUsInSockets s
        = (avail \ a'.result).filter (fun x => (topo.CPUDetails.info x).SocketID = s) := by
    intro a' h' s
    rw [topology.CPUDetails.CPUsInSockets, h'.keys_eq, h'.info_eq]
  have key := phase_level topo avail n topo.CPUDetails.keys
    (fun x => (topo.CPUDetails.info x).SocketID) topo.CPUsPerSocket
    (fun a s => a.details.CPUsInSockets s) havail hunit hsize hc a.freeSockets a hinv hcl h1
    (by
      intro s
      rw [freeSockets, mem_ToSlice, CPUSet.Filter, Finset.mem_filter,
        topology.CPUDetails.Sockets, Finset.mem_image, isSocketFree, decide_eq_true_eq,
        hc a hinv s, hinv.keys_eq, hinv.info_eq, hinv.topo_eq]
      rfl)
  unfold takeSockets
  rw [hinv.topo_eq]
  exact key

theorem takeCCDs_level (rt : Runtime) (topo : CPUTopology) (avail : CPUSet) (n : Int)
    (havail : avail ⊆ topo.CPUDetails.keys) (hunit : 1 ≤ topo.CPUsPerCCD)
    (hsize : ∀ x ∈ topo.CPUDetails.keys,
      ((topo.CPUDetails.keys.filter (fun y => (topo.CPUCCDDetails.info y).CCDID
        = (topo.CPUCCDDetails.info x).CCDID)).card : Int) = topo.CPUsPerCCD)
    (a : cpuAccumulator) (hinv : RegInv topo avail n a)
    (hcl : UnitClosed topo.CPUDetails.keys (fun x => (topo.CPUCCDDetails.info x).CCDID)
      a.result)
    (h1 : 1 ≤ a.numCPUsNeeded) :
    PhaseLevel topo avail n topo.CPUDetails.keys
      (fun x => (topo.CPUCCDDetails.info x).CCDID) topo.CPUsPerCCD a (takeCCDs rt a) := by
  have hc : ∀ a', RegInv topo avail n a' → ∀ s,
      a'.ccdDetail.CPUsInCCDs s
        = (avail \ a'.result).filter (fun x => (topo.CPUCCDDetails.info x).CCDID = s) := by
    intro a' h' s
    rw [CPUDetails.CPUsInCCDs, h'.ccd_keys_eq, h'.ccd_info_eq]
  have key := phase_level topo avail n topo.CPUDetails.keys
    (fun x => (topo.CPUCCDDetails.info x).CCDID) topo.CPUsPerCCD
    (fun a s => a.ccdDetail.CPUsInCCDs s) havail hunit hsize hc (a.freeCCDs rt) a hinv hcl h1
    (by
      intro s
      rw [mem_freeCCDs, isCCDFree, decide_eq_true_eq, hc a hinv s, hinv.keys_eq,
        hinv.ccd_keys_eq, hinv.ccd_info_eq, hinv.topo_eq]
      constructor
      · rintro ⟨⟨x, hx, _, hfx⟩, hcard⟩
        exact ⟨⟨x, hx, hfx⟩, hcard⟩
      · rintro ⟨⟨x, hx, hfx⟩, hcard⟩
        exact ⟨⟨x, hx, hx, hfx⟩, hcard⟩)
  unfold takeCCDs
  rw [hinv.topo_eq]
  exact key

theorem takeCores_level (rt : Runtime) (topo : CPUTopology) (avail : CPUSet) (n : Int)
    (havail : avail ⊆ topo.CPUDetails.keys) (hunit : 1 ≤ topo.CPUsPerCore)
    (hsize : ∀ x ∈ topo.CPUDetails.keys,
      ((topo.CPUDetails.keys.filter (fun y => (topo.CPUDetails.info y).CoreID
        = (topo.CPUDetails.info x).CoreID)).card : Int) = topo.CPUsPerCore)
    (a : cpuAccumulator) (hinv : RegInv topo avail n a)
    (hcl : UnitClosed topo.CPUDetails.keys (fun x => (topo.CPUDetails.info x).CoreID)
      a.result)
    (h1 : 1 ≤ a.numCPUsNeeded) :
    PhaseLevel topo avail n topo.CPUDetails.keys
      (fun x => (topo.CPUDetails.info x).CoreID) topo.CPUsPerCore a (takeCores rt a) := by
  have hc : ∀ a', RegInv topo avail n a' → ∀ s,
      a'.details.CPUsInCores s
        = (avail \ a'.result).filter (fun x => (topo.CPUDetails.info x).CoreID = s) := by
    intro a' h' s
    rw [topology.CPUDetails.CPUsInCores, h'.keys_eq, h'.info_eq]
  have key := phase_level topo avail n topo.CPUDetails.keys
    (fun x => (topo.CPUDetails.info x).CoreID) topo.CPUsPerCore
    (fun a s => a.details.CPUsInCores s) havail hunit hsize hc
    (rt.sortSlice (bestFitLess a) (a.freeCores rt)) a hinv hcl h1
    (by
      intro s
      rw [(rt.sortSlice_perm _ _).mem_iff, mem_freeCores, isCoreFree, decide_eq_true_eq,
        hc a hinv s, hinv.keys_eq, hinv.ccd_keys_eq, hinv.info_eq, hinv.topo_eq]
      constructor
      · rintro ⟨⟨x, hx, _, hfx⟩, hcard⟩
        exact ⟨⟨x, hx, hfx⟩, hcard⟩
      · rintro ⟨⟨x, hx, hfx⟩, hcard⟩
        exact ⟨⟨x, hx, hx, hfx⟩, hcard⟩)
  unfold takeCores
  rw [hinv.topo_eq]
  exact key

end cm
namespace cm

open cpuset cpuAccumulator

theorem unitClosed_of_nested (K : Finset Int) (f g : Int → Int) (R : Finset Int)
    (hR : R ⊆ K) (hnest : ∀ x ∈ K, ∀ y ∈ K, g x = g y → f x = f y)
    (h : UnitClosed K f R) : UnitClosed K g R := by
  intro x hx y hy
  rw [Finset.mem_filter] at hy
  apply h x hx
  rw [Finset.mem_filter]
  exact ⟨hy.1, hnest y hy.1 x (hR hx) hy.2⟩

theorem regInv_new (topo : CPUTopology) (avail : CPUSet) (n : Int)
    (hccd : topo.CPUCCDDetails.keys = topo.CPUDetails.keys)
    (hsub : avail ⊆ topo.CPUDetails.keys) :
    RegInv topo avail n (newCPUAccumulator topo avail n) := by
  refine ⟨rfl, rfl, rfl, ?_, ?_, Finset.empty_subset _, ?_⟩
  · ext x
    simp only [newCPUAccumulator, topology.CPUDetails.KeepOnly, Finset.mem_filter,
      Finset.sdiff_empty]
    exact ⟨fun h => h.2, fun h => ⟨hsub h, h⟩⟩
  · ext x
    simp only [newCPUAccumulator, CPUDetails.KeepOnly, Finset.mem_filter,
      Finset.sdiff_empty, hccd]
    exact ⟨fun h => h.2, fun h => ⟨hsub h, h⟩⟩
  · show n = n - ((∅ : Finset Int).card : Int)
    simp

theorem levelDone_of_card (K : Finset Int) (f : Int → Int) (u : Int) (avail : CPUSet)
    (n : Int) (r : CPUSet) (hcl : UnitClosed K f r) (hcard : (r.card : Int) = n) :
    LevelDone K f u avail n r :=
  ⟨hcl, Or.inl hcard⟩

/-- The three levels of an allocation on a topology of whole, nested units: the result
of `takeByTopology` holds, for each level, a part that the phase of the level left. -/
theorem takeByTopology_levels (rt : Runtime) (topo : CPUTopology) (avail : CPUSet) (n : Int)
    (hreg : Regular topo) (hsub : avail ⊆ topo.CPUDetails.keys) (h1 : 1 ≤ n)
    (hle : n ≤ (avail.card : Int)) :
    ∃ r1 r2 r3 : CPUSet,
      r1 ⊆ (takeByTopology rt topo avail n).1 ∧ r2 ⊆ (takeByTopology rt topo avail n).1 ∧
      r3 ⊆ (takeByTopology rt topo avail n).1 ∧
      LevelDone topo.CPUDetails.keys (fun x => (topo.CPUDetails.info x).SocketID)
        topo.CPUsPerSocket avail n r1 ∧
      LevelDone topo.CPUDetails.keys (fun x => (topo.CPUCCDDetails.info x).CCDID)
        topo.CPUsPerCCD avail n r2 ∧
      LevelDone topo.CPUDetails.keys (fun x => (topo.CPUDetails.info x).CoreID)
        topo.CPUsPerCore avail n r3 := by
  obtain ⟨hccd, hsS, hsD, hsC, hnCD, hnDS⟩ := hreg
  -- the sizes of the units, on the keys of the CPU map
  have hsizeS : ∀ x ∈ topo.CPUDetails.keys,
      ((topo.CPUDetails.keys.filter (fun y => (topo.CPUDetails.info y).SocketID
        = (topo.CPUDetails.info x).SocketID)).card : Int) = topo.CPUsPerSocket := hsS
  have hsizeD : ∀ x ∈ topo.CPUDetails.keys,
      ((topo.CPUDetails.keys.filter (fun y => (topo.CPUCCDDetails.info y).CCDID
        = (topo.CPUCCDDetails.info x).CCDID)).card : Int) = topo.CPUsPerCCD := by
    intro x hx
    have := hsD x hx
    rw [CPUDetails.CPUsInCCDs, hccd] at this
    exact this
  have hsizeC : ∀ x ∈ topo.CPUDetails.keys,
      ((topo.CPUDetails.keys.filter (fun y => (topo.CPUDetails.info y).CoreID
        = (topo.CPUDetails.info x).CoreID)).card : Int) = topo.CPUsPerCore := hsC
  -- some CPU is available, so no unit size is 0
  have hne : avail.Nonempty := by
    rw [← Finset.card_pos]
    omega
  obtain ⟨x0, hx0⟩ := hne
  have hx0K := hsub hx0
  have hpos : ∀ (f : Int → Int),
      (1 : Int) ≤ ((topo.CPUDetails.keys.filter (fun y => f y = f x0)).card : Int) := by
    intro f
    have : 0 < (topo.CPUDetails.keys.filter (fun y => f y = f x0)).card :=
      Finset.card_pos.2 ⟨x0, Finset.mem_filter.2 ⟨hx0K, rfl⟩⟩
    omega
  have huS : 1 ≤ topo.CPUsPerSocket := by
    rw [← hsizeS x0 hx0K]
    exact hpos _
  have huD : 1 ≤ topo.CPUsPerCCD := by
    rw [← hsizeD x0 hx0K]
    exact hpos _
  have huC : 1 ≤ topo.CPUsPerCore := by
    rw [← hsizeC x0 hx0K]
    exact hpos _
  -- closure under the units of a level passes to the level below
  have hDS : ∀ R : CPUSet, R ⊆ avail →
      UnitClosed topo.CPUDetails.keys (fun x => (topo.CPUDetails.info x).SocketID) R →
      UnitClosed topo.CPUDetails.keys (fun x => (topo.CPUCCDDetails.info x).CCDID) R :=
    fun R hR h => unitClosed_of_nested _ _ _ R (hR.trans hsub) hnDS h
  have hCD : ∀ R : CPUSet, R ⊆ avail →
      UnitClosed topo.CPUDetails.keys (fun x => (topo.CPUCCDDetails.info x).CCDID) R →
      UnitClosed topo.CPUDetails.keys (fun x => (topo.CPUDetails.info x).CoreID) R :=
    fun R hR h => unitClosed_of_nested _ _ _ R (hR.trans hsub) hnCD h
  have herr := (takeByTopology_spec rt topo avail n h1).2.2 hsub hle
  have hinv0 := regInv_new topo avail n hccd hsub
  have hsat : (newCPUAccumulator topo avail n).isSatisfied = false := by
    simp only [isSatisfied, newCPUAccumulator, decide_eq_false_iff_not]
    omega
  have hneed0 : 1 ≤ (newCPUAccumulator topo avail n).numCPUsNeeded := h1
  have hcl0 : UnitClosed topo.CPUDetails.keys (fun x => (topo.CPUDetails.info x).SocketID)
      (newCPUAccumulator topo avail n).result := by
    intro x hx
    exact absurd hx (Finset.not_mem_empty x)
  have p1 := takeSockets_level topo avail n hsub huS hsizeS _ hinv0 hcl0 hneed0
  unfold takeByTopology at herr ⊢
  simp only [hsat, Bool.false_eq_true, if_false] at herr ⊢
  by_cases hf : (newCPUAccumulator topo avail n).isFailed = true
  · simp [hf] at herr
  simp only [hf, Bool.false_eq_true, if_false] at herr ⊢
  obtain ⟨d1, m1, e1, o1⟩ := p1
  rcases hS : takeSockets (newCPUAccumulator topo avail n) with r | a1
  · rw [hS] at d1 e1
    obtain ⟨hra, hrc⟩ := e1 r rfl
    have hclD := hDS r hra d1.1
    exact ⟨r, r, r, Finset.Subset.refl _, Finset.Subset.refl _, Finset.Subset.refl _, d1,
      levelDone_of_card _ _ _ _ _ _ hclD hrc, levelDone_of_card _ _ _ _ _ _ (hCD r hra hclD) hrc⟩
  rw [hS] at d1 o1 herr
  dsimp only at herr ⊢
  obtain ⟨i1, n1⟩ := o1 a1 rfl
  have d1' : LevelDone topo.CPUDetails.keys (fun x => (topo.CPUDetails.info x).SocketID)
      topo.CPUsPerSocket avail n a1.result := d1
  have p2 := takeCCDs_level rt topo avail n hsub huD hsizeD a1 i1
    (hDS _ i1.result_sub d1'.1) n1
  obtain ⟨d2, m2, e2, o2⟩ := p2
  rcases hC : takeCCDs rt a1 with r | a2
  · rw [hC] at d2 e2 m2
    obtain ⟨hra, hrc⟩ := e2 r rfl
    exact ⟨a1.result, r, r, m2, Finset.Subset.refl _, Finset.Subset.refl _, d1', d2,
      levelDone_of_card _ _ _ _ _ _ (hCD r hra d2.1) hrc⟩
  rw [hC] at d2 o2 m2 herr
  dsimp only at herr ⊢
  obtain ⟨i2, n2⟩ := o2 a2 rfl
  have d2' : LevelDone topo.CPUDetails.keys (fun x => (topo.CPUCCDDetails.info x).CCDID)
      topo.CPUsPerCCD avail n a2.result := d2
  have m2' : a1.result ⊆ a2.result := m2
  have p3 := takeCores_level rt topo avail n hsub huC hsizeC a2 i2
    (hCD _ i2.result_sub d2'.1) n2
  obtain ⟨d3, m3, e3, o3⟩ := p3
  rcases hK : takeCores rt a2 with r | a3
  · rw [hK] at d3 m3
    exact ⟨a1.result, a2.result, r, m2'.trans m3, m3, Finset.Subset.refl _, d1', d2', d3⟩
  rw [hK] at d3 m3 herr
  dsimp only at herr ⊢
  have d3' : LevelDone topo.CPUDetails.keys (fun x => (topo.CPUDetails.info x).CoreID)
      topo.CPUsPerCore avail n a3.result := d3
  have m3' : a2.result ⊆ a3.result := m3
  rcases hP : takeCPUs (a3.freeCPUs rt) a3 with _ | R
  · rw [hP] at herr
    simp at herr
  · have m4 := takeCPUs_result_mono _ _ _ hP
    exact ⟨a1.result, a2.result, a3.result, (m2'.trans m3').trans m4, m3'.trans m4, m4,
      d1', d2', d3'⟩

end cm
namespace cm

open cpuset cpuAccumulator

theorem wholeUnits_empty (K : Finset Int) (f : Int → Int) : wholeUnits K f ∅ = ∅ := by
  apply Finset.eq_empty_of_forall_not_mem
  intro s hs
  rw [wholeUnits, Finset.mem_filter, Finset.mem_image] at hs
  obtain ⟨⟨x, hx, rfl⟩, hsub⟩ := hs
  exact Finset.not_mem_empty x (hsub (Finset.mem_filter.2 ⟨hx, rfl⟩))

theorem wholeSockets_eq (topo : CPUTopology) (R : CPUSet) :
    wholeSockets topo R
      = wholeUnits topo.CPUDetails.keys (fun x => (topo.CPUDetails.info x).SocketID) R := rfl

theorem wholeCores_eq (topo : CPUTopology) (R : CPUSet) :
    wholeCores topo R
      = wholeUnits topo.CPUDetails.keys (fun x => (topo.CPUDetails.info x).CoreID) R := rfl

theorem wholeCCDs_eq (topo : CPUTopology) (R : CPUSet)
    (hccd : topo.CPUCCDDetails.keys = topo.CPUDetails.keys) :
    wholeCCDs topo R
      = wholeUnits topo.CPUDetails.keys (fun x => (topo.CPUCCDDetails.info x).CCDID) R := by
  rw [wholeCCDs, CPUDetails.CCDs, wholeUnits, ← hccd]
  rfl

theorem W_empty (topo : CPUTopology) (hccd : topo.CPUCCDDetails.keys = topo.CPUDetails.keys) :
    W topo ∅ = 0 := by
  rw [W, wholeSockets_eq, wholeCores_eq, wholeCCDs_eq topo ∅ hccd, wholeUnits_empty,
    wholeUnits_empty, wholeUnits_empty]
  rfl

/-- The locality of the allocation of `n >= 1` CPUs on a topology of whole, nested
units: at each level as many whole units as `n` CPUs can make up, or as many as lie in
`avail`. -/
theorem W_takeByTopology (rt : Runtime) (topo : CPUTopology) (avail : CPUSet) (n : Int)
    (hreg : Regular topo) (hsub : avail ⊆ topo.CPUDetails.keys) (h1 : 1 ≤ n)
    (hle : n ≤ (avail.card : Int)) :
    W topo (takeByTopology rt topo avail n).1
      = min (n.toNat / topo.CPUsPerSocket.toNat) (wholeSockets topo avail).card
        + min (n.toNat / topo.CPUsPerCCD.toNat) (wholeCCDs topo avail).card
        + min (n.toNat / topo.CPUsPerCore.toNat) (wholeCores topo avail).card := by
  obtain ⟨r1, r2, r3, s1, s2, s3, d1, d2, d3⟩ :=
    takeByTopology_levels rt topo avail n hreg hsub h1 hle
  obtain ⟨hccd, hsS, hsD, hsC, -, -⟩ := hreg
  have hspec := takeByTopology_spec rt topo avail n h1
  have hR : (takeByTopology rt topo avail n).1 ⊆ avail := hspec.1
  have hcard : (takeByTopology rt topo avail n).1.card = n.toNat := by
    have := hspec.2.1 (hspec.2.2 hsub hle)
    omega
  have hn : ((n.toNat : Nat) : Int) = n := Int.toNat_of_nonneg (by omega)
  obtain ⟨x0, hx0⟩ : avail.Nonempty := by
    rw [← Finset.card_pos]
    omega
  have hx0K := hsub hx0
  -- one level
  have level : ∀ (f : Int → Int) (u : Int) (r : CPUSet),
      (∀ x ∈ topo.CPUDetails.keys,
        ((topo.CPUDetails.keys.filter (fun y => f y = f x)).card : Int) = u) →
      r ⊆ (takeByTopology rt topo avail n).1 →
      LevelDone topo.CPUDetails.keys f u avail n r →
      (wholeUnits topo.CPUDetails.keys f (takeByTopology rt topo avail n).1).card
        = min (n.toNat / u.toNat) (wholeUnits topo.CPUDetails.keys f avail).card := by
    intro f u r hsize hr hdone
    have hpos : 0 < (topo.CPUDetails.keys.filter (fun y => f y = f x0)).card :=
      Finset.card_pos.2 ⟨x0, Finset.mem_filter.2 ⟨hx0K, rfl⟩⟩
    have hu1 : 1 ≤ u := by
      rw [← hsize x0 hx0K]
      omega
    have hu : ((u.toNat : Nat) : Int) = u := Int.toNat_of_nonneg (by omega)
    refine card_wholeUnits_eq topo.CPUDetails.keys f u.toNat (by omega) avail _ r n.toNat
      hsub hR hcard hr ?_ ?_
    · intro x hx
      have := hsize x hx
      omega
    · rw [hu, hn]
      exact hdone
  have hsizeD : ∀ x ∈ topo.CPUDetails.keys,
      ((topo.CPUDetails.keys.filter (fun y => (topo.CPUCCDDetails.info y).CCDID
        = (topo.CPUCCDDetails.info x).CCDID)).card : Int) = topo.CPUsPerCCD := by
    intro x hx
    have := hsD x hx
    rw [CPUDetails.CPUsInCCDs, hccd] at this
    exact this
  rw [W, wholeSockets_eq, wholeCores_eq, wholeCCDs_eq topo _ hccd, wholeSockets_eq,
    wholeCores_eq, wholeCCDs_eq topo avail hccd,
    level _ _ r1 hsS s1 d1, level _ _ r2 hsizeD s2 d2, level _ _ r3 hsC s3 d3]

end cm
namespace cm

open cpuset cpuAccumulator

/-- C27, counterexamples: locality is not monotone on every topology that satisfies the
invariants of section 3. On `topoUneven` (sockets of 3 and 1 CPUs) with 0, 1, 3
available, 1 CPU gives `W = 3` and 2 CPUs give `W = 0`. On `topoCrossCCD` (whole units,
CCDs across sockets) with 0 to 7 and 10 available, 6 CPUs give `W = 5` and 7 CPUs give
`W = 4`. On `topoSplitCore` (whole units, cores across CCDs) with 0 to 4 and 6 to 8
available, 5 CPUs give `W = 3` and 6 CPUs give `W = 2`. -/
theorem locality_not_monotone :
    (Section3 topoUneven ∧ NewCPUSet [0, 1, 3] ⊆ topoUneven.CPUDetails.CPUs ∧
      W topoUneven (takeByTopology rtAscending topoUneven (NewCPUSet [0, 1, 3]) 1).1 = 3 ∧
      W topoUneven (takeByTopology rtAscending topoUneven (NewCPUSet [0, 1, 3]) 2).1 = 0) ∧
    (Section3 topoCrossCCD ∧
      NewCPUSet [0, 1, 2, 3, 4, 5, 6, 7, 10] ⊆ topoCrossCCD.CPUDetails.CPUs ∧
      W topoCrossCCD
        (takeByTopology rtAscending topoCrossCCD (NewCPUSet [0, 1, 2, 3, 4, 5, 6, 7, 10]) 6).1
        = 5 ∧
      W topoCrossCCD
        (takeByTopology rtAscending topoCrossCCD (NewCPUSet [0, 1, 2, 3, 4, 5, 6, 7, 10]) 7).1
        = 4) ∧
    (Section3 topoSplitCore ∧
      NewCPUSet [0, 1, 2, 3, 4, 6, 7, 8] ⊆ topoSplitCore.CPUDetails.CPUs ∧
      W topoSplitCore
        (takeByTopology rtAscending topoSplitCore (NewCPUSet [0, 1, 2, 3, 4, 6, 7, 8]) 5).1
        = 3 ∧
      W topoSplitCore
        (takeByTopology rtAscending topoSplitCore (NewCPUSet [0, 1, 2, 3, 4, 6, 7, 8]) 6).1
        = 2) := by
  refine ⟨⟨by decide, by decide, by decide, by decide⟩,
    ⟨by decide, by decide, by decide, by decide⟩,
    ⟨by decide, by decide, by decide, by decide⟩⟩

/-- C27, amended: locality monotonicity on topologies of whole, nested units. For
every topology in which the CCD map has the CPUs of the CPU map, every socket, CCD and
core holds exactly `CPUsPerSocket()`, `CPUsPerCCD()` and `CPUsPerCore()` CPUs, the CPUs
of a core are on one CCD and the CPUs of a CCD on one socket, for every `available`
within the CPUs of the topology and all `n <= m <= |available|`:
`W(takeByTopology(topo, available, n)) <= W(takeByTopology(topo, available, m))`; and
for `m >= 1` the locality of the allocation of `m` CPUs is, summed over the three
levels, the smaller of the number of whole units that `m` CPUs make up and the number
of units that lie in `available`. -/
theorem locality_monotone (rt : Runtime) (topo : CPUTopology) (avail : CPUSet) (n m : Int)
    (hreg : Regular topo) (hsub : avail ⊆ topo.CPUDetails.CPUs) (hnm : n ≤ m)
    (hm : m ≤ (avail.card : Int)) :
    W topo (takeByTopology rt topo avail n).1 ≤ W topo (takeByTopology rt topo avail m).1 ∧
    (1 ≤ m → W topo (takeByTopology rt topo avail m).1
      = min (m.toNat / topo.CPUsPerSocket.toNat) (wholeSockets topo avail).card
        + min (m.toNat / topo.CPUsPerCCD.toNat) (wholeCCDs topo avail).card
        + min (m.toNat / topo.CPUsPerCore.toNat) (wholeCores topo avail).card) := by
  have hsub' : avail ⊆ topo.CPUDetails.keys := hsub
  refine ⟨?_, fun h1 => W_takeByTopology rt topo avail m hreg hsub' h1 hm⟩
  by_cases hn : n < 1
  · rw [takeByTopology_of_lt_one rt topo avail n hn]
    show W topo ∅ ≤ _
    rw [W_empty topo hreg.1]
    exact Nat.zero_le _
  · have hn1 : 1 ≤ n := by omega
    rw [W_takeByTopology rt topo avail n hreg hsub' hn1 (by omega),
      W_takeByTopology rt topo avail m hreg hsub' (by omega) hm]
    have hle : n.toNat ≤ m.toNat := by omega
    have key : ∀ (u F : Nat), min (n.toNat / u) F ≤ min (m.toNat / u) F := fun u F =>
      min_le_min (Nat.div_le_div_right hle) le_rfl
    exact Nat.add_le_add (Nat.add_le_add (key _ _) (key _ _)) (key _ _)

theorem locality_monotone_witness :
    (Regular topoDualSocketHT ∧
      NewCPUSet [0, 1, 2, 4, 5, 6, 8, 9, 10, 12, 13, 14] ⊆ topoDualSocketHT.CPUDetails.CPUs ∧
      (3 : Int) ≤ 9 ∧
      (9 : Int) ≤ ((NewCPUSet [0, 1, 2, 4, 5, 6, 8, 9, 10, 12, 13, 14]).card : Int)) ∧
    (W topoDualSocketHT (takeByTopology rtAscending topoDualSocketHT
        (NewCPUSet [0, 1, 2, 4, 5, 6, 8, 9, 10, 12, 13, 14]) 3).1 = 1 ∧
      W topoDualSocketHT (takeByTopology rtAscending topoDualSocketHT
        (NewCPUSet [0, 1, 2, 4, 5, 6, 8, 9, 10, 12, 13, 14]) 9).1 = 7) ∧
    (W topoDualSocketHT (takeByTopology rtAscending topoDualSocketHT
        (NewCPUSet [0, 1, 2, 4, 5, 6, 8, 9, 10, 12, 13, 14]) 3).1
      ≤ W topoDualSocketHT (takeByTopology rtAscending topoDualSocketHT
        (NewCPUSet [0, 1, 2, 4, 5, 6, 8, 9, 10, 12, 13, 14]) 9).1 ∧
    ((1 : Int) ≤ 9 → W topoDualSocketHT (takeByTopology rtAscending topoDualSocketHT
        (NewCPUSet [0, 1, 2, 4, 5, 6, 8, 9, 10, 12, 13, 14]) 9).1
      = min ((9 : Int).toNat / topoDualSocketHT.CPUsPerSocket.toNat)
          (wholeSockets topoDualSocketHT
            (NewCPUSet [0, 1, 2, 4, 5, 6, 8, 9, 10, 12, 13, 14])).card
        + min ((9 : Int).toNat / topoDualSocketHT.CPUsPerCCD.toNat)
          (wholeCCDs topoDualSocketHT
            (NewCPUSet [0, 1, 2, 4, 5, 6, 8, 9, 10, 12, 13, 14])).card
        + min ((9 : Int).toNat / topoDualSocketHT.CPUsPerCore.toNat)
          (wholeCores topoDualSocketHT
            (NewCPUSet [0, 1, 2, 4, 5, 6, 8, 9, 10, 12, 13, 14])).card)) :=
  ⟨⟨by decide, by decide, by decide, by decide⟩, ⟨by decide, by decide⟩,
    locality_monotone rtAscending topoDualSocketHT
      (NewCPUSet [0, 1, 2, 4, 5, 6, 8, 9, 10, 12, 13, 14]) 3 9 (by decide) (by decide)
      (by decide) (by decide)⟩

end cm

/-! ### Errors of `ParseRangeToSlice` -/

namespace utils

/-- One item of the loop of `ParseRangeToSlice`: an item that `isBadItem` describes ends
the loop with an error, a range that ends at the largest `int` keeps it from returning,
and after any other item the loop goes on with the next one. -/
theorem parseItems_cons_cases (r : List Char) (rest : List (List Char)) (rMap : Finset Int) :
    (isBadItem r = true ∧ ∃ err, parseItems (r :: rest) rMap = some (.error err)) ∨
    (isBadItem r = false ∧ endsAtMaxInt r = true ∧ parseItems (r :: rest) rMap = none) ∨
    (isBadItem r = false ∧ endsAtMaxInt r = false ∧
      ∃ rMap', parseItems (r :: rest) rMap = parseItems rest rMap') := by
  rw [parseItems]
  unfold isBadItem endsAtMaxInt
  rcases hS : strings.SplitN2 r '-' with ⟨b0, _ | b1⟩
  · dsimp only
    rcases hA : strconv.Atoi b0 with _ | elem
    · exact Or.inl ⟨rfl, _, rfl⟩
    · exact Or.inr (Or.inr ⟨rfl, rfl, _, rfl⟩)
  · dsimp only
    rcases hA : strconv.Atoi b0 with _ | start
    · exact Or.inl ⟨rfl, _, rfl⟩
    · rcases hB : strconv.Atoi b1 with _ | stop
      · exact Or.inl ⟨rfl, _, rfl⟩
      · dsimp only
        by_cases h1 : start > stop
        · rw [if_pos h1]
          exact Or.inl ⟨decide_eq_true h1, _, rfl⟩
        · rw [if_neg h1]
          by_cases h2 : stop = strconv.maxInt
          · rw [if_pos h2]
            exact Or.inr (Or.inl ⟨decide_eq_false h1, decide_eq_true h2, rfl⟩)
          · rw [if_neg h2]
            exact Or.inr (Or.inr ⟨decide_eq_false h1, decide_eq_false h2, _, rfl⟩)

theorem parseItems_outcome : ∀ (items : List (List Char)) (rMap : Finset Int),
    (∀ r ∈ items, endsAtMaxInt r = false) →
    ((∃ err, parseItems items rMap = some (.error err)) ∧ ∃ r ∈ items, isBadItem r = true) ∨
    ((∃ S, parseItems items rMap = some (.ok S)) ∧ ∀ r ∈ items, isBadItem r = false)
  | [], rMap, _ => Or.inr ⟨⟨rMap, rfl⟩, fun r hr => absurd hr (List.not_mem_nil r)⟩
  | r :: rest, rMap, hmax => by
    rcases parseItems_cons_cases r rest rMap with ⟨hb, err, he⟩ | ⟨_, hm, _⟩ | ⟨hb, _, rMap', he⟩
    · exact Or.inl ⟨⟨err, he⟩, r, List.mem_cons_self _ _, hb⟩
    · rw [hmax r (List.mem_cons_self _ _)] at hm
      cases hm
    · rw [he]
      rcases parseItems_outcome rest rMap' (fun x hx => hmax x (List.mem_cons_of_mem _ hx))
        with ⟨h1, x, hx, hxb⟩ | ⟨h1, h2⟩
      · exact Or.inl ⟨h1, x, List.mem_cons_of_mem _ hx, hxb⟩
      · refine Or.inr ⟨h1, ?_⟩
        intro x hx
        rcases List.mem_cons.1 hx with rfl | hx
        · exact hb
        · exact h2 x hx

theorem ToSlice_singleton (v : Int) : cpuset.CPUSet.ToSlice ({v} : Finset Int) = [v] := rfl

/-- C31: the error of `ParseRangeToSlice`. A range of two equal integers is not always
accepted: on `9223372036854775807-9223372036854775807`, and on any input with a range
that ends at the largest `int` before its first bad item, the call does not return.
On every input without a range that ends at the largest `int`, the call returns, it
returns an error together with the empty slice if and only if some comma-separated
item, split at its first `-`, has a part that `strconv.Atoi` does not accept or is a
range whose start is greater than its end, and otherwise it returns a slice without
error; and a range of two equal numerals below the largest `int` gives that one
integer. -/
theorem ParseRangeToSlice_error_iff (input : String)
    (hmax : ∀ r ∈ strings.Split input.toList ',', endsAtMaxInt r = false) :
    (isBadItem "9223372036854775807-9223372036854775807".toList = false ∧
      ParseRangeToSlice "9223372036854775807-9223372036854775807" = none ∧
      isBadItem ['x'] = true ∧ ParseRangeToSlice "0-9223372036854775807,x" = none) ∧
    ((∃ err, ParseRangeToSlice input = some ([], some err)) ↔
      ∃ r ∈ strings.Split input.toList ',', isBadItem r = true) ∧
    ((∃ l, ParseRangeToSlice input = some (l, none)) ↔
      ∀ r ∈ strings.Split input.toList ',', isBadItem r = false) ∧
    (∀ ds, Numeral ds → (decVal ds : Int) < strconv.maxInt →
      ParseRangeToSlice (String.mk (ds ++ '-' :: ds)) = some ([(decVal ds : Int)], none)) := by
  refine ⟨⟨by decide, by decide, by decide, by decide⟩, ?_, ?_, ?_⟩
  · unfold ParseRangeToSlice
    rcases parseItems_outcome _ ∅ hmax with ⟨⟨err, he⟩, hbad⟩ | ⟨⟨S, hS⟩, hgood⟩
    · rw [he]
      exact ⟨fun _ => hbad, fun _ => ⟨err, rfl⟩⟩
    · rw [hS]
      constructor
      · rintro ⟨err, h⟩
        simp at h
      · rintro ⟨r, hr, hb⟩
        rw [hgood r hr] at hb
        cases hb
  · unfold ParseRangeToSlice
    rcases parseItems_outcome _ ∅ hmax with ⟨⟨err, he⟩, r, hr, hb⟩ | ⟨⟨S, hS⟩, hgood⟩
    · rw [he]
      constructor
      · rintro ⟨l, h⟩
        simp at h
      · intro h
        rw [h r hr] at hb
        cases hb
    · rw [hS]
      exact ⟨fun _ => hgood, fun _ => ⟨_, rfl⟩⟩
  · intro ds hds hlt
    have hwf : ∀ it ∈ [Item.range ds ds], it.WellFormed := by
      intro it hit
      rw [List.mem_singleton] at hit
      subst hit
      exact ⟨hds, hds, le_refl _, hlt⟩
    obtain ⟨S, hS, hmem⟩ := parseItems_wellFormed [Item.range ds ds] hwf ∅
    have hsplit : strings.Split (String.mk (ds ++ '-' :: ds)).toList ','
        = [ds ++ '-' :: ds] :=
      strings.Split_of_not_mem ',' _ (render_no_comma (Item.range ds ds)
        (hwf _ (List.mem_singleton_self _)))
    have hSeq : S = {(decVal ds : Int)} := by
      ext x
      rw [hmem x, Finset.mem_singleton]
      simp only [Finset.not_mem_empty, false_or, List.mem_singleton, exists_eq_left,
        Item.Contains]
      omega
    unfold ParseRangeToSlice
    rw [hsplit]
    simp only [List.map_cons, List.map_nil, Item.render] at hS
    rw [hS, hSeq]
    dsimp only
    rw [ToSlice_singleton]

theorem ParseRangeToSlice_error_iff_witness :
    (∀ r ∈ strings.Split "1,5-3,x".toList ',', endsAtMaxInt r = false) ∧
    ParseRangeToSlice "1,5-3,x"
      = some ([], some (.invalidRange ['5', '-', '3'] 5 3)) ∧
    ParseRangeToSlice "3-3" = some ([3], none) ∧
    ((isBadItem "9223372036854775807-9223372036854775807".toList = false ∧
      ParseRangeToSlice "9223372036854775807-9223372036854775807" = none ∧
      isBadItem ['x'] = true ∧ ParseRangeToSlice "0-9223372036854775807,x" = none) ∧
    ((∃ err, ParseRangeToSlice "1,5-3,x" = some ([], some err)) ↔
      ∃ r ∈ strings.Split "1,5-3,x".toList ',', isBadItem r = true) ∧
    ((∃ l, ParseRangeToSlice "1,5-3,x" = some (l, none)) ↔
      ∀ r ∈ strings.Split "1,5-3,x".toList ',', isBadItem r = false) ∧
    (∀ ds, Numeral ds → (decVal ds : Int) < strconv.maxInt →
      ParseRangeToSlice (String.mk (ds ++ '-' :: ds))
        = some ([(decVal ds : Int)], none))) :=
  ⟨by decide, by decide, by decide, ParseRangeToSlice_error_iff "1,5-3,x" (by decide)⟩

end utils

/-! ### CCD IDs of `discoverCCD` -/

namespace cm

open cpuset

theorem any_mem_map (L : Int → CPUSet) (ls : List Int) (c : Int) :
    (ls.map L).any (fun s => decide (c ∈ s)) = true ↔ ∃ l ∈ ls, c ∈ L l := by
  simp only [List.any_eq_true, List.mem_map, decide_eq_true_eq]
  constructor
  · rintro ⟨_, ⟨l, hl, rfl⟩, hc⟩
    exact ⟨l, hl, hc⟩
  · rintro ⟨l, hl, hc⟩
    exact ⟨_, ⟨l, hl, rfl⟩, hc⟩

theorem discoverLists_leaders (L : Int → CPUSet) (U : Finset Int)
    (hself : ∀ c ∈ U, c ∈ L c)
    (hpart : ∀ c ∈ U, ∀ d ∈ U, L c = L d ∨ Disjoint (L c) (L d)) :
    ∀ (rest : List Int) (P : Finset Int) (ls : List Int), LeadersInv L P ls → P ⊆ U →
      (∀ r ∈ rest, r ∈ U) → (∀ p ∈ P, ∀ r ∈ rest, p < r) →
      rest.Sorted (fun x y => x < y) →
      ∃ ls', discoverLists (fun c => .ok (L c)) rest (ls.map L) = .ok (ls'.map L) ∧
        LeadersInv L (P ∪ rest.toFinset) ls' := by
  intro rest
  induction rest with
  | nil =>
    intro P ls hinv _ _ _ _
    refine ⟨ls, rfl, ?_⟩
    simpa using hinv
  | cons c rest ih =>
    intro P ls hinv hPU hrU hlt hsorted
    have hcU : c ∈ U := hrU c (List.mem_cons_self _ _)
    have hrest_gt : ∀ r ∈ rest, c < r := fun r hr => List.rel_of_sorted_cons hsorted r hr
    have hP' : insert c P ⊆ U := Finset.insert_subset hcU hPU
    have hlt' : ∀ p ∈ insert c P, ∀ r ∈ rest, p < r := by
      intro p hp r hr
      rcases Finset.mem_insert.1 hp with rfl | hp
      · exact hrest_gt r hr
      · exact hlt p hp r (List.mem_cons_of_mem _ hr)
    have hunion : P ∪ (c :: rest).toFinset = insert c P ∪ rest.toFinset := by
      ext x
      simp only [Finset.mem_union, List.toFinset_cons, Finset.mem_insert]
      tauto
    rw [hunion]
    unfold discoverLists
    by_cases hany : (ls.map L).any (fun s => decide (c ∈ s)) = true
    · rw [if_pos hany]
      obtain ⟨l0, hl0, hcl0⟩ := (any_mem_map L ls c).1 hany
      have hl0P := hinv.mem l0 hl0
      have heq : L c = L l0 := by
        rcases hpart c hcU l0 (hPU hl0P) with h | h
        · exact h
        · exact absurd hcl0 (Finset.disjoint_left.1 h (hself c hcU))
      refine ih (insert c P) ls ⟨hinv.sorted, ?_, ?_, ?_⟩ hP'
        (fun r hr => hrU r (List.mem_cons_of_mem _ hr)) hlt' hsorted.of_cons
      · intro l hl
        exact Finset.mem_insert_of_mem (hinv.mem l hl)
      · intro l hl y hy hyl
        rcases Finset.mem_insert.1 hy with hyc | hyP
        · rw [hyc]
          exact le_of_lt (hlt l (hinv.mem l hl) c (List.mem_cons_self _ _))
        · exact hinv.lowest l hl y hyP hyl
      · intro x hx
        rcases Finset.mem_insert.1 hx with hxc | hxP
        · rw [hxc]
          exact ⟨l0, hl0, heq⟩
        · exact hinv.cover x hxP
    · rw [if_neg hany]
      have hnone : ∀ l ∈ ls, c ∉ L l := fun l hl hc =>
        hany ((any_mem_map L ls c).2 ⟨l, hl, hc⟩)
      have hmap : ls.map L ++ [L c] = (ls ++ [c]).map L := by
        rw [List.map_append, List.map_singleton]
      dsimp only
      rw [hmap]
      refine ih (insert c P) (ls ++ [c]) ⟨?_, ?_, ?_, ?_⟩ hP'
        (fun r hr => hrU r (List.mem_cons_of_mem _ hr)) hlt' hsorted.of_cons
      · rw [List.Sorted, List.pairwise_append]
        refine ⟨hinv.sorted, List.pairwise_singleton _ _, ?_⟩
        intro a ha b hb
        rw [List.mem_singleton] at hb
        rw [hb]
        exact hlt a (hinv.mem a ha) c (List.mem_cons_self _ _)
      · intro l hl
        rcases List.mem_append.1 hl with hl | hl
        · exact Finset.mem_insert_of_mem (hinv.mem l hl)
        · rw [List.mem_singleton] at hl
          rw [hl]
          exact Finset.mem_insert_self _ _
      · intro l hl y hy hyl
        rcases List.mem_append.1 hl with hl1 | hl2
        · rcases Finset.mem_insert.1 hy with hyc | hyP
          · rw [hyc]
            exact le_of_lt (hlt l (hinv.mem l hl1) c (List.mem_cons_self _ _))
          · exact hinv.lowest l hl1 y hyP hyl
        · rw [List.mem_singleton] at hl2
          rw [hl2] at hyl ⊢
          rcases Finset.mem_insert.1 hy with hyc | hyP
          · rw [hyc]
          · exfalso
            obtain ⟨l1, hl1, hyl1⟩ := hinv.cover y hyP
            have h1 : L c = L y := by
              rcases hpart c hcU y (hPU hyP) with h | h
              · exact h
              · exact absurd (hself y (hPU hyP)) (Finset.disjoint_left.1 h hyl)
            apply hnone l1 hl1
            rw [← hyl1, ← h1]
            exact hself c hcU
      · intro x hx
        rcases Finset.mem_insert.1 hx with hxc | hxP
        · rw [hxc]
          exact ⟨c, List.mem_append_right _ (List.mem_singleton_self _), rfl⟩
        · obtain ⟨l, hl, hxl⟩ := hinv.cover x hxP
          exact ⟨l, List.mem_append_left _ hl, hxl⟩

theorem assignCCDs_untouched : ∀ (lists : List CPUSet) (k : Int) (d : CPUDetails) (x : Int),
    (∀ S ∈ lists, x ∉ S) → (assignCCDs lists k d).info x = d.info x
  | [], _, _, _, _ => rfl
  | S :: rest, k, d, x, h => by
    rw [assignCCDs, assignCCDs_untouched rest (k + 1) _ x
      (fun T hT => h T (List.mem_cons_of_mem _ hT))]
    exact if_neg (h S (List.mem_cons_self _ _))

theorem assignCCDs_keys : ∀ (lists : List CPUSet) (k : Int) (d : CPUDetails) (x : Int),
    x ∈ (assignCCDs lists k d).keys ↔ (x ∈ d.keys ∨ ∃ S ∈ lists, x ∈ S)
  | [], _, _, _ => by simp [assignCCDs]
  | S :: rest, k, d, x => by
    rw [assignCCDs, assignCCDs_keys rest (k + 1) _ x]
    simp only [Finset.mem_union, List.mem_cons, exists_eq_or_imp]
    tauto

theorem assignCCDs_index : ∀ (lists : List CPUSet) (k : Int) (d : CPUDetails),
    lists.Pairwise (fun S T => Disjoint S T) →
    ∀ (i : Nat) (hi : i < lists.length) (x : Int), x ∈ lists.get ⟨i, hi⟩ →
      ((assignCCDs lists k d).info x).CCDID = k + (i : Int)
  | [], _, _, _, i, hi, _, _ => absurd hi (Nat.not_lt_zero i)
  | S :: rest, k, d, hp, 0, _, x, hx => by
    have hx' : x ∈ S := hx
    rw [assignCCDs, assignCCDs_untouched rest (k + 1) _ x (fun T hT hxT =>
      Finset.disjoint_left.1 (List.rel_of_pairwise_cons hp hT) hx' hxT)]
    simp [hx']
  | S :: rest, k, d, hp, i + 1, hi, x, hx => by
    rw [assignCCDs, assignCCDs_index rest (k + 1) _ hp.of_cons i
      (Nat.lt_of_succ_lt_succ hi) x hx]
    push_cast
    ring

end cm
namespace cm

open cpuset

theorem leaders_inj (L : Int → CPUSet) (P : Finset Int) (ls : List Int)
    (hinv : LeadersInv L P ls) (hself : ∀ c ∈ P, c ∈ L c) {l l' : Int} (hl : l ∈ ls)
    (hl' : l' ∈ ls) (h : L l = L l') : l = l' := by
  have h1 : l ≤ l' := hinv.lowest l hl l' (hinv.mem l' hl') (by
    rw [h]
    exact hself l' (hinv.mem l' hl'))
  have h2 : l' ≤ l := hinv.lowest l' hl' l (hinv.mem l hl) (by
    rw [← h]
    exact hself l (hinv.mem l hl))
  omega

/-- The lists that `discoverCCD` collects and the CCD IDs that it assigns, under a
reader `L` that never fails: `ls` are the lowest CPUs of the lists met, in ascending
order, and a CPU of the set gets the index in `ls` of the lowest CPU of its list. -/
theorem discoverCCD_leaders (L : Int → CPUSet) (cpuSet : CPUSet)
    (hself : ∀ c ∈ cpuSet, c ∈ L c)
    (hpart : ∀ c ∈ cpuSet, ∀ d ∈ cpuSet, L c = L d ∨ Disjoint (L c) (L d)) :
    ∃ (ls : List Int) (topo : CCDTopology),
      discoverCCD (fun c => .ok (L c)) cpuSet = (some topo, none) ∧
      LeadersInv L cpuSet ls ∧ topo.NumCCDs = (ls.length : Int) ∧
      (∀ x, x ∈ topo.CPUCCDDetails.keys ↔ ∃ l ∈ ls, x ∈ L l) ∧
      ∀ (i : Nat) (hi : i < ls.length) (x : Int), x ∈ L (ls.get ⟨i, hi⟩) →
        (topo.CPUCCDDetails.info x).CCDID = (i : Int) := by
  have hsorted : cpuSet.ToSlice.Sorted (fun x y => x < y) :=
    (sorted_ToSlice cpuSet).lt_of_le (nodup_ToSlice cpuSet)
  have hinv0 : LeadersInv L ∅ [] :=
    ⟨List.sorted_nil, fun l hl => absurd hl (List.not_mem_nil l),
      fun l hl => absurd hl (List.not_mem_nil l),
      fun c hc => absurd hc (Finset.not_mem_empty c)⟩
  obtain ⟨ls, hrun, hinv⟩ := discoverLists_leaders L cpuSet hself hpart cpuSet.ToSlice ∅ []
    hinv0 (Finset.empty_subset _) (fun r hr => (mem_ToSlice cpuSet r).1 hr)
    (fun p hp => absurd hp (Finset.not_mem_empty p)) hsorted
  have hP : ∅ ∪ cpuSet.ToSlice.toFinset = cpuSet := by
    ext x
    simp [mem_ToSlice]
  rw [hP] at hinv
  have hrun' : discoverLists (fun c => Except.ok (L c)) cpuSet.ToSlice [] = .ok (ls.map L) :=
    hrun
  have hpair : (ls.map L).Pairwise (fun S T => Disjoint S T) := by
    rw [List.pairwise_map]
    have hs : ls.Pairwise (fun x y => x < y) := hinv.sorted
    refine hs.imp_of_mem ?_
    intro a b ha hb hab
    rcases hpart a (hinv.mem a ha) b (hinv.mem b hb) with h | h
    · have := leaders_inj L cpuSet ls hinv hself ha hb h
      omega
    · exact h
  refine ⟨ls, ⟨((ls.map L).length : Int),
    assignCCDs (ls.map L) 0 ⟨∅, fun _ => ⟨0⟩⟩⟩, ?_, hinv, ?_, ?_, ?_⟩
  · unfold discoverCCD
    rw [hrun']
  · simp
  · intro x
    rw [assignCCDs_keys]
    simp only [Finset.not_mem_empty, false_or, List.mem_map]
    constructor
    · rintro ⟨_, ⟨l, hl, rfl⟩, hx⟩
      exact ⟨l, hl, hx⟩
    · rintro ⟨l, hl, hx⟩
      exact ⟨_, ⟨l, hl, rfl⟩, hx⟩
  · intro i hi x hx
    have hi' : i < (ls.map L).length := by
      rw [List.length_map]
      exact hi
    have := assignCCDs_index (ls.map L) 0 ⟨∅, fun _ => ⟨0⟩⟩ hpair i hi' x (by
      simpa using hx)
    rw [this]
    ring

/-- C32: CCD IDs are assigned in discovery order starting at 0. For every CPU set and
every shared-CPU-list reader that never fails (it returns the list `L c` for the CPU
`c`), under which each CPU of the set belongs to its own list and the lists of two
CPUs of the set are either equal or disjoint, `discoverCCD` returns no error and a
topology in which `NumCCDs` is the number of distinct lists met by the CPU set, every
CPU of the set has a CCD ID in `0..NumCCDs-1`, every such ID is the one of some CPU of
the set, two CPUs of the set have the same ID iff they share a list, and the ID of one
is below the ID of the other iff its list has a CPU of the set that is lower than
every CPU of the set in the list of the other (the lists are numbered in ascending
order of their lowest CPU in the set). -/
theorem discoverCCD_ids (L : Int → CPUSet) (cpuSet : CPUSet)
    (hself : ∀ c ∈ cpuSet, c ∈ L c)
    (hpart : ∀ c ∈ cpuSet, ∀ d ∈ cpuSet, L c = L d ∨ Disjoint (L c) (L d)) :
    ∃ topo : CCDTopology,
      discoverCCD (fun c => .ok (L c)) cpuSet = (some topo, none) ∧
      topo.NumCCDs = ((cpuSet.image L).card : Int) ∧
      (∀ c ∈ cpuSet, c ∈ topo.CPUCCDDetails.keys ∧
        0 ≤ (topo.CPUCCDDetails.info c).CCDID ∧
        (topo.CPUCCDDetails.info c).CCDID < topo.NumCCDs) ∧
      (∀ i : Int, 0 ≤ i → i < topo.NumCCDs →
        ∃ c ∈ cpuSet, (topo.CPUCCDDetails.info c).CCDID = i) ∧
      (∀ c ∈ cpuSet, ∀ d ∈ cpuSet,
        ((topo.CPUCCDDetails.info c).CCDID = (topo.CPUCCDDetails.info d).CCDID ↔
          L c = L d)) ∧
      (∀ c ∈ cpuSet, ∀ d ∈ cpuSet,
        ((topo.CPUCCDDetails.info c).CCDID < (topo.CPUCCDDetails.info d).CCDID ↔
          ∃ x ∈ cpuSet, x ∈ L c ∧ ∀ y ∈ cpuSet, y ∈ L d → x < y)) := by
  obtain ⟨ls, topo, hrun, hinv, hnum, hkeys, hid⟩ := discoverCCD_leaders L cpuSet hself hpart
  -- every CPU of the set has the index of the lowest CPU of its list
  have hcpu : ∀ c ∈ cpuSet, ∃ n : Fin ls.length, L c = L (ls.get n) ∧
      (topo.CPUCCDDetails.info c).CCDID = ((n : Nat) : Int) := by
    intro c hc
    obtain ⟨l, hl, hcl⟩ := hinv.cover c hc
    obtain ⟨n, hn⟩ := List.mem_iff_get.1 hl
    refine ⟨n, by rw [hcl, hn], hid n n.2 c ?_⟩
    rw [hn, ← hcl]
    exact hself c hc
  have hnodup : ls.Nodup := hinv.sorted.nodup
  have hmono : StrictMono ls.get := hinv.sorted.get_strictMono
  have hget_mem : ∀ n : Fin ls.length, ls.get n ∈ ls := fun n => List.get_mem _ _ _
  refine ⟨topo, hrun, ?_, ?_, ?_, ?_, ?_⟩
  · rw [hnum]
    congr 1
    have himg : cpuSet.image L = (ls.map L).toFinset := by
      ext S
      simp only [Finset.mem_image, List.mem_toFinset, List.mem_map]
      constructor
      · rintro ⟨c, hc, rfl⟩
        obtain ⟨l, hl, hcl⟩ := hinv.cover c hc
        exact ⟨l, hl, hcl.symm⟩
      · rintro ⟨l, hl, rfl⟩
        exact ⟨l, hinv.mem l hl, rfl⟩
    have hnd : (ls.map L).Nodup := by
      rw [List.nodup_map_iff_inj_on hnodup]
      intro a ha b hb hab
      exact leaders_inj L cpuSet ls hinv hself ha hb hab
    rw [himg, List.toFinset_card_of_nodup hnd, List.length_map]
  · intro c hc
    obtain ⟨n, hL, hn⟩ := hcpu c hc
    refine ⟨(hkeys c).2 ⟨ls.get n, hget_mem n, ?_⟩, ?_, ?_⟩
    · rw [← hL]
      exact hself c hc
    · rw [hn]
      exact Int.ofNat_nonneg _
    · rw [hn, hnum]
      exact_mod_cast n.2
  · intro i h0 hi
    rw [hnum] at hi
    have hi' : i.toNat < ls.length := by omega
    refine ⟨ls.get ⟨i.toNat, hi'⟩, hinv.mem _ (hget_mem _), ?_⟩
    rw [hid i.toNat hi' _ (hself _ (hinv.mem _ (hget_mem _)))]
    omega
  · intro c hc d hd
    obtain ⟨n, hLc, hn⟩ := hcpu c hc
    obtain ⟨m, hLd, hm⟩ := hcpu d hd
    rw [hn, hm]
    constructor
    · intro h
      have hnm : n = m := Fin.ext (by exact_mod_cast h)
      rw [hLc, hLd, hnm]
    · intro h
      have h2 : L (ls.get n) = L (ls.get m) := by rw [← hLc, ← hLd, h]
      have h3 := leaders_inj L cpuSet ls hinv hself (hget_mem n) (hget_mem m) h2
      have h4 : n = m := hnodup.get_inj_iff.1 h3
      rw [h4]
  · intro c hc d hd
    obtain ⟨n, hLc, hn⟩ := hcpu c hc
    obtain ⟨m, hLd, hm⟩ := hcpu d hd
    rw [hn, hm]
    constructor
    · intro h
      have hnm : n < m := by exact_mod_cast h
      have hlt : ls.get n < ls.get m := hmono hnm
      refine ⟨ls.get n, hinv.mem _ (hget_mem n), ?_, ?_⟩
      · rw [hLc]
        exact hself _ (hinv.mem _ (hget_mem n))
      · intro y hy hyd
        rw [hLd] at hyd
        have := hinv.lowest _ (hget_mem m) y hy hyd
        omega
    · rintro ⟨x, hx, hxc, hall⟩
      rw [hLc] at hxc
      have h1 := hinv.lowest _ (hget_mem n) x hx hxc
      have h2 := hall (ls.get m) (hinv.mem _ (hget_mem m)) (by
        rw [hLd]
        exact hself _ (hinv.mem _ (hget_mem m)))
      have hlt : ls.get n < ls.get m := by omega
      have hnm : n < m := hmono.lt_iff_lt.1 hlt
      exact_mod_cast hnm

end cm
namespace cm

open cpuset

theorem discoverCCD_ids_witness :
    ((∀ c ∈ NewCPUSet [1, 2, 3], c ∈ sharedListOf c) ∧
      (∀ c ∈ NewCPUSet [1, 2, 3], ∀ d ∈ NewCPUSet [1, 2, 3],
        sharedListOf c = sharedListOf d ∨ Disjoint (sharedListOf c) (sharedListOf d))) ∧
    ((discoverCCD (fun c => .ok (sharedListOf c)) (NewCPUSet [1, 2, 3])).1.map
      (fun t => (t.NumCCDs, [1, 2, 3].map (fun c => (t.CPUCCDDetails.info c).CCDID)))
      = some (2, [0, 0, 1])) ∧
    ∃ topo : CCDTopology,
      discoverCCD (fun c => .ok (sharedListOf c)) (NewCPUSet [1, 2, 3]) = (some topo, none) ∧
      topo.NumCCDs = (((NewCPUSet [1, 2, 3]).image sharedListOf).card : Int) ∧
      (∀ c ∈ NewCPUSet [1, 2, 3], c ∈ topo.CPUCCDDetails.keys ∧
        0 ≤ (topo.CPUCCDDetails.info c).CCDID ∧
        (topo.CPUCCDDetails.info c).CCDID < topo.NumCCDs) ∧
      (∀ i : Int, 0 ≤ i → i < topo.NumCCDs →
        ∃ c ∈ NewCPUSet [1, 2, 3], (topo.CPUCCDDetails.info c).CCDID = i) ∧
      (∀ c ∈ NewCPUSet [1, 2, 3], ∀ d ∈ NewCPUSet [1, 2, 3],
        ((topo.CPUCCDDetails.info c).CCDID = (topo.CPUCCDDetails.info d).CCDID ↔
          sharedListOf c = sharedListOf d)) ∧
      (∀ c ∈ NewCPUSet [1, 2, 3], ∀ d ∈ NewCPUSet [1, 2, 3],
        ((topo.CPUCCDDetails.info c).CCDID < (topo.CPUCCDDetails.info d).CCDID ↔
          ∃ x ∈ NewCPUSet [1, 2, 3], x ∈ sharedListOf c ∧
            ∀ y ∈ NewCPUSet [1, 2, 3], y ∈ sharedListOf d → x < y)) :=
  ⟨⟨by decide, by decide⟩, by decide,
    discoverCCD_ids sharedListOf (NewCPUSet [1, 2, 3]) (by decide) (by decide)⟩

end cm

/-! ### Whole units of the topology in phases 1 to 3 -/

namespace cm

open cpuset cpuAccumulator

theorem mem_take_of_rank :
    ∀ (l : List Int), l.Sorted (fun x y => x < y) → ∀ (k : Nat) (s : Int), s ∈ l →
      (l.toFinset.filter (fun t => t < s)).card < k → s ∈ l.take k := by
  intro l
  induction l with
  | nil => intro _ k s hs; simp at hs
  | cons a t ih =>
    intro hsorted k s hs hrank
    obtain ⟨k, rfl⟩ : ∃ j, k = j + 1 := ⟨k - 1, by omega⟩
    rw [List.take_succ_cons, List.mem_cons]
    rcases List.mem_cons.1 hs with hsa | hst
    · exact Or.inl hsa
    · right
      have hlt : a < s := List.rel_of_sorted_cons hsorted s hst
      have hnot : a ∉ t.toFinset := by
        intro h
        exact lt_irrefl a (List.rel_of_sorted_cons hsorted a (List.mem_toFinset.1 h))
      have hset : (a :: t).toFinset.filter (fun u => u < s)
          = insert a (t.toFinset.filter (fun u => u < s)) := by
        rw [List.toFinset_cons, Finset.filter_insert, if_pos hlt]
      have hnot2 : a ∉ t.toFinset.filter (fun u => u < s) := fun h =>
        hnot (Finset.mem_filter.1 h).1
      rw [hset, Finset.card_insert_of_not_mem hnot2] at hrank
      exact ih hsorted.of_cons k s hst (by omega)

theorem toFinset_ToSlice (s : CPUSet) : s.ToSlice.toFinset = s := by
  ext x
  rw [List.mem_toFinset, mem_ToSlice]

theorem freeSockets_eq_wholeSockets (topo : CPUTopology) (avail : CPUSet) (n : Int)
    (hsub : avail ⊆ topo.CPUDetails.CPUs)
    (huni : ∀ s ∈ topo.CPUDetails.Sockets,
      (topo.CPUDetails.CPUsInSockets s).Size = topo.CPUsPerSocket) :
    (newCPUAccumulator topo avail n).freeSockets = CPUSet.ToSlice (wholeSockets topo avail) := by
  have hk := newCPUAccumulator_details_keys topo avail n hsub
  have hv := newCPUAccumulator_viewOfTopo topo avail n
  have hiff : ∀ s ∈ topo.CPUDetails.Sockets,
      ((newCPUAccumulator topo avail n).isSocketFree s = true ↔
        topo.CPUDetails.CPUsInSockets s ⊆ avail) := by
    intro s hs
    have hu := huni s hs
    have htopo : (newCPUAccumulator topo avail n).topo = topo := rfl
    have key := filter_card_eq_iff topo.CPUDetails.keys
      (newCPUAccumulator topo avail n).details.keys hv.details_keys
      (fun cpu => (topo.CPUDetails.info cpu).SocketID = s)
    rw [hk] at key
    simp only [isSocketFree, decide_eq_true_eq, htopo, ← hu, CPUSet.Size,
      topology.CPUDetails.CPUsInSockets, hv.details_info, hk]
    exact key
  have hset : (newCPUAccumulator topo avail n).details.Sockets.Filter
      (newCPUAccumulator topo avail n).isSocketFree = wholeSockets topo avail := by
    ext s
    simp only [CPUSet.Filter, Finset.mem_filter, wholeSockets]
    constructor
    · rintro ⟨hs, hfree⟩
      have hs' : s ∈ topo.CPUDetails.Sockets := by
        rw [topology.CPUDetails.Sockets, Finset.mem_image] at hs ⊢
        obtain ⟨x, hx, hxs⟩ := hs
        rw [hv.details_info] at hxs
        exact ⟨x, hv.details_keys hx, hxs⟩
      exact ⟨hs', (hiff s hs').1 hfree⟩
    · rintro ⟨hs, hall⟩
      refine ⟨?_, (hiff s hs).2 hall⟩
      rw [topology.CPUDetails.Sockets, Finset.mem_image] at hs ⊢
      obtain ⟨x, hx, hxs⟩ := hs
      refine ⟨x, ?_, by rw [hv.details_info]; exact hxs⟩
      rw [hk]
      apply hall
      rw [topology.CPUDetails.CPUsInSockets, Finset.mem_filter]
      exact ⟨hx, hxs⟩
  rw [freeSockets, hset]

/-- C20, as amended. Phase 1 takes whole sockets in ascending ID order. For every
runtime, every topology with `CPUsPerSocket() ≥ 1` each of whose sockets holds exactly
`CPUsPerSocket()` CPUs, every available set within the CPUs of the topology and every
`n` with `CPUsPerSocket() ≤ n ≤ |available|`: if `F` sockets are free, that is, have all
the CPUs that the topology places on them in `available`, then the result of
`takeByTopology`, which returns no error, contains every CPU that the topology places on
each of the `min(n / CPUsPerSocket(), F)` lowest-ID free sockets (the free sockets `s`
with fewer than that many free sockets of lower ID). -/
theorem takeByTopology_whole_sockets (rt : Runtime) (topo : CPUTopology) (avail : CPUSet)
    (n : Int) (hcps : 1 ≤ topo.CPUsPerSocket) (hsub : avail ⊆ topo.CPUDetails.CPUs)
    (hn : topo.CPUsPerSocket ≤ n) (hle : n ≤ (avail.card : Int))
    (huni : ∀ s ∈ topo.CPUDetails.Sockets,
      (topo.CPUDetails.CPUsInSockets s).Size = topo.CPUsPerSocket)
    (s : Int) (hs : s ∈ wholeSockets topo avail)
    (hrank : (((wholeSockets topo avail).filter (fun t => t < s)).card : Int)
      < min (n / topo.CPUsPerSocket) ((wholeSockets topo avail).card : Int)) :
    (takeByTopology rt topo avail n).2 = none ∧
      topo.CPUDetails.CPUsInSockets s ⊆ (takeByTopology rt topo avail n).1 := by
  refine ⟨(takeByTopology_spec rt topo avail n (by omega)).2.2 hsub hle, ?_⟩
  have hlist := freeSockets_eq_wholeSockets topo avail n hsub huni
  have hfirst := (takeSockets_firsts_taken rt topo avail n hcps hsub hn hle).2 s
  rw [hlist] at hfirst
  have hlen : (CPUSet.ToSlice (wholeSockets topo avail)).length = (wholeSockets topo avail).card := by
    rw [← List.toFinset_card_of_nodup (nodup_ToSlice _), toFinset_ToSlice]
  have hmem : s ∈ (CPUSet.ToSlice (wholeSockets topo avail)).take
      (min (n / topo.CPUsPerSocket).toNat (CPUSet.ToSlice (wholeSockets topo avail)).length) := by
    apply mem_take_of_rank _ ((sorted_ToSlice _).lt_of_le (nodup_ToSlice _)) _ _
      ((mem_ToSlice _ _).2 hs)
    rw [toFinset_ToSlice, hlen]
    omega
  refine (hfirst hmem).2 (huni s ?_)
  exact (Finset.mem_filter.1 hs).1

theorem takeByTopology_whole_sockets_witness :
    ((1 : Int) ≤ topoDualSocketHT.CPUsPerSocket ∧
      NewCPUSet [0, 1, 2, 3, 4, 5, 6, 7, 8, 9, 10, 11, 12, 13, 14, 15]
        ⊆ topoDualSocketHT.CPUDetails.CPUs ∧
      topoDualSocketHT.CPUsPerSocket ≤ 16 ∧
      (16 : Int) ≤ ((NewCPUSet [0, 1, 2, 3, 4, 5, 6, 7, 8, 9, 10, 11, 12, 13, 14, 15]).card : Int) ∧
      (∀ s ∈ topoDualSocketHT.CPUDetails.Sockets,
        (topoDualSocketHT.CPUDetails.CPUsInSockets s).Size = topoDualSocketHT.CPUsPerSocket) ∧
      (1 : Int) ∈ wholeSockets topoDualSocketHT
        (NewCPUSet [0, 1, 2, 3, 4, 5, 6, 7, 8, 9, 10, 11, 12, 13, 14, 15]) ∧
      (((wholeSockets topoDualSocketHT
          (NewCPUSet [0, 1, 2, 3, 4, 5, 6, 7, 8, 9, 10, 11, 12, 13, 14, 15])).filter
          (fun t => t < 1)).card : Int)
        < min (16 / topoDualSocketHT.CPUsPerSocket) ((wholeSockets topoDualSocketHT
          (NewCPUSet [0, 1, 2, 3, 4, 5, 6, 7, 8, 9, 10, 11, 12, 13, 14, 15])).card : Int)) ∧
    ((takeByTopology rtAscending topoDualSocketHT
        (NewCPUSet [0, 1, 2, 3, 4, 5, 6, 7, 8, 9, 10, 11, 12, 13, 14, 15]) 16).2 = none ∧
      topoDualSocketHT.CPUDetails.CPUsInSockets 1
        ⊆ (takeByTopology rtAscending topoDualSocketHT
          (NewCPUSet [0, 1, 2, 3, 4, 5, 6, 7, 8, 9, 10, 11, 12, 13, 14, 15]) 16).1) :=
  ⟨⟨by decide, by decide, by decide, by decide, by decide, by decide, by decide⟩,
    takeByTopology_whole_sockets rtAscending topoDualSocketHT
      (NewCPUSet [0, 1, 2, 3, 4, 5, 6, 7, 8, 9, 10, 11, 12, 13, 14, 15]) 16
      (by decide) (by decide) (by decide) (by decide) (by decide) 1 (by decide) (by decide)⟩

/-- C20, counterexample. `topoUneven` satisfies the invariants of section 3 and has
`CPUsPerSocket() = 2`; with its four CPUs available and `n = 2` the two sockets are free
(all their topology CPUs are available), `min(n / CPUsPerSocket(), F) = 1`, and the
lowest-ID free socket is socket 0 with the CPUs 0, 1 and 2; `takeByTopology` returns the
CPUs 0 and 3, and whatever the runtime its result does not contain the CPUs of
socket 0. -/
theorem takeByTopology_sockets_uneven :
    Section3 topoUneven ∧ (1 : Int) ≤ topoUneven.CPUsPerSocket ∧
      NewCPUSet [0, 1, 2, 3] ⊆ topoUneven.CPUDetails.CPUs ∧
      topoUneven.CPUsPerSocket ≤ 2 ∧ (2 : Int) ≤ ((NewCPUSet [0, 1, 2, 3]).card : Int) ∧
      wholeSockets topoUneven (NewCPUSet [0, 1, 2, 3]) = NewCPUSet [0, 1] ∧
      min ((2 : Int) / topoUneven.CPUsPerSocket)
        ((wholeSockets topoUneven (NewCPUSet [0, 1, 2, 3])).card : Int) = 1 ∧
      topoUneven.CPUDetails.CPUsInSockets 0 = NewCPUSet [0, 1, 2] ∧
      takeByTopology rtAscending topoUneven (NewCPUSet [0, 1, 2, 3]) 2
        = (NewCPUSet [0, 3], none) ∧
      ∀ rt : Runtime, ¬ topoUneven.CPUDetails.CPUsInSockets 0
        ⊆ (takeByTopology rt topoUneven (NewCPUSet [0, 1, 2, 3]) 2).1 := by
  refine ⟨by decide, by decide, by decide, by decide, by decide, by decide, by decide,
    by decide, by decide, ?_⟩
  intro rt hsub
  have hspec := takeByTopology_spec rt topoUneven (NewCPUSet [0, 1, 2, 3]) 2 (by decide)
  have hcard := hspec.2.1 (hspec.2.2 (by decide) (by decide))
  have h3 : (topoUneven.CPUDetails.CPUsInSockets 0).card = 3 := by decide
  have := Finset.card_le_card hsub
  omega

end cm

namespace cm

open cpuset cpuAccumulator

/-- C21, as amended. A request for exactly one CCD's worth of CPUs gets one whole CCD
when one is free. For every runtime, every topology each of whose CCDs holds exactly
`CPUsPerCCD()` CPUs, every `available` within the CPUs of the topology and
`n = CPUsPerCCD()` with `1 <= n < CPUsPerSocket()`: if some CCD is free, that is, has all
the CPUs that the topology places on it in `available`, then `freeCCDs()` of the initial
accumulator is not empty, its first element is a free CCD, and `takeByTopology` returns,
without error, exactly the CPUs that the topology places on that CCD. -/
theorem takeByTopology_one_ccd (rt : Runtime) (topo : CPUTopology) (avail : CPUSet)
    (n : Int) (hsub : avail ⊆ topo.CPUDetails.CPUs) (hn : n = topo.CPUsPerCCD)
    (h1 : 1 ≤ n) (hlt : n < topo.CPUsPerSocket)
    (huni : ∀ c ∈ topo.CPUCCDDetails.CCDs,
      (topo.CPUCCDDetails.CPUsInCCDs c).Size = topo.CPUsPerCCD)
    (hfree : ∃ c ∈ topo.CPUCCDDetails.CCDs, topo.CPUCCDDetails.CPUsInCCDs c ⊆ avail) :
    ∃ c0 rest, (newCPUAccumulator topo avail n).freeCCDs rt = c0 :: rest ∧
      c0 ∈ topo.CPUCCDDetails.CCDs ∧ topo.CPUCCDDetails.CPUsInCCDs c0 ⊆ avail ∧
      takeByTopology rt topo avail n = (topo.CPUCCDDetails.CPUsInCCDs c0, none) := by
  have hv := newCPUAccumulator_viewOfTopo topo avail n
  have htopo : (newCPUAccumulator topo avail n).topo = topo := rfl
  obtain ⟨c, hc, hcsub⟩ := hfree
  have hcfree : (newCPUAccumulator topo avail n).isCCDFree c = true := by
    have key := filter_card_eq_iff topo.CPUCCDDetails.keys
      (newCPUAccumulator topo avail n).ccdDetail.keys hv.ccd_keys
      (fun cpu => (topo.CPUCCDDetails.info cpu).CCDID = c)
    have hu := huni c hc
    simp only [isCCDFree, decide_eq_true_eq, htopo, ← hu, CPUSet.Size,
      CPUDetails.CPUsInCCDs, hv.ccd_info]
    refine key.2 ?_
    intro x hx
    have hx' := Finset.mem_filter.1 hx
    simp only [newCPUAccumulator, CPUDetails.KeepOnly, Finset.mem_filter]
    refine ⟨hx'.1, hcsub ?_⟩
    rw [CPUDetails.CPUsInCCDs]
    exact hx
  obtain ⟨c0, rest, hlist, _, htbt, hsubTopo, hfull⟩ :=
    takeCCDs_first_returned rt topo avail n hsub hn h1 hlt ⟨c, hcfree⟩
  have hmem : c0 ∈ (newCPUAccumulator topo avail n).freeCCDs rt := by
    rw [hlist]
    exact List.mem_cons_self _ _
  obtain ⟨⟨cpu, hcpu, _, hccd⟩, _⟩ := (mem_freeCCDs rt _ c0).1 hmem
  have hc0 : c0 ∈ topo.CPUCCDDetails.CCDs := by
    rw [CPUDetails.CCDs, Finset.mem_image]
    refine ⟨cpu, hv.ccd_keys hcpu, ?_⟩
    rw [hv.ccd_info] at hccd
    exact hccd
  have heq := hfull (huni c0 hc0)
  refine ⟨c0, rest, hlist, hc0, ?_, ?_⟩
  · rw [← heq]
    intro x hx
    have hx' := (Finset.mem_filter.1 hx).1
    simp only [newCPUAccumulator, CPUDetails.KeepOnly, Finset.mem_filter] at hx'
    exact hx'.2
  · rw [htbt, heq]

theorem takeByTopology_one_ccd_witness :
    (NewCPUSet [0, 1, 2, 3, 4, 5, 6, 7] ⊆ topoSingleSocketHT.CPUDetails.CPUs ∧
      (4 : Int) = topoSingleSocketHT.CPUsPerCCD ∧ (1 : Int) ≤ 4 ∧
      (4 : Int) < topoSingleSocketHT.CPUsPerSocket ∧
      (∀ c ∈ topoSingleSocketHT.CPUCCDDetails.CCDs,
        (topoSingleSocketHT.CPUCCDDetails.CPUsInCCDs c).Size = topoSingleSocketHT.CPUsPerCCD) ∧
      (0 : Int) ∈ topoSingleSocketHT.CPUCCDDetails.CCDs ∧
      topoSingleSocketHT.CPUCCDDetails.CPUsInCCDs 0 ⊆ NewCPUSet [0, 1, 2, 3, 4, 5, 6, 7]) ∧
    takeByTopology rtAscending topoSingleSocketHT (NewCPUSet [0, 1, 2, 3, 4, 5, 6, 7]) 4
      = (NewCPUSet [0, 2, 4, 6], none) ∧
    ∃ c0 rest,
      (newCPUAccumulator topoSingleSocketHT (NewCPUSet [0, 1, 2, 3, 4, 5, 6, 7]) 4).freeCCDs
        rtAscending = c0 :: rest ∧
      c0 ∈ topoSingleSocketHT.CPUCCDDetails.CCDs ∧
      topoSingleSocketHT.CPUCCDDetails.CPUsInCCDs c0 ⊆ NewCPUSet [0, 1, 2, 3, 4, 5, 6, 7] ∧
      takeByTopology rtAscending topoSingleSocketHT (NewCPUSet [0, 1, 2, 3, 4, 5, 6, 7]) 4
        = (topoSingleSocketHT.CPUCCDDetails.CPUsInCCDs c0, none) :=
  ⟨⟨by decide, by decide, by decide, by decide, by decide, by decide, by decide⟩, by decide,
    takeByTopology_one_ccd rtAscending topoSingleSocketHT (NewCPUSet [0, 1, 2, 3, 4, 5, 6, 7]) 4
      (by decide) (by decide) (by decide) (by decide) (by decide)
      ⟨0, by decide, by decide⟩⟩

/-- C21, counterexample. `topoBigCCD` satisfies the invariants of section 3 and has
`CPUsPerCCD() = 2 < CPUsPerSocket() = 4`; with its four CPUs available the two CCDs are
free (all their topology CPUs are available), yet `freeCCDs()` is empty whatever the
runtime, a request for `n = 2` CPUs returns the CPUs 0 and 1, and whatever the runtime
the result is the CPU set of no CCD. -/
theorem takeByTopology_ccd_uneven :
    Section3 topoBigCCD ∧ NewCPUSet [0, 1, 2, 3] ⊆ topoBigCCD.CPUDetails.CPUs ∧
      (2 : Int) = topoBigCCD.CPUsPerCCD ∧ (2 : Int) < topoBigCCD.CPUsPerSocket ∧
      wholeCCDs topoBigCCD (NewCPUSet [0, 1, 2, 3]) = NewCPUSet [0, 1] ∧
      topoBigCCD.CPUCCDDetails.CPUsInCCDs 0 = NewCPUSet [0, 1, 2] ∧
      topoBigCCD.CPUCCDDetails.CPUsInCCDs 1 = NewCPUSet [3] ∧
      takeByTopology rtAscending topoBigCCD (NewCPUSet [0, 1, 2, 3]) 2
        = (NewCPUSet [0, 1], none) ∧
      (∀ rt : Runtime,
        (newCPUAccumulator topoBigCCD (NewCPUSet [0, 1, 2, 3]) 2).freeCCDs rt = []) ∧
      ∀ rt : Runtime, ∀ c ∈ topoBigCCD.CPUCCDDetails.CCDs,
        (takeByTopology rt topoBigCCD (NewCPUSet [0, 1, 2, 3]) 2).1
          ≠ topoBigCCD.CPUCCDDetails.CPUsInCCDs c := by
  refine ⟨by decide, by decide, by decide, by decide, by decide, by decide, by decide,
    by decide, ?_, ?_⟩
  · intro rt
    apply List.eq_nil_iff_forall_not_mem.2
    intro c hc
    obtain ⟨⟨cpu, hcpu, _, hccd⟩, hfree⟩ := (mem_freeCCDs rt _ c).1 hc
    have hcs : c = 0 ∨ c = 1 := by
      have : c ∈ topoBigCCD.CPUCCDDetails.CCDs := by
        rw [CPUDetails.CCDs, Finset.mem_image]
        exact ⟨cpu, (newCPUAccumulator_viewOfTopo _ _ _).ccd_keys hcpu, hccd⟩
      have hall : ∀ d ∈ topoBigCCD.CPUCCDDetails.CCDs, d = 0 ∨ d = 1 := by decide
      exact hall c this
    rcases hcs with rfl | rfl
    · exact absurd hfree (by decide)
    · exact absurd hfree (by decide)
  · intro rt c hc heq
    have hspec := takeByTopology_spec rt topoBigCCD (NewCPUSet [0, 1, 2, 3]) 2 (by decide)
    have hcard := hspec.2.1 (hspec.2.2 (by decide) (by decide))
    have hall : ∀ d ∈ topoBigCCD.CPUCCDDetails.CCDs,
        ((topoBigCCD.CPUCCDDetails.CPUsInCCDs d).card : Int) ≠ 2 := by decide
    rw [heq] at hcard
    exact hall c hc hcard

/-- C22, as amended. A request for exactly one core's worth of CPUs gets one whole core
when one is free. For every runtime, every topology whose CCD map covers every CPU and
each of whose cores holds exactly `CPUsPerCore()` CPUs, every `available` and
`n = CPUsPerCore()` with `1 <= n`, `n < CPUsPerCCD()` and `n < CPUsPerSocket()`: if some
core is free, that is, has all the CPUs that the topology places on it in `available`,
then the candidate list of phase 3 is not empty, its first element is a free core, and
`takeByTopology` returns, without error, exactly the CPUs that the topology places on
that core. -/
theorem takeByTopology_one_core (rt : Runtime) (topo : CPUTopology) (avail : CPUSet)
    (n : Int) (hcover : topo.CPUDetails.CPUs ⊆ topo.CPUCCDDetails.CPUs)
    (hn : n = topo.CPUsPerCore) (h1 : 1 ≤ n) (hltC : n < topo.CPUsPerCCD)
    (hltS : n < topo.CPUsPerSocket)
    (huni : ∀ c ∈ topo.CPUDetails.Cores,
      (topo.CPUDetails.CPUsInCores c).Size = topo.CPUsPerCore)
    (hfree : ∃ c ∈ topo.CPUDetails.Cores, topo.CPUDetails.CPUsInCores c ⊆ avail) :
    ∃ c0 rest,
      rt.sortSlice (bestFitLess (newCPUAccumulator topo avail n))
        ((newCPUAccumulator topo avail n).freeCores rt) = c0 :: rest ∧
      c0 ∈ topo.CPUDetails.Cores ∧ topo.CPUDetails.CPUsInCores c0 ⊆ avail ∧
      takeByTopology rt topo avail n = (topo.CPUDetails.CPUsInCores c0, none) := by
  have hv := newCPUAccumulator_viewOfTopo topo avail n
  have htopo : (newCPUAccumulator topo avail n).topo = topo := rfl
  obtain ⟨c, hc, hcsub⟩ := hfree
  have hcfree : (newCPUAccumulator topo avail n).isCoreFree c = true := by
    have key := filter_card_eq_iff topo.CPUDetails.keys
      (newCPUAccumulator topo avail n).details.keys hv.details_keys
      (fun cpu => (topo.CPUDetails.info cpu).CoreID = c)
    have hu := huni c hc
    simp only [isCoreFree, decide_eq_true_eq, htopo, ← hu, CPUSet.Size,
      topology.CPUDetails.CPUsInCores, hv.details_info]
    refine key.2 ?_
    intro x hx
    have hx' := Finset.mem_filter.1 hx
    simp only [newCPUAccumulator, topology.CPUDetails.KeepOnly, Finset.mem_filter]
    refine ⟨hx'.1, hcsub ?_⟩
    rw [topology.CPUDetails.CPUsInCores]
    exact hx
  obtain ⟨c0, rest, hlist, hc0free, htbt, hsubTopo, hfull⟩ :=
    takeCores_first_returned rt topo avail n hcover hn h1 hltC hltS ⟨c, hcfree⟩
  have hc0 : c0 ∈ topo.CPUDetails.Cores := by
    have hsize : (((newCPUAccumulator topo avail n).details.CPUsInCores c0).card : Int) = n := by
      simp only [isCoreFree, CPUSet.Size, decide_eq_true_eq, htopo] at hc0free
      rw [hc0free, hn]
    have hpos : 0 < ((newCPUAccumulator topo avail n).details.CPUsInCores c0).card := by
      omega
    obtain ⟨cpu, hcpu⟩ := Finset.card_pos.1 hpos
    have hcpu' := hsubTopo hcpu
    rw [topology.CPUDetails.CPUsInCores, Finset.mem_filter] at hcpu'
    rw [topology.CPUDetails.Cores, Finset.mem_image]
    exact ⟨cpu, hcpu'.1, hcpu'.2⟩
  have heq := hfull (huni c0 hc0)
  refine ⟨c0, rest, hlist, hc0, ?_, ?_⟩
  · rw [← heq]
    intro x hx
    have hx' := (Finset.mem_filter.1 hx).1
    simp only [newCPUAccumulator, topology.CPUDetails.KeepOnly, Finset.mem_filter] at hx'
    exact hx'.2
  · rw [htbt, heq]

theorem takeByTopology_one_core_witness :
    (topoSingleSocketHT.CPUDetails.CPUs ⊆ topoSingleSocketHT.CPUCCDDetails.CPUs ∧
      (2 : Int) = topoSingleSocketHT.CPUsPerCore ∧ (1 : Int) ≤ 2 ∧
      (2 : Int) < topoSingleSocketHT.CPUsPerCCD ∧
      (2 : Int) < topoSingleSocketHT.CPUsPerSocket ∧
      (∀ c ∈ topoSingleSocketHT.CPUDetails.Cores,
        (topoSingleSocketHT.CPUDetails.CPUsInCores c).Size = topoSingleSocketHT.CPUsPerCore) ∧
      (2 : Int) ∈ topoSingleSocketHT.CPUDetails.Cores ∧
      topoSingleSocketHT.CPUDetails.CPUsInCores 2 ⊆ NewCPUSet [0, 1, 2, 6]) ∧
    takeByTopology rtAscending topoSingleSocketHT (NewCPUSet [0, 1, 2, 6]) 2
      = (NewCPUSet [2, 6], none) ∧
    ∃ c0 rest,
      rtAscending.sortSlice
        (bestFitLess (newCPUAccumulator topoSingleSocketHT (NewCPUSet [0, 1, 2, 6]) 2))
        ((newCPUAccumulator topoSingleSocketHT (NewCPUSet [0, 1, 2, 6]) 2).freeCores
          rtAscending) = c0 :: rest ∧
      c0 ∈ topoSingleSocketHT.CPUDetails.Cores ∧
      topoSingleSocketHT.CPUDetails.CPUsInCores c0 ⊆ NewCPUSet [0, 1, 2, 6] ∧
      takeByTopology rtAscending topoSingleSocketHT (NewCPUSet [0, 1, 2, 6]) 2
        = (topoSingleSocketHT.CPUDetails.CPUsInCores c0, none) :=
  ⟨⟨by decide, by decide, by decide, by decide, by decide, by decide, by decide, by decide⟩,
    by decide,
    takeByTopology_one_core rtAscending topoSingleSocketHT (NewCPUSet [0, 1, 2, 6]) 2
      (by decide) (by decide) (by decide) (by decide) (by decide) (by decide)
      ⟨2, by decide, by decide⟩⟩

/-- C22, counterexample. On `topoBigCore`, whose CCD map covers every CPU and which
satisfies the invariants of section 3, `CPUsPerCore() = 2` is below `CPUsPerCCD() = 4`
and `CPUsPerSocket() = 4`; with the CPUs 0, 1 and 2 available core 0 is free (its
topology CPUs 0, 1, 2 are all available), yet a request for `n = 2` CPUs returns the
CPUs 0 and 1, and whatever the runtime the result is the CPU set of no core. -/
theorem takeByTopology_core_uneven :
    Section3 topoBigCore ∧ topoBigCore.CPUDetails.CPUs ⊆ topoBigCore.CPUCCDDetails.CPUs ∧
      NewCPUSet [0, 1, 2] ⊆ topoBigCore.CPUDetails.CPUs ∧
      (2 : Int) = topoBigCore.CPUsPerCore ∧ (2 : Int) < topoBigCore.CPUsPerCCD ∧
      (2 : Int) < topoBigCore.CPUsPerSocket ∧
      wholeCores topoBigCore (NewCPUSet [0, 1, 2]) = NewCPUSet [0] ∧
      topoBigCore.CPUDetails.CPUsInCores 0 = NewCPUSet [0, 1, 2] ∧
      (newCPUAccumulator topoBigCore (NewCPUSet [0, 1, 2]) 2).freeCores rtAscending = [] ∧
      takeByTopology rtAscending topoBigCore (NewCPUSet [0, 1, 2]) 2
        = (NewCPUSet [0, 1], none) ∧
      ∀ rt : Runtime, ∀ c ∈ topoBigCore.CPUDetails.Cores,
        (takeByTopology rt topoBigCore (NewCPUSet [0, 1, 2]) 2).1
          ≠ topoBigCore.CPUDetails.CPUsInCores c := by
  refine ⟨by decide, by decide, by decide, by decide, by decide, by decide, by decide,
    by decide, by decide, by decide, ?_⟩
  intro rt c hc heq
  have hspec := takeByTopology_spec rt topoBigCore (NewCPUSet [0, 1, 2]) 2 (by decide)
  have hcard := hspec.2.1 (hspec.2.2 (by decide) (by decide))
  have hall : ∀ d ∈ topoBigCore.CPUDetails.Cores,
      ((topoBigCore.CPUDetails.CPUsInCores d).card : Int) ≠ 2 := by decide
  rw [heq] at hcard
  exact hall c hc hcard

/-- C24. Phase 4 takes the first elements of one fixed ordering. Whenever
`takeByTopology` enters phase 4, in the state `a3` with the remaining demand
`r = a3.numCPUsNeeded`, then `r` is at least 1 and at most the length of `freeCPUs()`
of `a3`, no CPU of that list is in the result yet, and `takeByTopology` returns,
without error, the result of `a3` together with the first `r` elements of the list. In
particular, for `available` within the CPUs of the topology (the input contract), when
`1 <= n <= |available|` and `n` is smaller than every non-zero unit size,
`takeByTopology` returns, without error, the set of the first `n` elements of
`freeCPUs()` of the initial accumulator. -/
theorem phase4_takes_first (rt : Runtime) (topo : CPUTopology) (avail : CPUSet) (n : Int) :
    (∀ a3, phase4Entry rt topo avail n = some a3 →
      1 ≤ a3.numCPUsNeeded ∧ a3.numCPUsNeeded ≤ ((a3.freeCPUs rt).length : Int) ∧
      (∀ c ∈ a3.freeCPUs rt, c ∉ a3.result) ∧
      takeByTopology rt topo avail n =
        (a3.result ∪ ((a3.freeCPUs rt).take a3.numCPUsNeeded.toNat).toFinset, none)) ∧
    (avail ⊆ topo.CPUDetails.CPUs → 1 ≤ n → n ≤ (avail.card : Int) →
      (topo.CPUsPerSocket ≠ 0 → n < topo.CPUsPerSocket) →
      (topo.CPUsPerCCD ≠ 0 → n < topo.CPUsPerCCD) →
      (topo.CPUsPerCore ≠ 0 → n < topo.CPUsPerCore) →
      takeByTopology rt topo avail n =
        ((((newCPUAccumulator topo avail n).freeCPUs rt).take n.toNat).toFinset, none)) := by
  refine ⟨(phase4_firsts rt topo avail n).1, ?_⟩
  intro hsub h1 hle hS hC hK
  refine (phase4_firsts rt topo avail n).2 h1 ?_ hS hC hK
  rw [Finset.inter_eq_right.2 hsub]
  exact hle

theorem phase4_takes_first_witness :
    (phase4Entry rtAscending topoSingleSocketHT (NewCPUSet [0, 1, 2, 3, 4, 5, 6, 7]) 1
        = some (newCPUAccumulator topoSingleSocketHT (NewCPUSet [0, 1, 2, 3, 4, 5, 6, 7]) 1) ∧
      NewCPUSet [0, 1, 2, 3, 4, 5, 6, 7] ⊆ topoSingleSocketHT.CPUDetails.CPUs ∧
      (1 : Int) ≤ 1 ∧
      (1 : Int) ≤ ((NewCPUSet [0, 1, 2, 3, 4, 5, 6, 7]).card : Int) ∧
      (topoSingleSocketHT.CPUsPerSocket ≠ 0 → 1 < topoSingleSocketHT.CPUsPerSocket) ∧
      (topoSingleSocketHT.CPUsPerCCD ≠ 0 → 1 < topoSingleSocketHT.CPUsPerCCD) ∧
      (topoSingleSocketHT.CPUsPerCore ≠ 0 → 1 < topoSingleSocketHT.CPUsPerCore)) ∧
    takeByTopology rtAscending topoSingleSocketHT (NewCPUSet [0, 1, 2, 3, 4, 5, 6, 7]) 1
      = (NewCPUSet [0], none) ∧
    (1 ≤ (newCPUAccumulator topoSingleSocketHT
        (NewCPUSet [0, 1, 2, 3, 4, 5, 6, 7]) 1).numCPUsNeeded ∧
      (newCPUAccumulator topoSingleSocketHT (NewCPUSet [0, 1, 2, 3, 4, 5, 6, 7]) 1).numCPUsNeeded
        ≤ (((newCPUAccumulator topoSingleSocketHT
          (NewCPUSet [0, 1, 2, 3, 4, 5, 6, 7]) 1).freeCPUs rtAscending).length : Int) ∧
      (∀ c ∈ (newCPUAccumulator topoSingleSocketHT
          (NewCPUSet [0, 1, 2, 3, 4, 5, 6, 7]) 1).freeCPUs rtAscending,
        c ∉ (newCPUAccumulator topoSingleSocketHT
          (NewCPUSet [0, 1, 2, 3, 4, 5, 6, 7]) 1).result) ∧
      takeByTopology rtAscending topoSingleSocketHT (NewCPUSet [0, 1, 2, 3, 4, 5, 6, 7]) 1 =
        ((newCPUAccumulator topoSingleSocketHT (NewCPUSet [0, 1, 2, 3, 4, 5, 6, 7]) 1).result
          ∪ (((newCPUAccumulator topoSingleSocketHT
              (NewCPUSet [0, 1, 2, 3, 4, 5, 6, 7]) 1).freeCPUs rtAscending).take
            (newCPUAccumulator topoSingleSocketHT
              (NewCPUSet [0, 1, 2, 3, 4, 5, 6, 7]) 1).numCPUsNeeded.toNat).toFinset, none)) ∧
    takeByTopology rtAscending topoSingleSocketHT (NewCPUSet [0, 1, 2, 3, 4, 5, 6, 7]) 1 =
      ((((newCPUAccumulator topoSingleSocketHT
        (NewCPUSet [0, 1, 2, 3, 4, 5, 6, 7]) 1).freeCPUs rtAscending).take
          (1 : Int).toNat).toFinset, none) :=
  have hentry := phase4Entry_initial rtAscending topoSingleSocketHT
    (NewCPUSet [0, 1, 2, 3, 4, 5, 6, 7]) 1 (by decide) (by decide) (by decide) (by decide)
    (by decide)
  ⟨⟨hentry, by decide, by decide, by decide, by decide, by decide, by decide⟩, by decide,
    (phase4_takes_first rtAscending topoSingleSocketHT
      (NewCPUSet [0, 1, 2, 3, 4, 5, 6, 7]) 1).1 _ hentry,
    (phase4_takes_first rtAscending topoSingleSocketHT
      (NewCPUSet [0, 1, 2, 3, 4, 5, 6, 7]) 1).2 (by decide) (by decide) (by decide) (by decide)
      (by decide) (by decide)⟩

end cm
